import Mathlib

/-! # TetrisJS: shallow embedding of the game engine

Embeds `src/js/tetromino.js`, `src/js/playfield.js` and the game logic of
`src/js/main.js`.  JavaScript numbers that the engine manipulates are integers
and are modelled by `Int`; every bitwise operator goes through the 32-bit
conversions of the language (`toInt32`, `toUint32`, shift counts modulo 32).
DOM rendering, sound and high scores carry no game state and are left out.
-/

namespace TetrisJS

/-! ## JavaScript integer operators -/

/-- ToUint32 of the language: the value modulo 2^32. -/
def toUint32 (v : Int) : Nat := (v % 4294967296).toNat

/-- ToInt32 of the language: the value modulo 2^32, read as a signed 32-bit number. -/
def toInt32 (v : Int) : Int :=
  if v % 4294967296 ≥ 2147483648 then v % 4294967296 - 4294967296 else v % 4294967296

/-- Shift counts are taken modulo 32. -/
def shiftCount (n : Int) : Nat := (n % 32).toNat

/-- The operator `a >>> n`. -/
def ushr (a n : Int) : Int := ((toUint32 a >>> shiftCount n : Nat) : Int)

/-- The operator `a << n`. -/
def shl (a n : Int) : Int := toInt32 ((toUint32 a <<< shiftCount n : Nat) : Int)

/-- The operator `a >> n`. -/
def sar (a n : Int) : Int := toInt32 a / 2 ^ shiftCount n

/-- The operator `a | b`. -/
def bor (a b : Int) : Int := toInt32 ((toUint32 a ||| toUint32 b : Nat) : Int)

/-- The operator `a & b`. -/
def band (a b : Int) : Int := toInt32 ((toUint32 a &&& toUint32 b : Nat) : Int)

/-- The operator `~a`. -/
def bnot (a : Int) : Int := -(toInt32 a) - 1

/-- The operator `a % b` (remainder with the sign of the dividend). -/
def jsMod (a b : Int) : Int := Int.tmod a b

/-- Array read `arr[i]`; `none` stands for `undefined`. -/
def arrayGet (arr : List Int) (i : Int) : Option Int :=
  if 0 ≤ i then arr.get? i.toNat else none

/-- Array write `arr[i] = v` at an index inside the array.  A write at a negative
index only adds a named property and leaves every element as it was. -/
def arraySet (arr : List Int) (i : Int) (v : Int) : List Int :=
  if 0 ≤ i then arr.set i.toNat v else arr

/-- The order in which `for (row = 0..3) for (column = 0..3)` visits the 4x4 grid. -/
def grid4 : List (Nat × Nat) :=
  [(0, 0), (0, 1), (0, 2), (0, 3),
   (1, 0), (1, 1), (1, 2), (1, 3),
   (2, 0), (2, 1), (2, 2), (2, 3),
   (3, 0), (3, 1), (3, 2), (3, 3)]

/-! ## tetromino.js -/

/-- The seven keys of `BASE_GRIDS`, in source order. -/
inductive Shape where
  | I | O | T | S | Z | J | L
  deriving DecidableEq

/-- All shape keys, as `Object.keys(ROTATIONS)` lists them. -/
def Shape.all : List Shape := [.I, .O, .T, .S, .Z, .J, .L]

/-- Base 4x4 grids; the character 1 means a filled cell. -/
def BASE_GRIDS : Shape → List String
  | .I => ["0000", "1111", "0000", "0000"]
  | .O => ["0000", "0110", "0110", "0000"]
  | .T => ["0000", "0100", "1110", "0000"]
  | .S => ["0000", "0110", "1100", "0000"]
  | .Z => ["0000", "1100", "0110", "0000"]
  | .J => ["0000", "1000", "1110", "0000"]
  | .L => ["0000", "0010", "1110", "0000"]

/-- Source: `bitIndex(row, column)`. -/
def bitIndex (row column : Int) : Int := 15 - (row * 4 + column)

/-- The character `lines[row][column]`. -/
def charAt (lines : List String) (row column : Nat) : Option Char :=
  (lines.getD row "").toList.get? column

/-- The test `(mask >>> bitIndex(row, column)) & 1` used by every scan of a mask. -/
def maskBit (mask : Int) (row column : Int) : Bool :=
  band (ushr mask (bitIndex row column)) 1 ≠ 0

/-- Source: `gridToMask(lines)`. -/
def gridToMask (lines : List String) : Int :=
  let mask := grid4.foldl (fun mask rc =>
    if charAt lines rc.1 rc.2 = some '1' then
      bor mask (shl 1 (bitIndex rc.1 rc.2))
    else mask) (0 : Int)
  ushr mask 0

/-- Source: `rotateMaskCW(mask)`. -/
def rotateMaskCW (mask : Int) : Int :=
  let out := grid4.foldl (fun out rc =>
    if maskBit mask rc.1 rc.2 then
      let rotatedRow : Int := rc.2
      let rotatedColumn : Int := 3 - rc.1
      bor out (shl 1 (bitIndex rotatedRow rotatedColumn))
    else out) (0 : Int)
  ushr out 0

/-- Source: `buildRotationsFromGrid(gridLines)`. -/
def buildRotationsFromGrid (gridLines : List String) : List Int :=
  let r0 := gridToMask gridLines
  let r1 := rotateMaskCW r0
  let r2 := rotateMaskCW r1
  let r3 := rotateMaskCW r2
  [r0, r1, r2, r3]

/-- Source: the table `ROTATIONS`. -/
def ROTATIONS (k : Shape) : List Int := buildRotationsFromGrid (BASE_GRIDS k)

/-- A piece: shape key, rotation index and the top-left corner of its 4x4 box. -/
structure Tetromino where
  type : Shape
  rotation : Int
  x : Int
  y : Int
  deriving DecidableEq

namespace Tetromino

/-- The field `rotations` set by the constructor. -/
def rotations (p : Tetromino) : List Int := ROTATIONS p.type

/-- Source: `Tetromino.random(x, y)`, with the random key as an argument; the
constructor sets rotation 0 when no rotation option is given. -/
def random (k : Shape) (x y : Int) : Tetromino :=
  { type := k, rotation := 0, x := x, y := y }

/-- Source: the getter `mask`.  An index outside the table reads `undefined`,
which every use (`>>>`) converts to 0. -/
def mask (p : Tetromino) : Int := (arrayGet p.rotations p.rotation).getD 0

/-- Source: `rotateCW()`. -/
def rotateCW (p : Tetromino) : Tetromino := { p with rotation := jsMod (p.rotation + 1) 4 }

/-- Source: `rotateCCW()`. -/
def rotateCCW (p : Tetromino) : Tetromino := { p with rotation := jsMod (p.rotation + 3) 4 }

/-- Source: `move(dx, dy)`. -/
def move (p : Tetromino) (dx dy : Int) : Tetromino := { p with x := p.x + dx, y := p.y + dy }

/-- Source: `forEachCell(cb)`, the callback threading a state of type `σ`. -/
def forEachCell {σ : Type} (p : Tetromino) (cb : σ → Int → Int → σ) (init : σ) : σ :=
  let m := p.mask
  grid4.foldl (fun acc rc =>
    if maskBit m rc.1 rc.2 then cb acc (p.x + rc.2) (p.y + rc.1) else acc) init

/-- Source: `cells()`. -/
def cells (p : Tetromino) : List (Int × Int) :=
  p.forEachCell (fun out x y => out ++ [(x, y)]) []

end Tetromino

/-! ## playfield.js -/

/-- The board: `cols`, `rows` and the row bit masks `rowState`. -/
structure Playfield where
  cols : Int
  rows : Int
  rowState : List Int
  deriving DecidableEq

/-- Answer of `clearFullLinesAnimated`. -/
structure ClearResult where
  count : Nat
  rows : List Nat
  deriving DecidableEq

namespace Playfield

/-- The constructor allocates `rows` entries and every later assignment keeps that length. -/
def WellFormed (pf : Playfield) : Prop := (pf.rowState.length : Int) = pf.rows

instance (pf : Playfield) : Decidable pf.WellFormed :=
  inferInstanceAs (Decidable ((pf.rowState.length : Int) = pf.rows))

/-- The read `this.rowState[y]`; `undefined` is only ever shifted, hence 0. -/
def rowAt (pf : Playfield) (y : Int) : Int := (arrayGet pf.rowState y).getD 0

/-- Source: `#inside(x, y)`. -/
def inside (pf : Playfield) (x y : Int) : Bool :=
  decide (x ≥ 0) && decide (x < pf.cols) && decide (y < pf.rows)

/-- Source: `isOccupied(x, y)`. -/
def isOccupied (pf : Playfield) (x y : Int) : Bool :=
  if y < 0 ∨ y ≥ pf.rows then false
  else
    let rowMask := pf.rowAt y
    band (ushr rowMask x) 1 = 1

/-- Source: `setOccupied(x, y, occupied)`. -/
def setOccupied (pf : Playfield) (x y : Int) (occupied : Bool) : Playfield :=
  if !pf.inside x y then pf
  else if occupied then
    { pf with rowState := arraySet pf.rowState y (bor (pf.rowAt y) (shl 1 x)) }
  else
    { pf with rowState := arraySet pf.rowState y (band (pf.rowAt y) (bnot (shl 1 x))) }

/-- Source: `canPlace(piece, dx, dy, rotationDelta)`; a `return false` inside the
loops is a failed conjunct. -/
def canPlace (pf : Playfield) (piece : Tetromino) (dx dy rotationDelta : Int) : Bool :=
  let rotationIndex := jsMod (piece.rotation + rotationDelta + 4) 4
  let mask := (arrayGet piece.rotations rotationIndex).getD 0
  grid4.all fun rc =>
    if maskBit mask rc.1 rc.2 then
      let x := piece.x + rc.2 + dx
      let y := piece.y + rc.1 + dy
      if x < 0 ∨ x ≥ pf.cols ∨ y ≥ pf.rows then false
      else if y < 0 then true
      else if pf.isOccupied x y then false
      else true
    else true

/-- Source: `mergePiece(piece)`. -/
def mergePiece (pf : Playfield) (piece : Tetromino) : Playfield :=
  piece.forEachCell (fun pf x y =>
    if y ≥ 0 ∧ x ≥ 0 ∧ x < pf.cols ∧ y < pf.rows then pf.setOccupied x y true else pf) pf

/-- The constant `fullMask` of `clearFullLinesAnimated`. -/
def fullMask (pf : Playfield) : Int :=
  if pf.cols ≥ 31 then 0x7fffffff else shl 1 pf.cols - 1

/-- The list `fullRows` collected by the first loop of `clearFullLinesAnimated`. -/
def fullRows (pf : Playfield) : List Nat :=
  (List.range pf.rows.toNat).filter fun y => pf.rowState.get? y = some pf.fullMask

/-- Source: `clearFullLinesAnimated(callbackAfter)`, the synchronous part: the
answer, and the captured `fullRows` of the timer it sets (none when no row is full). -/
def clearFullLinesAnimated (pf : Playfield) : ClearResult × Option (List Nat) :=
  let fullRows := pf.fullRows
  if fullRows.length = 0 then ({ count := 0, rows := [] }, none)
  else ({ count := fullRows.length, rows := fullRows }, some fullRows)

/-- The body of the timer set by `clearFullLinesAnimated`, up to the call of
`callbackAfter`: the rows listed in `fullRows` are dropped and as many empty rows
are put on top. -/
def removeRows (pf : Playfield) (fullRows : List Nat) : Playfield :=
  let kept := (List.range pf.rows.toNat).filterMap fun y =>
    if fullRows.contains y then none else pf.rowState.get? y
  let cleared := pf.rows - kept.length
  if cleared > 0 then
    { pf with rowState := List.replicate cleared.toNat 0 ++ kept }
  else pf

/-- The operation `clearFullLines`: `clearFullLinesAnimated` followed at once by the
timer it has set. -/
def clearFullLines (pf : Playfield) : ClearResult × Playfield :=
  match pf.clearFullLinesAnimated with
  | (res, none) => (res, pf)
  | (res, some fullRows) => (res, pf.removeRows fullRows)

/-- Source: `reset()`. -/
def reset (pf : Playfield) : Playfield :=
  { pf with rowState := pf.rowState.map fun _ => 0 }

end Playfield

/-! ## main.js

The closure variables of the `DOMContentLoaded` handler form the game state.  A
timer set with `setTimeout` is kept in the state until it fires; the random shape
drawn by `Tetromino.random` is an argument of the step that draws it. -/

/-- The variables `pf`, `piece`, `score`, `linesClearedTotal`, `level`, `paused` and
`gameOver`, the 220 ms timers of `clearFullLinesAnimated` that have not fired yet
(each with the `fullRows` it captured, oldest first), the number of 450 ms
timers of `animateClearAndShowGameOver` that have not fired yet, and the flag
`_muted` of the sound manager `sfx`. -/
structure GameState where
  pf : Playfield
  piece : Tetromino
  score : Int
  linesClearedTotal : Int
  level : Int
  paused : Bool
  gameOver : Bool
  pendingClears : List (List Nat)
  pendingResets : Nat
  muted : Bool := false
  deriving DecidableEq

/-- Source: `updateScore(delta)`. -/
def updateScore (s : GameState) (delta : Int) : GameState :=
  if delta ≠ 0 then { s with score := s.score + delta } else s

/-- Source: `updateLines(delta)`. -/
def updateLines (s : GameState) (delta : Int) : GameState :=
  if delta ≠ 0 then { s with linesClearedTotal := s.linesClearedTotal + delta } else s

/-- Source: `updateLevel()`; `Math.floor(n / 10)` is the floor division by 10. -/
def updateLevel (s : GameState) : GameState :=
  let newLevel := s.linesClearedTotal / 10 + 1
  if newLevel ≠ s.level then { s with level := newLevel } else s

/-- Source: `tryMove(dx, dy)`: the returned flag and the state after the call. -/
def tryMove (s : GameState) (dx dy : Int) : Bool × GameState :=
  if s.pf.canPlace s.piece dx dy 0 then
    (true, { s with piece := s.piece.move dx dy })
  else (false, s)

/-- Source: `tryRotate(delta)`. -/
def tryRotate (s : GameState) (delta : Int) : Bool × GameState :=
  if s.pf.canPlace s.piece 0 0 delta then
    (true, { s with piece := if delta = 1 then s.piece.rotateCW else s.piece.rotateCCW })
  else (false, s)

/-- Source: `spawnNext()`, drawing the shape `next`; when the new piece does not
fit the game is over and `animateClearAndShowGameOver` sets its timer. -/
def spawnNext (s : GameState) (next : Shape) : GameState :=
  let piece := Tetromino.random next (sar s.pf.cols 1 - 2) (-1)
  if !s.pf.canPlace piece 0 0 0 then
    { s with piece := piece, gameOver := true, pendingResets := s.pendingResets + 1 }
  else { s with piece := piece }

/-- The scoring table of `lockAndSpawn`. -/
def scoreTable : List Int := [0, 100, 300, 500, 800]

/-- The expression `table[count] || 0`. -/
def lockPoints (count : Nat) : Int :=
  match scoreTable.get? count with
  | some v => if v ≠ 0 then v else 0
  | none => 0

/-- The block `if (count > 0) { ... }` of the callback that `lockAndSpawn` passes to
`clearFullLinesAnimated`. -/
def scoreLock (s : GameState) (count : Nat) : GameState :=
  if count > 0 then
    let pts := lockPoints count
    updateLevel (updateLines (updateScore s pts) count)
  else s

/-- The callback that `lockAndSpawn` passes to `clearFullLinesAnimated`. -/
def lockCallback (s : GameState) (count : Nat) (next : Shape) : GameState :=
  spawnNext (scoreLock s count) next

/-- Source: `lockAndSpawn()`: merge, start the line clearing, and spawn at once
when no row is full. -/
def lockAndSpawn (s : GameState) (next : Shape) : GameState :=
  let pf1 := s.pf.mergePiece s.piece
  let res := pf1.clearFullLinesAnimated
  let s1 : GameState :=
    match res.2 with
    | some fullRows => { s with pf := pf1, pendingClears := s.pendingClears ++ [fullRows] }
    | none => { s with pf := pf1 }
  if res.1.count = 0 then spawnNext s1 next else s1

/-- The oldest 220 ms timer fires: the rows are removed, then the callback runs. -/
def clearTimeout (s : GameState) (next : Shape) : GameState :=
  match s.pendingClears with
  | [] => s
  | fullRows :: rest =>
    lockCallback { s with pf := s.pf.removeRows fullRows, pendingClears := rest }
      fullRows.length next

/-- The loop `let dy = 0; while (pf.canPlace(piece, 0, dy + 1, 0)) dy++;` of
`hardDrop`, run for at most `fuel` tests. -/
def hardDropLoop (pf : Playfield) (piece : Tetromino) : Nat → Int → Option Int
  | 0, _ => none
  | fuel + 1, dy =>
    if pf.canPlace piece 0 (dy + 1) 0 then hardDropLoop pf piece fuel (dy + 1) else some dy

/-- Source: `hardDrop()`. -/
def hardDrop (fuel : Nat) (s : GameState) (next : Shape) : Option GameState :=
  match hardDropLoop s.pf s.piece fuel 0 with
  | none => none
  | some dy =>
    let s1 := if dy > 0 then { s with piece := s.piece.move 0 dy } else s
    some (lockAndSpawn s1 next)

/-- The loop of `drawGhostPiece`, run for at most `fuel` tests. -/
def ghostLoop (pf : Playfield) (piece : Tetromino) : Nat → Int → Option Int
  | 0, _ => none
  | fuel + 1, dy =>
    if pf.canPlace piece 0 (dy + 1) 0 then ghostLoop pf piece fuel (dy + 1) else some dy

/-- Source: `drawGhostPiece(piece)`: the drop distance found and the board cells
that get the ghost class. -/
def Playfield.drawGhostPiece (pf : Playfield) (piece : Tetromino) (fuel : Nat) :
    Option (Int × List (Int × Int)) :=
  match ghostLoop pf piece fuel 0 with
  | none => none
  | some dy =>
    if dy < 0 then some (dy, [])
    else some (dy, (piece.cells.map fun c => (c.1, c.2 + dy)).filter fun c =>
      !(decide (c.1 < 0) || decide (c.1 ≥ pf.cols) || decide (c.2 < 0) || decide (c.2 ≥ pf.rows)))

/-! ## Numbers of `gravityIntervalMs`

`Math.pow` and `*` compute on IEEE-754 doubles.  A finite double is modelled by
the rational number it denotes, and an arithmetic result by the rounding of the
exact result to the nearest double, ties to even. -/

/-- Nearest integer, ties to even. -/
def roundHalfEven (q : ℚ) : ℤ :=
  if q - ⌊q⌋ < 1 / 2 then ⌊q⌋
  else if 1 / 2 < q - ⌊q⌋ then ⌊q⌋ + 1
  else if ⌊q⌋ % 2 = 0 then ⌊q⌋ else ⌊q⌋ + 1

/-- Exponent of the binade of `q`: floor of log2 |q|, but -1022 for subnormals. -/
def binade (q : ℚ) : ℤ := max (Int.log 2 |q|) (-1022)

/-- The double nearest to an exact result `q` (53-bit significand; results beyond
the largest double do not occur in `gravityIntervalMs`). -/
def roundDouble (q : ℚ) : ℚ :=
  roundHalfEven (q / 2 ^ (binade q - 52)) * 2 ^ (binade q - 52)

/-- The literal `0.85`: the double nearest to 85/100. -/
def literal085 : ℚ := 7656119366529843 / 9007199254740992

/-- Source: `gravityIntervalMs()`, reading the variable `level`; `pow` stands for
the engine's `Math.pow`, whose result the language leaves to the implementation. -/
def gravityIntervalMs (pow : ℚ → ℤ → ℚ) (level : ℤ) : ℤ :=
  let base : ℚ := 1000
  let factor := pow literal085 (level - 1)
  max 120 ⌊roundDouble (base * factor)⌋

/-- What is assumed of `Math.pow` at base 0.85: exponent 0 gives 1, exponent 1
gives the base, and for larger integer exponents the result is within a relative
error of 2^-40 of the exact power, up to an absolute error of 2^-100 that covers
underflow. -/
def PowAccurate (pow : ℚ → ℤ → ℚ) : Prop :=
  pow literal085 0 = 1 ∧ pow literal085 1 = literal085
  ∧ ∀ n : ℕ, 2 ≤ n →
      |pow literal085 n - literal085 ^ n| ≤ literal085 ^ n / 2 ^ 40 + 1 / 2 ^ 100

/-- A correctly rounded power function, one instance of `PowAccurate`. -/
def roundedPow (b : ℚ) (n : ℤ) : ℚ := roundDouble (b ^ n)

/-! ## main.js: commands, timers and runs -/

/-- Source: `startNewGame()`, drawing the shape `next`. -/
def startNewGame (s : GameState) (next : Shape) : GameState :=
  let pf := s.pf.reset
  let piece := Tetromino.random next (sar pf.cols 1 - 2) (-1)
  let s1 := updateScore { s with pf := pf, piece := piece, gameOver := false, score := 0 } 0
  let s2 := updateLines { s1 with linesClearedTotal := 0 } 0
  let s3 := updateLevel { s2 with level := 1 }
  { s3 with paused := false }

/-- Source: `togglePause()`. -/
def togglePause (s : GameState) : GameState := { s with paused := !s.paused }

/-- Source: `toggleMute()`, that is `sfx.toggleMute()` of sound.js. -/
def toggleMute (s : GameState) : GameState := { s with muted := !s.muted }

/-- Source: the `keydown` listener, for the key `e.key`. -/
def keydown (fuel : Nat) (s : GameState) (key : String) (next : Shape) : Option GameState :=
  if key = "p" ∨ key = "P" then some (togglePause s)
  else if key = "m" ∨ key = "M" then some (toggleMute s)
  else if s.gameOver then
    if key = "Enter" then some (startNewGame s next) else some s
  else if s.paused then some s
  else if key = "ArrowLeft" ∨ key = "a" ∨ key = "A" then some (tryMove s (-1) 0).2
  else if key = "ArrowRight" ∨ key = "d" ∨ key = "D" then some (tryMove s 1 0).2
  else if key = "ArrowDown" ∨ key = "s" ∨ key = "S" then
    let r := tryMove s 0 1
    if !r.1 then some (lockAndSpawn r.2 next) else some r.2
  else if key = "ArrowUp" ∨ key = "w" ∨ key = "W" then some (tryRotate s 1).2
  else if key = "z" ∨ key = "Z" ∨ key = "q" ∨ key = "Q" then some (tryRotate s (-1)).2
  else if key = " " ∨ key = "Spacebar" then hardDrop fuel s next
  else some s

/-- Source: the callback that `resetGravity` passes to `setInterval`. -/
def gravityTick (s : GameState) (next : Shape) : GameState :=
  if !s.gameOver && !s.paused then
    let r := tryMove s 0 1
    if !r.1 then lockAndSpawn r.2 next else r.2
  else s

/-- The oldest 450 ms timer of `animateClearAndShowGameOver` fires: `reset()`. -/
def gameOverTimeout (s : GameState) : GameState :=
  if s.pendingResets > 0 then
    { s with pf := s.pf.reset, pendingResets := s.pendingResets - 1 }
  else s

/-- Source: `handleTouchStart` on a double tap. -/
def touchRotate (s : GameState) : GameState :=
  if s.paused || s.gameOver then s else (tryRotate s 1).2

/-- The loop `while (delta !== 0)` of `handleTouchMove`; `n` is the size of `delta`. -/
def touchMoveLoop : Nat → GameState → Int → GameState
  | 0, s, _ => s
  | n + 1, s, delta =>
    if delta = 0 then s
    else if delta > 0 then
      let r := tryMove s 1 0
      if !r.1 then r.2 else touchMoveLoop n r.2 (delta - 1)
    else
      let r := tryMove s (-1) 0
      if !r.1 then r.2 else touchMoveLoop n r.2 (delta + 1)

/-- Source: `handleTouchMove`, for a drag of `delta` steps. -/
def touchMove (s : GameState) (delta : Int) : GameState :=
  if s.paused || s.gameOver then s else touchMoveLoop delta.natAbs s delta

/-- Source: `handleTouchEnd` on a downward swipe. -/
def touchDrop (fuel : Nat) (s : GameState) (next : Shape) : Option GameState :=
  if s.paused || s.gameOver then some s else hardDrop fuel s next

/-- What can happen to the page: a key, a gravity tick, a timer firing, a click on
one of the three buttons, a touch gesture. -/
inductive Event where
  | key (k : String)
  | gravity
  | clearTimer
  | gameOverTimer
  | clickPause
  | clickMute
  | clickRestart
  | touchRotate
  | touchMove (delta : Int)
  | touchDrop
  deriving DecidableEq

/-- The handler of each event; `next` is the shape drawn if a piece is spawned. -/
def step (fuel : Nat) (s : GameState) (e : Event) (next : Shape) : Option GameState :=
  match e with
  | .key k => keydown fuel s k next
  | .gravity => some (gravityTick s next)
  | .clearTimer => some (clearTimeout s next)
  | .gameOverTimer => some (gameOverTimeout s)
  | .clickPause => some (togglePause s)
  | .clickMute => some (toggleMute s)
  | .clickRestart => some (startNewGame s next)
  | .touchRotate => some (touchRotate s)
  | .touchMove delta => some (touchMove s delta)
  | .touchDrop => touchDrop fuel s next

/-- The state set up by the `DOMContentLoaded` handler: a 12 x 24 board and a first
piece of shape `first`. -/
def initialState (first : Shape) : GameState :=
  { pf := { cols := 12, rows := 24, rowState := List.replicate 24 0 },
    piece := Tetromino.random first (sar 12 1 - 2) (-1),
    score := 0, linesClearedTotal := 0, level := 1, paused := false, gameOver := false,
    pendingClears := [], pendingResets := 0, muted := false }

/-- A run: the events in order, each with the shape drawn by a spawn it causes. -/
def run (fuel : Nat) : GameState → List (Event × Shape) → Option GameState
  | s, [] => some s
  | s, (e, next) :: rest =>
    match step fuel s e next with
    | none => none
    | some s' => run fuel s' rest

/-- States the page can be in: the initial state and whatever an event leads to. -/
inductive Reachable : GameState → Prop where
  | init (first : Shape) : Reachable (initialState first)
  | step {s s' : GameState} (fuel : Nat) (e : Event) (next : Shape) :
      Reachable s → step fuel s e next = some s' → Reachable s'

/-- The places where `lockAndSpawn` is called: `Locks s p` says that from state `s`
some handler calls `mergePiece` on the piece `p`. -/
inductive Locks : GameState → Tetromino → Prop where
  | down (s : GameState) : s.gameOver = false → s.paused = false →
      s.pf.canPlace s.piece 0 1 0 = false → Locks s s.piece
  | drop (s : GameState) (fuel : Nat) (dy : Int) : s.gameOver = false → s.paused = false →
      hardDropLoop s.pf s.piece fuel 0 = some dy →
      Locks s (if dy > 0 then s.piece.move 0 dy else s.piece)

/-! ## Constructors -/

/-- Source: the constructor of `Playfield`.  `rootEl` tells whether a root element
is given; an option left out takes its default.  `new Array(n)` raises a
RangeError unless n is an integer with 0 <= n < 2^32. -/
def Playfield.create (rootEl : Bool) (cols rows : Option Int) : Except String Playfield :=
  if !rootEl then .error "Playfield: root element is required"
  else
    let cols := cols.getD 12
    let rows := rows.getD 24
    if 0 ≤ rows ∧ rows < 4294967296 then
      .ok { cols := cols, rows := rows, rowState := List.replicate rows.toNat 0 }
    else .error "RangeError: Invalid array length"

/-- The own keys of `ROTATIONS`. -/
def shapeOfKey (type : String) : Option Shape :=
  if type = "I" then some .I
  else if type = "O" then some .O
  else if type = "T" then some .T
  else if type = "S" then some .S
  else if type = "Z" then some .Z
  else if type = "J" then some .J
  else if type = "L" then some .L
  else none

/-- The property names every plain object inherits from `Object.prototype`;
`ROTATIONS` is a plain object built by `Object.fromEntries`. -/
def objectPrototypeKeys : List String :=
  ["constructor", "hasOwnProperty", "isPrototypeOf", "propertyIsEnumerable",
   "toLocaleString", "toString", "valueOf", "__proto__", "__defineGetter__",
   "__defineSetter__", "__lookupGetter__", "__lookupSetter__"]

/-- Value of the read `ROTATIONS[type]`: a mask table, an inherited member (a
function or object, hence truthy), or `undefined`. -/
inductive RotationsEntry where
  | table (k : Shape)
  | inherited
  | undefined
  deriving DecidableEq

/-- The read `ROTATIONS[type]`. -/
def rotationsEntry (type : String) : RotationsEntry :=
  match shapeOfKey type with
  | some k => .table k
  | none => if type ∈ objectPrototypeKeys then .inherited else .undefined

/-- Outcome of `new Tetromino(type, opts)`: an error, a piece, or an object whose
`rotations` is an inherited member instead of a mask table. -/
inductive Constructed where
  | threw (message : String)
  | piece (p : Tetromino)
  | foreign (type : String) (rotation x y : Int)
  deriving DecidableEq

/-- Source: the constructor of `Tetromino`, with the options `x`, `y`, `rotation`. -/
def Tetromino.create (type : String) (x y rotation : Option Int) : Constructed :=
  let rot : Int :=
    match rotation with
    | some r => if r ≠ 0 then jsMod (jsMod r 4 + 4) 4 else 0
    | none => 0
  match rotationsEntry type with
  | .undefined => .threw ("Unknown tetromino type: " ++ type)
  | .table k => .piece { type := k, rotation := rot, x := x.getD 0, y := y.getD 0 }
  | .inherited => .foreign type rot (x.getD 0) (y.getD 0)

/-! ## Auxiliary definitions used in the statements -/

/-- Source index read by `rotateMaskCW` for the bit `k` of its result. -/
def rotSrc (k : Nat) : Nat := 15 - (4 * (3 - (15 - k) % 4) + (15 - k) / 4)

/-- Number of bits set in the 32-bit pattern of a mask. -/
def bitCount (m : Int) : Nat :=
  ((List.range 32).filter fun k => (toUint32 m).testBit k).length

/-- A full row in the words of the glossary: every column in [0, W) of row `y` is occupied. -/
def Playfield.isFullRow (pf : Playfield) (y : Nat) : Bool :=
  (List.range pf.cols.toNat).all fun x => pf.isOccupied x y

/-- The gravity interval as the formula max(120, floor(1000 * 0.85^k)) gives it in
exact arithmetic, for k = level - 1. -/
def exactInterval (k : ℕ) : ℤ := max 120 ⌊(1000 : ℚ) * (85 / 100) ^ k⌋

/-- The piece lies between the walls and above the floor, its box top at y >= -1,
with a rotation index in 0..3. -/
def PieceInBounds (pf : Playfield) (p : Tetromino) : Prop :=
  0 ≤ p.rotation ∧ p.rotation < 4 ∧ -1 ≤ p.y
  ∧ ∀ row col : Nat, row < 4 → col < 4 → maskBit p.mask row col = true →
      0 ≤ p.x + col ∧ p.x + col < pf.cols ∧ p.y + row < pf.rows

/-- What every reachable state satisfies: a well-formed 12 x 24 board and a piece in bounds. -/
def GameInvariant (s : GameState) : Prop :=
  s.pf.cols = 12 ∧ s.pf.rows = 24 ∧ s.pf.WellFormed ∧ PieceInBounds s.pf s.piece

/-- A run that stacks five upright I pieces in column 6 and a flat one on top, then
turns the next I piece upright at spawn height. -/
def aboveTopRun : List (Event × Shape) :=
  [(Event.key "ArrowUp", Shape.I), (Event.key " ", Shape.I),
   (Event.key "ArrowUp", Shape.I), (Event.key " ", Shape.I),
   (Event.key "ArrowUp", Shape.I), (Event.key " ", Shape.I),
   (Event.key "ArrowUp", Shape.I), (Event.key " ", Shape.I),
   (Event.key "ArrowUp", Shape.I), (Event.key " ", Shape.I),
   (Event.key " ", Shape.I), (Event.key "ArrowUp", Shape.I)]

/-- The state `aboveTopRun` ends in. -/
def aboveTopState : GameState :=
  { pf := { cols := 12, rows := 24,
            rowState := [0, 0, 0, 240] ++ List.replicate 20 64 },
    piece := { type := Shape.I, rotation := 1, x := 4, y := -1 },
    score := 0, linesClearedTotal := 0, level := 1, paused := false, gameOver := false,
    pendingClears := [], pendingResets := 0, muted := false }

/-- A run that fills the bottom row with three flat I pieces; the last hard drop
locks the piece that completes the row. -/
def fullRowRun : List (Event × Shape) :=
  [(Event.key "ArrowLeft", Shape.I), (Event.key "ArrowLeft", Shape.I),
   (Event.key "ArrowLeft", Shape.I), (Event.key "ArrowLeft", Shape.I),
   (Event.key " ", Shape.I),
   (Event.key "ArrowRight", Shape.I), (Event.key "ArrowRight", Shape.I),
   (Event.key "ArrowRight", Shape.I), (Event.key "ArrowRight", Shape.I),
   (Event.key " ", Shape.I),
   (Event.key " ", Shape.I)]

/-- The state `fullRowRun` ends in: the row removal is pending and `piece` is still
the piece that was locked. -/
def fullRowState : GameState :=
  { pf := { cols := 12, rows := 24, rowState := List.replicate 23 0 ++ [4095] },
    piece := { type := Shape.I, rotation := 0, x := 4, y := 22 },
    score := 0, linesClearedTotal := 0, level := 1, paused := false, gameOver := false,
    pendingClears := [[23]], pendingResets := 0, muted := false }

/-- The piece that the handler of event `e` passes to `lockAndSpawn` in state `s`,
when it calls it: the down keys and the gravity tick lock the piece where it is
once it cannot move down, the hard drop (key or swipe) locks it where it lands. -/
def lockedPiece (fuel : Nat) (s : GameState) (e : Event) : Option Tetromino :=
  match e with
  | .key k =>
    if k = "p" ∨ k = "P" ∨ k = "m" ∨ k = "M" then none
    else if s.gameOver || s.paused then none
    else if k = "ArrowDown" ∨ k = "s" ∨ k = "S" then
      if s.pf.canPlace s.piece 0 1 0 then none else some s.piece
    else if k = " " ∨ k = "Spacebar" then
      (hardDropLoop s.pf s.piece fuel 0).map fun dy =>
        if dy > 0 then s.piece.move 0 dy else s.piece
    else none
  | .gravity =>
    if s.gameOver || s.paused then none
    else if s.pf.canPlace s.piece 0 1 0 then none else some s.piece
  | .touchDrop =>
    if s.paused || s.gameOver then none
    else (hardDropLoop s.pf s.piece fuel 0).map fun dy =>
      if dy > 0 then s.piece.move 0 dy else s.piece
  | _ => none

/-- The number of full rows on the board right after the merge of a lock event:
the `count` that `clearFullLinesAnimated` answers to `lockAndSpawn`. -/
def lockCount (fuel : Nat) (s : GameState) (e : Event) : Option Nat :=
  (lockedPiece fuel s e).map fun p => (s.pf.mergePiece p).fullRows.length

/-- Whether the handler of event `e` calls `startNewGame` in state `s`. -/
def startsNewGame (s : GameState) (e : Event) : Bool :=
  match e with
  | .clickRestart => true
  | .key k => decide (k = "Enter") && s.gameOver
  | _ => false

/-- No event of the run starts a new game. -/
def sameGame (fuel : Nat) : GameState → List (Event × Shape) → Bool
  | _, [] => true
  | s, (e, next) :: rest =>
    !startsNewGame s e &&
      match step fuel s e next with
      | none => true
      | some s' => sameGame fuel s' rest

/-- The row counts of the lock events of a run, in order. -/
def lockCounts (fuel : Nat) : GameState → List (Event × Shape) → List Nat
  | _, [] => []
  | s, (e, next) :: rest =>
    match step fuel s e next with
    | none => []
    | some s' => (lockCount fuel s e).toList ++ lockCounts fuel s' rest

/-- The points that the row-removal timers still pending will add when they fire. -/
def pendingPoints (s : GameState) : Int :=
  (s.pendingClears.map fun fullRows => scoreTable.getD fullRows.length 0).sum

/-- The lines that the row-removal timers still pending will add when they fire. -/
def pendingLines (s : GameState) : Int :=
  (s.pendingClears.map fun fullRows => (fullRows.length : Int)).sum

/-! # Theorems -/

/-! ## Facts about the integer operators -/

theorem toUint32_lt (v : Int) : toUint32 v < 4294967296 := by
  unfold toUint32
  have h1 : v % 4294967296 < 4294967296 := Int.emod_lt_of_pos v (by norm_num)
  have h0 : 0 ≤ v % 4294967296 := Int.emod_nonneg v (by norm_num)
  omega

theorem toUint32_natCast (n : Nat) : toUint32 (n : Int) = n % 4294967296 := by
  unfold toUint32
  omega

theorem toUint32_of_lt (n : Nat) (h : n < 4294967296) : toUint32 (n : Int) = n := by
  rw [toUint32_natCast]; omega

theorem toUint32_toInt32 (v : Int) : toUint32 (toInt32 v) = toUint32 v := by
  unfold toUint32 toInt32
  split <;> omega

theorem toInt32_of_lt (n : Nat) (h : n < 2147483648) : toInt32 (n : Int) = n := by
  unfold toInt32
  split <;> omega

theorem shiftCount_lt (n : Int) : shiftCount n < 32 := by
  unfold shiftCount
  omega

theorem shiftCount_of_lt (n : Nat) (h : n < 32) : shiftCount (n : Int) = n := by
  unfold shiftCount
  omega

theorem toUint32_bor (a b : Int) : toUint32 (bor a b) = toUint32 a ||| toUint32 b := by
  unfold bor
  rw [toUint32_toInt32, toUint32_of_lt]
  exact Nat.or_lt_two_pow (n := 32) (toUint32_lt a) (toUint32_lt b)

theorem toUint32_band (a b : Int) : toUint32 (band a b) = toUint32 a &&& toUint32 b := by
  unfold band
  rw [toUint32_toInt32, toUint32_of_lt]
  exact lt_of_le_of_lt Nat.and_le_left (toUint32_lt a)

theorem toUint32_one : toUint32 1 = 1 := by decide

theorem toUint32_shl_one (k : Int) : toUint32 (shl 1 k) = 2 ^ shiftCount k := by
  unfold shl
  rw [toUint32_toInt32, toUint32_one, Nat.shiftLeft_eq, Nat.one_mul, toUint32_of_lt]
  have h := shiftCount_lt k
  calc 2 ^ shiftCount k < 2 ^ 32 := Nat.pow_lt_pow_right (by norm_num) h
    _ = 4294967296 := by norm_num

theorem ushr_zero (a : Int) : ushr a 0 = (toUint32 a : Int) := by
  unfold ushr
  have : shiftCount 0 = 0 := by decide
  rw [this, Nat.shiftRight_zero]

theorem toUint32_ushr (a n : Int) : toUint32 (ushr a n) = toUint32 a >>> shiftCount n := by
  unfold ushr
  rw [toUint32_of_lt]
  rw [Nat.shiftRight_eq_div_pow]
  exact lt_of_le_of_lt (Nat.div_le_self _ _) (toUint32_lt a)

theorem band_ushr_one (a k : Int) :
    band (ushr a k) 1 = if (toUint32 a).testBit (shiftCount k) then 1 else 0 := by
  unfold band
  rw [toUint32_ushr, toUint32_one, Nat.and_one_is_mod]
  have hb : (toUint32 a).testBit (shiftCount k) = decide ((toUint32 a >>> shiftCount k) % 2 = 1) := by
    rw [Nat.testBit, Nat.one_and_eq_mod_two]
    rcases Nat.mod_two_eq_zero_or_one (toUint32 a >>> shiftCount k) with h | h <;> simp [h]
  rw [hb]
  rcases Nat.mod_two_eq_zero_or_one (toUint32 a >>> shiftCount k) with h | h <;> simp [h] <;> decide

theorem maskBit_eq (m row column : Int) :
    maskBit m row column = (toUint32 m).testBit (shiftCount (bitIndex row column)) := by
  unfold maskBit
  rw [band_ushr_one]
  cases (toUint32 m).testBit (shiftCount (bitIndex row column)) <;> simp


/-! ## Bits of the masks built by the 4x4 scans -/

/-- Bits of a mask accumulated by `out |= 1 << idx` over a list of positions. -/
theorem testBit_foldl_bor (c : Nat × Nat → Bool) (idx : Nat × Nat → Int) (k : Nat) :
    ∀ (cellList : List (Nat × Nat)) (init : Int),
      (toUint32 (cellList.foldl
        (fun out rc => if c rc then bor out (shl 1 (idx rc)) else out) init)).testBit k
      = ((toUint32 init).testBit k
          || cellList.any fun rc => c rc && decide (shiftCount (idx rc) = k)) := by
  intro cellList
  induction cellList with
  | nil => intro init; simp
  | cons rc rest ih =>
    intro init
    rw [List.foldl_cons, ih]
    by_cases hc : c rc = true
    · simp only [hc, if_true, toUint32_bor, toUint32_shl_one, Nat.testBit_or,
        Nat.testBit_two_pow, List.any_cons, Bool.true_and, Bool.or_assoc]
    · simp [hc]

theorem toUint32_rotateMaskCW (m : Int) :
    toUint32 (rotateMaskCW m) = toUint32 (grid4.foldl (fun out rc =>
      if maskBit m rc.1 rc.2 then bor out (shl 1 (bitIndex rc.2 (3 - rc.1))) else out) (0 : Int)) := by
  unfold rotateMaskCW
  simp only [ushr_zero]
  rw [toUint32_of_lt _ (toUint32_lt _)]

theorem testBit_rotateMaskCW (m : Int) (k : Nat) :
    (toUint32 (rotateMaskCW m)).testBit k
      = (decide (k < 16) && (toUint32 m).testBit (rotSrc k)) := by
  rw [toUint32_rotateMaskCW,
    testBit_foldl_bor (fun rc => maskBit m rc.1 rc.2) (fun rc => bitIndex rc.2 (3 - rc.1))]
  by_cases hk : k < 16
  · interval_cases k <;>
      simp [grid4, maskBit_eq, bitIndex, shiftCount, rotSrc, toUint32]
  · simp [grid4, maskBit_eq, bitIndex, shiftCount, rotSrc, toUint32, hk]
    omega


theorem rotateMaskCW_eq_cast (m : Int) :
    rotateMaskCW m = ((toUint32 (rotateMaskCW m) : Nat) : Int) := by
  rw [toUint32_rotateMaskCW]
  unfold rotateMaskCW
  simp only [ushr_zero]

theorem toUint32_rotateMaskCW_lt (m : Int) : toUint32 (rotateMaskCW m) < 65536 := by
  have h : toUint32 (rotateMaskCW m) < 2 ^ 16 := by
    apply Nat.lt_pow_two_of_testBit
    intro i hi
    rw [testBit_rotateMaskCW]
    have : ¬ i < 16 := by omega
    simp [this]
  simpa using h

theorem rotateMaskCW_range (m : Int) : 0 ≤ rotateMaskCW m ∧ rotateMaskCW m < 65536 := by
  have h := toUint32_rotateMaskCW_lt m
  rw [rotateMaskCW_eq_cast]
  omega

theorem toUint32_of_range (m : Int) (h0 : 0 ≤ m) (h : m < 4294967296) :
    ((toUint32 m : Nat) : Int) = m := by
  unfold toUint32
  omega

theorem rotSrc_four (k : Nat) (hk : k < 16) : rotSrc (rotSrc (rotSrc (rotSrc k))) = k := by
  interval_cases k <;> rfl

theorem rotSrc_lt (k : Nat) : rotSrc k < 16 := by
  unfold rotSrc
  omega

theorem rotateMaskCW_four (m : Int) (h0 : 0 ≤ m) (h16 : m < 65536) :
    rotateMaskCW (rotateMaskCW (rotateMaskCW (rotateMaskCW m))) = m := by
  have hm : ((toUint32 m : Nat) : Int) = m := toUint32_of_range m h0 (by omega)
  rw [rotateMaskCW_eq_cast]
  conv_rhs => rw [← hm]
  congr 1
  apply Nat.eq_of_testBit_eq
  intro k
  simp only [testBit_rotateMaskCW]
  by_cases hk : k < 16
  · simp [hk, rotSrc_lt, rotSrc_four k hk]
  · have hlt : toUint32 m < 2 ^ 16 := by
      have : ((toUint32 m : Nat) : Int) < 65536 := by rw [hm]; exact h16
      norm_num; omega
    have : 2 ^ 16 ≤ 2 ^ k := Nat.pow_le_pow_right (by norm_num) (by omega)
    rw [Nat.testBit_lt_two_pow (lt_of_lt_of_le hlt this)]
    simp [hk]

theorem gridToMask_eq_cast (g : List String) :
    gridToMask g = ((toUint32 (grid4.foldl (fun mask rc =>
      if charAt g rc.1 rc.2 = some '1' then bor mask (shl 1 (bitIndex rc.1 rc.2))
      else mask) (0 : Int)) : Nat) : Int) := by
  unfold gridToMask
  simp only [ushr_zero]

theorem gridToMask_range (g : List String) : 0 ≤ gridToMask g ∧ gridToMask g < 65536 := by
  rw [gridToMask_eq_cast]
  have h : toUint32 (grid4.foldl (fun mask rc =>
      if charAt g rc.1 rc.2 = some '1' then bor mask (shl 1 (bitIndex rc.1 rc.2))
      else mask) (0 : Int)) < 2 ^ 16 := by
    apply Nat.lt_pow_two_of_testBit
    intro i hi
    have := testBit_foldl_bor (fun rc => decide (charAt g rc.1 rc.2 = some '1'))
      (fun rc => bitIndex rc.1 rc.2) i grid4 0
    simp only [decide_eq_true_eq] at this
    rw [this]
    simp [grid4, bitIndex, shiftCount, toUint32]
    omega
  omega

/-- C7: four clockwise rotations give back every 16-bit mask bit for bit; hence the
table built by `buildRotationsFromGrid` is a closed cycle (rotating its last entry
gives its first), for every grid and so for each of the seven shapes. -/
theorem rotateMaskCW_closed_cycle (m : Int) (h0 : 0 ≤ m) (h16 : m < 65536)
    (gridLines : List String) (k : Shape) :
    rotateMaskCW (rotateMaskCW (rotateMaskCW (rotateMaskCW m))) = m
    ∧ (∃ r0 r1 r2 r3, buildRotationsFromGrid gridLines = [r0, r1, r2, r3]
        ∧ rotateMaskCW r0 = r1 ∧ rotateMaskCW r1 = r2 ∧ rotateMaskCW r2 = r3
        ∧ rotateMaskCW r3 = r0)
    ∧ (∀ r ∈ ROTATIONS k,
        rotateMaskCW (rotateMaskCW (rotateMaskCW (rotateMaskCW r))) = r) := by
  have hg : ∀ g : List String,
      rotateMaskCW (rotateMaskCW (rotateMaskCW (rotateMaskCW (gridToMask g)))) = gridToMask g :=
    fun g => rotateMaskCW_four _ (gridToMask_range g).1 (gridToMask_range g).2
  refine ⟨rotateMaskCW_four m h0 h16, ⟨_, _, _, _, rfl, rfl, rfl, rfl, hg gridLines⟩, ?_⟩
  intro r hr
  exact rotateMaskCW_four r
    (by revert r; cases k <;> decide) (by revert r; cases k <;> decide)

theorem rotateMaskCW_closed_cycle_witness :
    rotateMaskCW (rotateMaskCW (rotateMaskCW (rotateMaskCW 1248))) = 1248 :=
  (rotateMaskCW_closed_cycle 1248 (by decide) (by decide) (BASE_GRIDS Shape.T) Shape.T).1

/-! ## Cells of a piece -/

theorem foldl_push_eq (c : Nat × Nat → Bool) (f : Nat × Nat → Int × Int) :
    ∀ (cellList : List (Nat × Nat)) (init : List (Int × Int)),
      cellList.foldl (fun out rc => if c rc then out ++ [f rc] else out) init
        = init ++ (cellList.filter c).map f := by
  intro cellList
  induction cellList with
  | nil => intro init; simp
  | cons rc rest ih =>
    intro init
    rw [List.foldl_cons, ih]
    by_cases hc : c rc = true <;> simp [hc]

theorem Tetromino.cells_eq (p : Tetromino) :
    p.cells = (grid4.filter fun rc => maskBit p.mask rc.1 rc.2).map
      fun rc => (p.x + (rc.2 : Int), p.y + (rc.1 : Int)) := by
  unfold Tetromino.cells Tetromino.forEachCell
  simp only []
  rw [foldl_push_eq (fun rc => maskBit p.mask rc.1 rc.2)
    (fun rc => (p.x + (rc.2 : Int), p.y + (rc.1 : Int)))]
  simp

theorem Tetromino.forEachCell_eq_foldl {σ : Type} (p : Tetromino) (cb : σ → Int → Int → σ)
    (init : σ) :
    p.forEachCell cb init = p.cells.foldl (fun acc c => cb acc c.1 c.2) init := by
  rw [Tetromino.cells_eq]
  unfold Tetromino.forEachCell
  simp only []
  generalize grid4 = cellList
  induction cellList generalizing init with
  | nil => simp
  | cons rc rest ih =>
    rw [List.foldl_cons, ih]
    by_cases hc : maskBit p.mask rc.1 rc.2 = true <;> simp [hc]

theorem rotations_bits (k : Shape) (r : Int) (h0 : 0 ≤ r) (h4 : r < 4) :
    (grid4.filter fun rc =>
      maskBit ((arrayGet (ROTATIONS k) r).getD 0) rc.1 rc.2).length = 4 := by
  cases k <;> interval_cases r <;> decide

/-- C9 as first stated fails: for the mask 0x8000, whose only cell is (0, 0), the
result has cell (0, 3) set although cell (3, 3) of the mask is clear. -/
theorem rotateMaskCW_cell_col_row_fails :
    ¬ (∀ (m : Int) (row col : Nat), 0 ≤ m → m < 65536 → row < 4 → col < 4 →
        maskBit (rotateMaskCW m) row col = maskBit m col (3 - (row : Int))) := by
  intro h
  exact absurd (h 32768 0 3 (by decide) (by decide) (by decide) (by decide)) (by decide)

/-- C9 (amended): the cell at (row, col) of `rotateMaskCW m` is the cell at
(3 - col, row) of `m`, that is, the cell at (row, col) of `m` moves to
(col, 3 - row); the cell at (row, col) of a mask is its bit 15 - (4 * row + col). -/
theorem maskBit_rotateMaskCW (m : Int) (row col : Nat) (h0 : 0 ≤ m) (h16 : m < 65536)
    (hrow : row < 4) (hcol : col < 4) :
    maskBit (rotateMaskCW m) row col = maskBit m (3 - (col : Int)) row
    ∧ maskBit (rotateMaskCW m) col (3 - (row : Int)) = maskBit m row col
    ∧ bitIndex row col = 15 - (4 * (row : Int) + col)
    ∧ maskBit m row col = m.toNat.testBit (15 - (4 * row + col)) := by
  have hm : toUint32 m = m.toNat := by unfold toUint32; omega
  refine ⟨?_, ?_, ?_, ?_⟩
  · rw [maskBit_eq, maskBit_eq, testBit_rotateMaskCW]
    interval_cases row <;> interval_cases col <;>
      simp [bitIndex, shiftCount, rotSrc]
  · rw [maskBit_eq, maskBit_eq, testBit_rotateMaskCW]
    interval_cases row <;> interval_cases col <;>
      simp [bitIndex, shiftCount, rotSrc]
  · unfold bitIndex; ring
  · rw [maskBit_eq, hm]
    interval_cases row <;> interval_cases col <;>
      simp [bitIndex, shiftCount]

theorem maskBit_rotateMaskCW_witness :
    maskBit (rotateMaskCW 32768) (0 : Nat) (3 : Nat) = maskBit 32768 (3 - ((3 : Nat) : Int)) (0 : Nat)
    ∧ maskBit (rotateMaskCW 32768) (3 : Nat) (3 - ((0 : Nat) : Int)) = maskBit 32768 (0 : Nat) (3 : Nat)
    ∧ bitIndex (0 : Nat) (3 : Nat) = 15 - (4 * ((0 : Nat) : Int) + (3 : Nat))
    ∧ maskBit 32768 (0 : Nat) (3 : Nat) = (32768 : Int).toNat.testBit (15 - (4 * 0 + 3)) :=
  maskBit_rotateMaskCW 32768 0 3 (by decide) (by decide) (by decide) (by decide)

/-- C8: each of the 7 shapes has 4 rotation masks, every one of the 28 masks has
exactly 4 bits set, and `cells()` returns exactly 4 cells for every piece whose
rotation index is in 0..3. -/
theorem rotations_four_bits (p : Tetromino) (h0 : 0 ≤ p.rotation) (h4 : p.rotation < 4) :
    (∀ k : Shape, (ROTATIONS k).length = 4 ∧ ∀ r ∈ ROTATIONS k, bitCount r = 4)
    ∧ bitCount p.mask = 4
    ∧ p.cells.length = 4 := by
  refine ⟨?_, ?_, ?_⟩
  · intro k
    cases k <;> decide
  · obtain ⟨k, r, x, y⟩ := p
    simp only [Tetromino.mask, Tetromino.rotations] at *
    cases k <;> interval_cases r <;> decide
  · rw [Tetromino.cells_eq, List.length_map]
    exact rotations_bits p.type p.rotation h0 h4

theorem rotations_four_bits_witness :
    bitCount (Tetromino.mk Shape.L 3 4 (-1)).mask = 4
    ∧ (Tetromino.mk Shape.L 3 4 (-1)).cells.length = 4 :=
  (rotations_four_bits (Tetromino.mk Shape.L 3 4 (-1)) (by decide) (by decide)).2

/-! ## canPlace -/

theorem mem_grid4 (rc : Nat × Nat) : rc ∈ grid4 ↔ rc.1 < 4 ∧ rc.2 < 4 := by
  obtain ⟨r, c⟩ := rc
  constructor
  · intro h
    simp [grid4] at h
    omega
  · rintro ⟨hr, hc⟩
    simp only at hr hc
    interval_cases r <;> interval_cases c <;> simp [grid4]

theorem jsMod_four (a : Int) (h : 0 ≤ a + 4) : jsMod (a + 4) 4 = a % 4 := by
  unfold jsMod
  rw [Int.tmod_eq_emod (by omega) (by norm_num)]
  omega

theorem Playfield.canPlace_eq_true_iff (pf : Playfield) (p : Tetromino) (dx dy δ : Int) :
    pf.canPlace p dx dy δ = true ↔
      ∀ row col : Nat, row < 4 → col < 4 →
        maskBit ((arrayGet p.rotations (jsMod (p.rotation + δ + 4) 4)).getD 0) row col = true →
          0 ≤ p.x + col + dx ∧ p.x + col + dx < pf.cols ∧ p.y + row + dy < pf.rows ∧
          (p.y + row + dy < 0 ∨ pf.isOccupied (p.x + col + dx) (p.y + row + dy) = false) := by
  unfold Playfield.canPlace
  simp only [List.all_eq_true]
  constructor
  · intro h row col hrow hcol hbit
    have := h (row, col) ((mem_grid4 _).2 ⟨hrow, hcol⟩)
    simp only [hbit, if_true] at this
    by_cases h1 : p.x + col + dx < 0 ∨ p.x + col + dx ≥ pf.cols ∨ p.y + row + dy ≥ pf.rows
    · simp [h1] at this
    · simp only [h1, if_false] at this
      by_cases h2 : p.y + row + dy < 0
      · exact ⟨by omega, by omega, by omega, Or.inl h2⟩
      · simp only [h2, if_false] at this
        cases hocc : pf.isOccupied (p.x + col + dx) (p.y + row + dy)
        · exact ⟨by omega, by omega, by omega, Or.inr rfl⟩
        · simp [hocc] at this
  · intro h rc hrc
    obtain ⟨hrow, hcol⟩ := (mem_grid4 rc).1 hrc
    by_cases hbit : maskBit ((arrayGet p.rotations (jsMod (p.rotation + δ + 4) 4)).getD 0)
        rc.1 rc.2 = true
    · obtain ⟨a, b, c, d⟩ := h rc.1 rc.2 hrow hcol hbit
      simp only [hbit, if_true]
      have h1 : ¬ (p.x + rc.2 + dx < 0 ∨ p.x + rc.2 + dx ≥ pf.cols ∨ p.y + rc.1 + dy ≥ pf.rows) := by
        omega
      simp only [h1, if_false]
      by_cases h2 : p.y + rc.1 + dy < 0
      · simp [h2]
      · have : pf.isOccupied (p.x + rc.2 + dx) (p.y + rc.1 + dy) = false := by
          rcases d with d | d
          · omega
          · exact d
        simp [h2, this]
    · simp [hbit]

theorem Tetromino.mem_cells (p : Tetromino) (c : Int × Int) :
    c ∈ p.cells ↔ ∃ row col : Nat, row < 4 ∧ col < 4 ∧ maskBit p.mask row col = true
      ∧ c = (p.x + col, p.y + row) := by
  rw [Tetromino.cells_eq]
  simp only [List.mem_map, List.mem_filter, mem_grid4]
  constructor
  · rintro ⟨⟨r, cc⟩, ⟨⟨h1, h2⟩, h3⟩, rfl⟩
    exact ⟨r, cc, h1, h2, h3, rfl⟩
  · rintro ⟨r, cc, h1, h2, h3, rfl⟩
    exact ⟨(r, cc), ⟨⟨h1, h2⟩, h3⟩, rfl⟩

/-- C1: `canPlace(piece, dx, dy, rotationDelta)` is true exactly when every cell set
in the mask of rotation (r + rotationDelta) mod 4, put at x = px + column + dx and
y = py + row + dy, has 0 <= x < W, y < H and (y < 0 or the board cell is free); and
`canPlace(piece, 0, 0, 0)` is false exactly when some cell of the piece overlaps a
locked board cell or lies outside [0, W) horizontally or at y >= H. -/
theorem canPlace_iff_cells_valid (pf : Playfield) (p : Tetromino) (dx dy δ : Int)
    (hr0 : 0 ≤ p.rotation) (hr4 : p.rotation < 4) (hδ : δ = -1 ∨ δ = 0 ∨ δ = 1) :
    (pf.canPlace p dx dy δ = true ↔
      ∀ row col : Nat, row < 4 → col < 4 →
        maskBit ((arrayGet p.rotations ((p.rotation + δ) % 4)).getD 0) row col = true →
          0 ≤ p.x + col + dx ∧ p.x + col + dx < pf.cols ∧ p.y + row + dy < pf.rows ∧
          (p.y + row + dy < 0 ∨ pf.isOccupied (p.x + col + dx) (p.y + row + dy) = false))
    ∧ (pf.canPlace p 0 0 0 = false ↔
        ∃ c ∈ p.cells,
          (0 ≤ c.1 ∧ c.1 < pf.cols ∧ 0 ≤ c.2 ∧ c.2 < pf.rows ∧ pf.isOccupied c.1 c.2 = true)
          ∨ c.1 < 0 ∨ c.1 ≥ pf.cols ∨ c.2 ≥ pf.rows) := by
  constructor
  · rw [Playfield.canPlace_eq_true_iff, jsMod_four (p.rotation + δ) (by omega)]
  · have hidx : jsMod (p.rotation + 0 + 4) 4 = p.rotation := by
      rw [jsMod_four (p.rotation + 0) (by omega)]; omega
    rw [← Bool.not_eq_true, Playfield.canPlace_eq_true_iff, hidx]
    change (¬ ∀ row col : Nat, row < 4 → col < 4 → maskBit p.mask row col = true → _) ↔ _
    simp only [Tetromino.mem_cells]
    constructor
    · intro h
      by_contra hne
      apply h
      intro row col hrow hcol hbit
      have hc := fun hh => hne ⟨(p.x + col, p.y + row), ⟨row, col, hrow, hcol, hbit, rfl⟩, hh⟩
      simp only [add_zero]
      cases hocc : pf.isOccupied (p.x + col) (p.y + row)
      · refine ⟨?_, ?_, ?_, Or.inr rfl⟩
        · by_contra hx; exact hc (Or.inr (Or.inl (by omega)))
        · by_contra hx; exact hc (Or.inr (Or.inr (Or.inl (by omega))))
        · by_contra hx; exact hc (Or.inr (Or.inr (Or.inr (by omega))))
      · have hx0 : 0 ≤ p.x + col := by
          by_contra hx; exact hc (Or.inr (Or.inl (by omega)))
        have hx1 : p.x + col < pf.cols := by
          by_contra hx; exact hc (Or.inr (Or.inr (Or.inl (by omega))))
        have hy1 : p.y + row < pf.rows := by
          by_contra hx; exact hc (Or.inr (Or.inr (Or.inr (by omega))))
        refine ⟨hx0, hx1, hy1, Or.inl ?_⟩
        by_contra hy
        exact hc (Or.inl ⟨hx0, hx1, by omega, hy1, hocc⟩)
    · rintro ⟨c, ⟨row, col, hrow, hcol, hbit, rfl⟩, hbad⟩ hall
      obtain ⟨a, b, cc, d⟩ := hall row col hrow hcol hbit
      simp only [add_zero] at a b cc d
      rcases hbad with ⟨_, _, h3, _, h5⟩ | h | h | h
      · rcases d with d | d
        · omega
        · rw [h5] at d; exact absurd d (by decide)
      · omega
      · omega
      · omega

theorem canPlace_iff_cells_valid_witness :
    (Playfield.mk 4 3 [0, 0, 15]).canPlace (Tetromino.mk Shape.T 0 0 0) 0 0 0 = false ↔
      ∃ c ∈ (Tetromino.mk Shape.T 0 0 0).cells,
        (0 ≤ c.1 ∧ c.1 < (Playfield.mk 4 3 [0, 0, 15]).cols ∧ 0 ≤ c.2
          ∧ c.2 < (Playfield.mk 4 3 [0, 0, 15]).rows
          ∧ (Playfield.mk 4 3 [0, 0, 15]).isOccupied c.1 c.2 = true)
        ∨ c.1 < 0 ∨ c.1 ≥ (Playfield.mk 4 3 [0, 0, 15]).cols
        ∨ c.2 ≥ (Playfield.mk 4 3 [0, 0, 15]).rows :=
  (canPlace_iff_cells_valid (Playfield.mk 4 3 [0, 0, 15]) (Tetromino.mk Shape.T 0 0 0) 0 0 1
    (by decide) (by decide) (by decide)).2

/-! ## mergePiece -/

theorem Playfield.isOccupied_eq (pf : Playfield) (x y : Int) :
    pf.isOccupied x y = (decide (0 ≤ y ∧ y < pf.rows)
      && (toUint32 (pf.rowAt y)).testBit (shiftCount x)) := by
  unfold Playfield.isOccupied
  by_cases h : y < 0 ∨ y ≥ pf.rows
  · have : ¬ (0 ≤ y ∧ y < pf.rows) := by omega
    simp [h, this]
  · have h' : 0 ≤ y ∧ y < pf.rows := by omega
    simp only [h, if_false, band_ushr_one, h', decide_True, Bool.true_and]
    cases (toUint32 (pf.rowAt y)).testBit (shiftCount x) <;> simp

theorem arrayGet_arraySet (arr : List Int) (i j v : Int) (hi : 0 ≤ i) (hlt : i < arr.length) :
    (arrayGet (arraySet arr i v) j).getD 0 = if j = i then v else (arrayGet arr j).getD 0 := by
  unfold arrayGet arraySet
  by_cases hj : 0 ≤ j
  · simp only [hi, hj, if_true, List.get?_eq_getElem?, List.getElem?_set]
    by_cases hij : j = i
    · subst hij
      have : j.toNat < arr.length := by omega
      simp [this]
    · have : ¬ i.toNat = j.toNat := by omega
      simp [this, hij]
  · have : ¬ j = i := by omega
    simp [hj, this]

theorem Playfield.setOccupied_true (pf : Playfield) (x0 y0 : Int) (hwf : pf.WellFormed)
    (hy : 0 ≤ y0) :
    (pf.setOccupied x0 y0 true).cols = pf.cols
    ∧ (pf.setOccupied x0 y0 true).rows = pf.rows
    ∧ (pf.setOccupied x0 y0 true).WellFormed
    ∧ ∀ x y, (pf.setOccupied x0 y0 true).isOccupied x y
        = (pf.isOccupied x y || (pf.inside x0 y0 && decide (y = y0)
            && decide (shiftCount x = shiftCount x0))) := by
  unfold Playfield.setOccupied
  by_cases hin : pf.inside x0 y0 = true
  · have hin' := hin
    simp only [Playfield.inside, Bool.and_eq_true, decide_eq_true_eq] at hin'
    obtain ⟨⟨hx0, hx1⟩, hy1⟩ := hin'
    unfold Playfield.WellFormed at hwf ⊢
    simp only [hin, Bool.not_true, if_true, Bool.false_eq_true, if_false, Bool.true_and]
    refine ⟨trivial, trivial, ?_, ?_⟩
    · simp only [arraySet, hy, if_true, List.length_set]
      exact hwf
    · intro x y
      rw [Playfield.isOccupied_eq, Playfield.isOccupied_eq]
      simp only [Playfield.rowAt]
      rw [arrayGet_arraySet _ _ _ _ hy (by omega)]
      by_cases hyy : y = y0
      · subst hyy
        have : 0 ≤ y ∧ y < pf.rows := ⟨hy, hy1⟩
        simp only [if_true, toUint32_bor, toUint32_shl_one, Nat.testBit_or,
          Nat.testBit_two_pow, this, decide_True, Bool.true_and, and_self]
        congr 1
        by_cases hs : shiftCount x0 = shiftCount x
        · simp [hs]
        · have : ¬ shiftCount x = shiftCount x0 := fun h => hs h.symm
          simp [hs, this]
      · simp [hyy]
  · simp only [Bool.not_eq_true] at hin
    simp [hin, hwf]

/-- What `mergePiece` does, cell list by cell list. -/
theorem Playfield.foldl_merge (cellList : List (Int × Int)) :
    ∀ (pf : Playfield), pf.WellFormed →
      let pf' := cellList.foldl (fun (q : Playfield) c =>
        if c.2 ≥ 0 ∧ c.1 ≥ 0 ∧ c.1 < q.cols ∧ c.2 < q.rows then q.setOccupied c.1 c.2 true
        else q) pf
      pf'.cols = pf.cols ∧ pf'.rows = pf.rows ∧ pf'.WellFormed
      ∧ ∀ x y, pf'.isOccupied x y
          = (pf.isOccupied x y || cellList.any fun c =>
              decide (c.2 ≥ 0 ∧ c.1 ≥ 0 ∧ c.1 < pf.cols ∧ c.2 < pf.rows)
                && decide (y = c.2) && decide (shiftCount x = shiftCount c.1)) := by
  induction cellList with
  | nil => intro pf hwf; simp [hwf]
  | cons c rest ih =>
    intro pf hwf
    simp only [List.foldl_cons]
    by_cases hg : c.2 ≥ 0 ∧ c.1 ≥ 0 ∧ c.1 < pf.cols ∧ c.2 < pf.rows
    · obtain ⟨hc, hr, hwf', hocc⟩ := Playfield.setOccupied_true pf c.1 c.2 hwf hg.1
      obtain ⟨ihc, ihr, ihwf, ihocc⟩ := ih (pf.setOccupied c.1 c.2 true) hwf'
      simp only [hg, and_self, if_true] at ihc ihr ihwf ihocc ⊢
      refine ⟨ihc.trans hc, ihr.trans hr, ihwf, ?_⟩
      intro x y
      have hin : pf.inside c.1 c.2 = true := by
        simp only [Playfield.inside, Bool.and_eq_true, decide_eq_true_eq]
        exact ⟨⟨hg.2.1, hg.2.2.1⟩, hg.2.2.2⟩
      rw [ihocc, hocc, hc, hr, hin, List.any_cons, decide_eq_true hg]
      simp only [Bool.true_and, Bool.or_assoc]
    · obtain ⟨ihc, ihr, ihwf, ihocc⟩ := ih pf hwf
      simp only [hg, if_false] at ihc ihr ihwf ihocc ⊢
      refine ⟨ihc, ihr, ihwf, ?_⟩
      intro x y
      rw [ihocc, List.any_cons, decide_eq_false hg]
      simp only [Bool.false_and, Bool.false_or]

theorem Playfield.mergePiece_eq_foldl (pf : Playfield) (p : Tetromino) :
    pf.mergePiece p = p.cells.foldl (fun (q : Playfield) c =>
      if c.2 ≥ 0 ∧ c.1 ≥ 0 ∧ c.1 < q.cols ∧ c.2 < q.rows then q.setOccupied c.1 c.2 true
      else q) pf := by
  unfold Playfield.mergePiece
  rw [Tetromino.forEachCell_eq_foldl]

theorem shiftCount_inj (a b : Int) (ha : 0 ≤ a) (ha' : a < 32) (hb : 0 ≤ b) (hb' : b < 32) :
    shiftCount a = shiftCount b ↔ a = b := by
  unfold shiftCount
  omega

theorem foldl_skip (cellList : List (Int × Int)) (pf : Playfield)
    (h : ∀ c ∈ cellList, ¬ (0 ≤ c.1 ∧ c.1 < pf.cols ∧ 0 ≤ c.2 ∧ c.2 < pf.rows)) :
    cellList.foldl (fun (q : Playfield) c =>
      if c.2 ≥ 0 ∧ c.1 ≥ 0 ∧ c.1 < q.cols ∧ c.2 < q.rows then q.setOccupied c.1 c.2 true
      else q) pf = pf := by
  induction cellList with
  | nil => rfl
  | cons c rest ih =>
    have hc := h c (List.mem_cons_self _ _)
    have hg : ¬ (c.2 ≥ 0 ∧ c.1 ≥ 0 ∧ c.1 < pf.cols ∧ c.2 < pf.rows) := by
      intro hh; exact hc ⟨hh.2.1, hh.2.2.1, hh.1, hh.2.2.2⟩
    simp only [List.foldl_cons, hg, if_false]
    exact ih (fun c' hc' => h c' (List.mem_cons_of_mem _ hc'))

/-- C3: after `mergePiece(piece)` a board cell (x, y) with 0 <= x < W <= 31 and
0 <= y < H is occupied exactly when it was occupied before or is one of the
cells of the piece; width, height and the number of rows are unchanged, and a piece
whose cells all lie outside the board (above row 0, say) leaves the board as it was. -/
theorem mergePiece_occupied_iff (pf : Playfield) (p : Tetromino) (hW : pf.cols ≤ 31)
    (hwf : pf.WellFormed) :
    (∀ x y : Int, 0 ≤ x → x < pf.cols → 0 ≤ y → y < pf.rows →
      ((pf.mergePiece p).isOccupied x y = true ↔
        pf.isOccupied x y = true ∨ (x, y) ∈ p.cells))
    ∧ (pf.mergePiece p).cols = pf.cols
    ∧ (pf.mergePiece p).rows = pf.rows
    ∧ (pf.mergePiece p).rowState.length = pf.rowState.length
    ∧ ((∀ c ∈ p.cells, ¬ (0 ≤ c.1 ∧ c.1 < pf.cols ∧ 0 ≤ c.2 ∧ c.2 < pf.rows)) →
        pf.mergePiece p = pf) := by
  rw [Playfield.mergePiece_eq_foldl]
  obtain ⟨hc, hr, hwf', hocc⟩ := Playfield.foldl_merge p.cells pf hwf
  refine ⟨?_, hc, hr, ?_, foldl_skip p.cells pf⟩
  · intro x y hx0 hx1 hy0 hy1
    rw [hocc, Bool.or_eq_true, List.any_eq_true]
    constructor
    · rintro (h | ⟨c, hcm, hcond⟩)
      · exact Or.inl h
      · right
        simp only [Bool.and_eq_true, decide_eq_true_eq] at hcond
        obtain ⟨⟨hin, hy⟩, hs⟩ := hcond
        have hx : x = c.1 :=
          (shiftCount_inj x c.1 hx0 (by omega) (by omega) (by omega)).1 hs
        have : c = (x, y) := by
          rw [hx, hy]
        rw [← this]; exact hcm
    · rintro (h | h)
      · exact Or.inl h
      · right
        refine ⟨(x, y), h, ?_⟩
        simp only [Bool.and_eq_true, decide_eq_true_eq]
        exact ⟨⟨⟨by omega, by omega, hx1, hy1⟩, trivial⟩, trivial⟩
  · unfold Playfield.WellFormed at hwf hwf'
    rw [hr] at hwf'
    omega

theorem mergePiece_occupied_iff_witness :
    ((Playfield.mk 12 24 (List.replicate 24 0)).mergePiece
        (Tetromino.mk Shape.T 0 4 21)).rowState.length
      = (Playfield.mk 12 24 (List.replicate 24 0)).rowState.length :=
  (mergePiece_occupied_iff (Playfield.mk 12 24 (List.replicate 24 0))
    (Tetromino.mk Shape.T 0 4 21) (by decide) (by decide)).2.2.2.1

/-! ## clearFullLines -/

theorem Playfield.fullMask_eq (pf : Playfield) (hW1 : 1 ≤ pf.cols) (hW : pf.cols ≤ 31) :
    pf.fullMask = ((2 ^ pf.cols.toNat - 1 : Nat) : Int) := by
  unfold Playfield.fullMask
  obtain ⟨n, hn⟩ : ∃ n : Nat, pf.cols = n := ⟨pf.cols.toNat, by omega⟩
  rw [hn]
  have hn31 : n ≤ 31 := by omega
  simp only [Int.toNat_ofNat]
  by_cases h31 : n = 31
  · subst h31; decide
  · have hlt : n < 31 := by omega
    have h1 : ¬ ((n : Int) ≥ 31) := by omega
    simp only [h1, if_false]
    unfold shl
    rw [toUint32_one, Nat.shiftLeft_eq, Nat.one_mul, shiftCount_of_lt n (by omega)]
    have hp : 2 ^ n < 2147483648 := by
      calc 2 ^ n < 2 ^ 31 := Nat.pow_lt_pow_right (by norm_num) hlt
        _ = 2147483648 := by norm_num
    rw [toInt32_of_lt _ hp]
    have : 1 ≤ 2 ^ n := Nat.one_le_two_pow
    omega

theorem eq_full_iff_bits (n : Nat) (r : Nat) (hr : r < 2 ^ n) :
    r = 2 ^ n - 1 ↔ ∀ x < n, r.testBit x = true := by
  constructor
  · rintro rfl x hx
    simp [Nat.testBit_two_pow_sub_one, hx]
  · intro h
    apply Nat.eq_of_testBit_eq
    intro i
    rw [Nat.testBit_two_pow_sub_one]
    by_cases hi : i < n
    · simp [hi, h i hi]
    · have : 2 ^ n ≤ 2 ^ i := Nat.pow_le_pow_right (by norm_num) (by omega)
      rw [Nat.testBit_lt_two_pow (lt_of_lt_of_le hr this)]
      simp [hi]

theorem Playfield.isFullRow_iff (pf : Playfield) (hW1 : 1 ≤ pf.cols) (hW : pf.cols ≤ 31)
    (hwf : pf.WellFormed) (hbits : ∀ r ∈ pf.rowState, 0 ≤ r ∧ r < 2 ^ pf.cols.toNat)
    (y : Nat) (hy : y < pf.rows.toNat) :
    pf.isFullRow y = true ↔ pf.rowState.get? y = some pf.fullMask := by
  unfold Playfield.WellFormed at hwf
  have hylen : y < pf.rowState.length := by omega
  have hget : pf.rowState.get? y = some (pf.rowState[y]) := by
    rw [List.get?_eq_getElem?, List.getElem?_eq_getElem hylen]
  have hrow : pf.rowAt (y : Int) = pf.rowState[y] := by
    unfold Playfield.rowAt arrayGet
    simp only [Int.natCast_nonneg, if_true, Int.toNat_ofNat, hget, Option.getD_some]
  obtain ⟨hr0, hr1⟩ := hbits _ (List.getElem_mem hylen)
  have hu : toUint32 (pf.rowState[y]) = (pf.rowState[y]).toNat := by
    unfold toUint32
    have : (2 : Int) ^ pf.cols.toNat ≤ 2 ^ 31 :=
      pow_le_pow_right₀ (by norm_num) (by omega)
    have h32 : (2 : Int) ^ 31 = 2147483648 := by norm_num
    omega
  have hlt : (pf.rowState[y]).toNat < 2 ^ pf.cols.toNat := by
    have : ((pf.rowState[y]).toNat : Int) < ((2 ^ pf.cols.toNat : Nat) : Int) := by
      rw [Int.toNat_of_nonneg hr0]; push_cast; exact hr1
    exact_mod_cast this
  rw [hget, pf.fullMask_eq hW1 hW]
  have hiff : pf.rowState[y] = ((2 ^ pf.cols.toNat - 1 : Nat) : Int)
      ↔ (pf.rowState[y]).toNat = 2 ^ pf.cols.toNat - 1 := by
    constructor
    · intro h; rw [h]; exact Int.toNat_ofNat _
    · intro h; rw [← h]; exact (Int.toNat_of_nonneg hr0).symm
  rw [Option.some_inj, hiff, eq_full_iff_bits _ _ hlt]
  unfold Playfield.isFullRow
  simp only [List.all_eq_true, List.mem_range, Playfield.isOccupied_eq, hrow, hu,
    Bool.and_eq_true, decide_eq_true_eq]
  constructor
  · intro h x hx
    have := (h x hx).2
    rwa [shiftCount_of_lt x (by omega)] at this
  · intro h x hx
    refine ⟨by omega, ?_⟩
    rw [shiftCount_of_lt x (by omega)]
    exact h x hx

theorem Playfield.isFullRow_spec (pf : Playfield) (y : Nat) (hW : 0 ≤ pf.cols) :
    pf.isFullRow y = true ↔ ∀ x : Int, 0 ≤ x → x < pf.cols → pf.isOccupied x y = true := by
  unfold Playfield.isFullRow
  simp only [List.all_eq_true, List.mem_range]
  constructor
  · intro h x hx0 hx1
    have := h x.toNat (by omega)
    rwa [Int.toNat_of_nonneg hx0] at this
  · intro h x hx
    exact h x (by omega) (by omega)

theorem filterMap_ite_eq (l : List Nat) (p : Nat → Bool) (f g : Nat → Int)
    (hfg : ∀ y ∈ l, f y = g y) :
    l.filterMap (fun y => if p y = true then none else some (f y))
      = (l.filter fun y => !p y).map g := by
  induction l with
  | nil => rfl
  | cons a t ih =>
    have ht := ih (fun y hy => hfg y (List.mem_cons_of_mem _ hy))
    have ha := hfg a (List.mem_cons_self _ _)
    by_cases h : p a = true
    · simp [List.filterMap_cons, h, ht]
    · simp [List.filterMap_cons, h, ht, ha]

theorem map_getD_range (l : List Int) :
    (List.range l.length).map (fun y => (l.get? y).getD 0) = l := by
  apply List.ext_getElem?
  intro n
  rw [List.getElem?_map]
  by_cases hn : n < l.length
  · rw [List.getElem?_range hn, List.getElem?_eq_getElem hn]
    simp [List.getElem?_eq_getElem hn]
  · rw [List.getElem?_eq_none (by simpa using hn), List.getElem?_eq_none (by simpa using hn)]
    rfl

theorem Playfield.fullRows_eq (pf : Playfield) (hW1 : 1 ≤ pf.cols) (hW : pf.cols ≤ 31)
    (hwf : pf.WellFormed) (hbits : ∀ r ∈ pf.rowState, 0 ≤ r ∧ r < 2 ^ pf.cols.toNat) :
    pf.fullRows = (List.range pf.rows.toNat).filter pf.isFullRow := by
  unfold Playfield.fullRows
  apply List.filter_congr
  intro y hy
  rw [List.mem_range] at hy
  have := pf.isFullRow_iff hW1 hW hwf hbits y hy
  by_cases h : pf.isFullRow y = true
  · rw [h]; exact decide_eq_true (this.1 h)
  · have h' : ¬ pf.rowState.get? y = some pf.fullMask := fun hh => h (this.2 hh)
    simp only [Bool.not_eq_true] at h
    rw [h]; exact decide_eq_false h'

theorem Playfield.kept_eq (pf : Playfield) (hW1 : 1 ≤ pf.cols) (hW : pf.cols ≤ 31)
    (hwf : pf.WellFormed) (hbits : ∀ r ∈ pf.rowState, 0 ≤ r ∧ r < 2 ^ pf.cols.toNat) :
    ((List.range pf.rows.toNat).filterMap fun y =>
        if pf.fullRows.contains y then none else pf.rowState.get? y)
      = ((List.range pf.rows.toNat).filter (fun y => !pf.isFullRow y)).map
          (fun (y : Nat) => pf.rowAt (y : Int)) := by
  rw [← filterMap_ite_eq (List.range pf.rows.toNat) pf.isFullRow
    (fun (y : Nat) => pf.rowAt (y : Int)) (fun (y : Nat) => pf.rowAt (y : Int))
    (fun _ _ => rfl)]
  apply List.filterMap_congr
  intro y hy
  have hy' := List.mem_range.1 hy
  unfold Playfield.WellFormed at hwf
  have hylen : y < pf.rowState.length := by omega
  have hget : pf.rowState.get? y = some (pf.rowAt y) := by
    unfold Playfield.rowAt arrayGet
    simp only [Int.natCast_nonneg, if_true, Int.toNat_ofNat, List.get?_eq_getElem?,
      List.getElem?_eq_getElem hylen, Option.getD_some]
  have hc : pf.fullRows.contains y = pf.isFullRow y := by
    rw [pf.fullRows_eq hW1 hW hwf hbits]
    by_cases h : pf.isFullRow y = true
    · rw [h, List.contains_iff_exists_mem_beq]
      exact ⟨y, List.mem_filter.2 ⟨hy, h⟩, by simp⟩
    · simp only [Bool.not_eq_true] at h
      rw [h]
      rw [← Bool.not_eq_true, List.contains_iff_exists_mem_beq]
      rintro ⟨z, hz, hyz⟩
      have : y = z := by simpa using hyz
      subst this
      rw [(List.mem_filter.1 hz).2] at h
      exact absurd h (by decide)
  rw [hc, hget]

theorem filter_length_add (l : List Nat) (p : Nat → Bool) :
    (l.filter p).length + (l.filter fun y => !p y).length = l.length := by
  induction l with
  | nil => rfl
  | cons a t ih =>
    by_cases h : p a = true
    · simp [List.filter_cons, h]; omega
    · simp [List.filter_cons, h]; omega

/-- C2: on a board of width 1 <= W <= 31 whose rows use only the low W bits,
`clearFullLines` returns the number of full rows and their indices in ascending
order (a row is full when every column in [0, W) is occupied); the board keeps
its width and height and becomes that many empty rows followed by the rows that
were not full, in their order; with no full row the answer is (0, []) and the
board is unchanged; rows [full, empty, full] with W = 4 and H = 3 give count 2,
rows [0, 2] and three empty rows. -/
theorem clearFullLines_spec (pf : Playfield) (hW1 : 1 ≤ pf.cols) (hW : pf.cols ≤ 31)
    (hwf : pf.WellFormed) (hbits : ∀ r ∈ pf.rowState, 0 ≤ r ∧ r < 2 ^ pf.cols.toNat) :
    pf.clearFullLines.1.count = pf.clearFullLines.1.rows.length
    ∧ pf.clearFullLines.1.rows = (List.range pf.rows.toNat).filter pf.isFullRow
    ∧ (∀ y : Nat, y ∈ pf.clearFullLines.1.rows ↔
        (y : Int) < pf.rows
          ∧ ∀ x : Int, 0 ≤ x → x < pf.cols → pf.isOccupied x y = true)
    ∧ List.Pairwise (fun a b => a < b) pf.clearFullLines.1.rows
    ∧ pf.clearFullLines.2.cols = pf.cols
    ∧ pf.clearFullLines.2.rows = pf.rows
    ∧ pf.clearFullLines.2.rowState.length = pf.rowState.length
    ∧ pf.clearFullLines.2.rowState
        = List.replicate pf.clearFullLines.1.count 0
          ++ ((List.range pf.rows.toNat).filter (fun y => !pf.isFullRow y)).map
              (fun (y : Nat) => pf.rowAt (y : Int))
    ∧ ((∀ y : Nat, (y : Int) < pf.rows → pf.isFullRow y = false) →
        pf.clearFullLines = ({ count := 0, rows := [] }, pf))
    ∧ (Playfield.mk 4 3 [15, 0, 15]).clearFullLines
        = ({ count := 2, rows := [0, 2] }, Playfield.mk 4 3 [0, 0, 0]) := by
  have hfr := pf.fullRows_eq hW1 hW hwf hbits
  have hkept := pf.kept_eq hW1 hW hwf hbits
  have hlen := filter_length_add (List.range pf.rows.toNat) pf.isFullRow
  rw [List.length_range, ← hfr] at hlen
  have hwf' : (pf.rowState.length : Int) = pf.rows := hwf
  have hall : (List.range pf.rowState.length).map (fun (y : Nat) => pf.rowAt (y : Int))
      = pf.rowState := by
    have h := map_getD_range pf.rowState
    unfold Playfield.rowAt arrayGet
    simpa using h
  have hH : pf.rows.toNat = pf.rowState.length := by omega
  by_cases h0 : pf.fullRows.length = 0
  · -- no full row: nothing is scheduled
    have hnil : pf.fullRows = [] := List.length_eq_zero.1 h0
    have hres : pf.clearFullLines = ({ count := 0, rows := [] }, pf) := by
      unfold Playfield.clearFullLines Playfield.clearFullLinesAnimated
      simp [h0]
    have hnone : ∀ y ∈ List.range pf.rows.toNat, (!pf.isFullRow y) = true := by
      intro y hy
      have : y ∉ (List.range pf.rows.toNat).filter pf.isFullRow := by
        rw [← hfr, hnil]; exact List.not_mem_nil _
      rw [List.mem_filter] at this
      cases hf : pf.isFullRow y
      · rfl
      · exact absurd ⟨hy, hf⟩ this
    rw [hres]
    refine ⟨rfl, ?_, ?_, List.Pairwise.nil, rfl, rfl, rfl, ?_, fun _ => rfl, by decide⟩
    · rw [← hfr, hnil]
    · intro y
      simp only [List.not_mem_nil, false_iff]
      rintro ⟨hy, hfull⟩
      have hy' : y ∈ List.range pf.rows.toNat := List.mem_range.2 (by omega)
      have := hnone y hy'
      rw [(pf.isFullRow_spec y (by omega)).2 hfull] at this
      exact absurd this (by decide)
    · rw [List.filter_eq_self.2 hnone, hH, hall]
      rfl
  · have hpos : 0 < pf.fullRows.length := Nat.pos_of_ne_zero h0
    have hres : pf.clearFullLines
        = ({ count := pf.fullRows.length, rows := pf.fullRows }, pf.removeRows pf.fullRows) := by
      unfold Playfield.clearFullLines Playfield.clearFullLinesAnimated
      simp [h0]
    have hklen : (((List.range pf.rows.toNat).filter (fun y => !pf.isFullRow y)).map
          (fun (y : Nat) => pf.rowAt (y : Int))).length
            = pf.rows.toNat - pf.fullRows.length := by
      rw [List.length_map]; omega
    have hrem : pf.removeRows pf.fullRows
        = { pf with rowState := (List.replicate pf.fullRows.length 0
              ++ ((List.range pf.rows.toNat).filter (fun y => !pf.isFullRow y)).map
                  (fun (y : Nat) => pf.rowAt (y : Int))) } := by
      unfold Playfield.removeRows
      simp only [hkept]
      have hc : pf.rows - ((((List.range pf.rows.toNat).filter (fun y => !pf.isFullRow y)).map
          (fun (y : Nat) => pf.rowAt (y : Int))).length : Int) = (pf.fullRows.length : Int) := by
        rw [hklen]; omega
      rw [hc]
      have : ((pf.fullRows.length : Int) > 0) := by omega
      simp only [this, if_true, Int.toNat_ofNat]
    rw [hres, hrem]
    refine ⟨rfl, hfr, ?_, ?_, rfl, rfl, ?_, rfl, ?_, by decide⟩
    · intro y
      simp only
      rw [hfr, List.mem_filter, List.mem_range, pf.isFullRow_spec y (by omega)]
      constructor
      · rintro ⟨h1, h2⟩; exact ⟨by omega, h2⟩
      · rintro ⟨h1, h2⟩; exact ⟨by omega, h2⟩
    · simp only
      rw [hfr]
      exact (List.pairwise_lt_range _).filter _
    · simp only [List.length_append, List.length_replicate, hklen]
      omega
    · intro hno
      exfalso
      obtain ⟨y, hy⟩ := List.exists_mem_of_length_pos hpos
      rw [hfr, List.mem_filter, List.mem_range] at hy
      rw [hno y (by omega)] at hy
      exact absurd hy.2 (by decide)

theorem clearFullLines_spec_witness :
    (Playfield.mk 4 4 [15, 1, 15, 6]).clearFullLines.2.rowState
      = List.replicate (Playfield.mk 4 4 [15, 1, 15, 6]).clearFullLines.1.count 0
        ++ ((List.range (Playfield.mk 4 4 [15, 1, 15, 6]).rows.toNat).filter
              (fun y => !(Playfield.mk 4 4 [15, 1, 15, 6]).isFullRow y)).map
            (fun (y : Nat) => (Playfield.mk 4 4 [15, 1, 15, 6]).rowAt (y : Int)) :=
  (clearFullLines_spec (Playfield.mk 4 4 [15, 1, 15, 6]) (by decide) (by decide) (by decide)
    (by decide)).2.2.2.2.2.2.2.1

/-! ## tryMove and tryRotate -/

theorem jsMod_rotation (r delta : Int) (h0 : 0 ≤ r) (h4 : r < 4)
    (hδ : delta = -1 ∨ delta = 1) :
    (if delta = 1 then jsMod (r + 1) 4 else jsMod (r + 3) 4) = (r + delta) % 4 := by
  unfold jsMod
  rcases hδ with h | h <;> subst h
  · rw [if_neg (by decide), Int.tmod_eq_emod (by omega) (by norm_num)]
    omega
  · rw [if_pos rfl, Int.tmod_eq_emod (by omega) (by norm_num)]

/-- C4: `tryMove(dx, dy)` returns true and moves the piece by exactly (dx, dy),
rotation unchanged, exactly when `canPlace(piece, dx, dy, 0)` holds; `tryRotate(delta)`
for delta in {-1, +1} returns true and sets the rotation index to (r + delta) mod 4,
position unchanged, exactly when `canPlace(piece, 0, 0, delta)` holds; a failed check
returns false and leaves the whole state (piece and board) as it was, and a
successful call changes nothing but the piece. -/
theorem tryMove_tryRotate_spec (s : GameState) (dx dy delta : Int)
    (hr0 : 0 ≤ s.piece.rotation) (hr4 : s.piece.rotation < 4)
    (hδ : delta = -1 ∨ delta = 1) :
    (((tryMove s dx dy).1 = true
        ∧ (tryMove s dx dy).2.piece
            = { type := s.piece.type, rotation := s.piece.rotation,
                x := s.piece.x + dx, y := s.piece.y + dy })
      ↔ s.pf.canPlace s.piece dx dy 0 = true)
    ∧ (((tryRotate s delta).1 = true
        ∧ (tryRotate s delta).2.piece
            = { type := s.piece.type, rotation := (s.piece.rotation + delta) % 4,
                x := s.piece.x, y := s.piece.y })
      ↔ s.pf.canPlace s.piece 0 0 delta = true)
    ∧ (s.pf.canPlace s.piece dx dy 0 = true →
        tryMove s dx dy = (true, { s with piece :=
          { type := s.piece.type, rotation := s.piece.rotation,
            x := s.piece.x + dx, y := s.piece.y + dy } }))
    ∧ (s.pf.canPlace s.piece 0 0 delta = true →
        tryRotate s delta = (true, { s with piece :=
          { type := s.piece.type, rotation := (s.piece.rotation + delta) % 4,
            x := s.piece.x, y := s.piece.y } }))
    ∧ (s.pf.canPlace s.piece dx dy 0 = false → tryMove s dx dy = (false, s))
    ∧ (s.pf.canPlace s.piece 0 0 delta = false → tryRotate s delta = (false, s)) := by
  have hrot := jsMod_rotation s.piece.rotation delta hr0 hr4 hδ
  have hmove : ∀ h : s.pf.canPlace s.piece dx dy 0 = true,
      tryMove s dx dy = (true, { s with piece :=
          { type := s.piece.type, rotation := s.piece.rotation,
            x := s.piece.x + dx, y := s.piece.y + dy } }) := by
    intro h
    simp only [tryMove, h, if_true, Tetromino.move]
  have hrotate : ∀ h : s.pf.canPlace s.piece 0 0 delta = true,
      tryRotate s delta = (true, { s with piece :=
          { type := s.piece.type, rotation := (s.piece.rotation + delta) % 4,
            x := s.piece.x, y := s.piece.y } }) := by
    intro h
    simp only [tryRotate, h, if_true, Tetromino.rotateCW, Tetromino.rotateCCW]
    rw [← hrot]
    split <;> rfl
  have hmoveF : s.pf.canPlace s.piece dx dy 0 = false → tryMove s dx dy = (false, s) := by
    intro h
    simp [tryMove, h]
  have hrotateF : s.pf.canPlace s.piece 0 0 delta = false → tryRotate s delta = (false, s) := by
    intro h
    simp [tryRotate, h]
  refine ⟨⟨?_, ?_⟩, ⟨?_, ?_⟩, hmove, hrotate, hmoveF, hrotateF⟩
  · rintro ⟨h1, _⟩
    cases hc : s.pf.canPlace s.piece dx dy 0
    · rw [hmoveF hc] at h1; exact absurd h1 Bool.false_ne_true
    · rfl
  · intro h
    rw [hmove h]
    exact ⟨rfl, rfl⟩
  · rintro ⟨h1, _⟩
    cases hc : s.pf.canPlace s.piece 0 0 delta
    · rw [hrotateF hc] at h1; exact absurd h1 Bool.false_ne_true
    · rfl
  · intro h
    rw [hrotate h]
    exact ⟨rfl, rfl⟩

theorem tryMove_tryRotate_spec_witness :
    tryMove
        { pf := Playfield.mk 12 24 (List.replicate 24 0), piece := Tetromino.mk Shape.J 0 0 5,
          score := 0, linesClearedTotal := 0, level := 1, paused := false, gameOver := false,
          pendingClears := [], pendingResets := 0 } (-1) 0
      = (false,
        { pf := Playfield.mk 12 24 (List.replicate 24 0), piece := Tetromino.mk Shape.J 0 0 5,
          score := 0, linesClearedTotal := 0, level := 1, paused := false, gameOver := false,
          pendingClears := [], pendingResets := 0 }) :=
  (tryMove_tryRotate_spec
    { pf := Playfield.mk 12 24 (List.replicate 24 0), piece := Tetromino.mk Shape.J 0 0 5,
      score := 0, linesClearedTotal := 0, level := 1, paused := false, gameOver := false,
      pendingClears := [], pendingResets := 0 } (-1) 0 1
    (by decide) (by decide) (by decide)).2.2.2.2.1 (by decide)

/-! ## hardDrop -/

theorem exists_maskBit (k : Shape) (r : Int) (h0 : 0 ≤ r) (h4 : r < 4) :
    ∃ row col : Nat, row < 4 ∧ col < 4
      ∧ maskBit ((arrayGet (ROTATIONS k) r).getD 0) row col = true := by
  have hlen := rotations_bits k r h0 h4
  obtain ⟨rc, hrc⟩ := List.exists_mem_of_length_pos (by rw [hlen]; norm_num :
    0 < (grid4.filter fun rc =>
      maskBit ((arrayGet (ROTATIONS k) r).getD 0) rc.1 rc.2).length)
  rw [List.mem_filter, mem_grid4] at hrc
  exact ⟨rc.1, rc.2, hrc.1.1, hrc.1.2, hrc.2⟩

/-- A piece that can be placed `d` rows lower has its box top above the floor. -/
theorem Playfield.canPlace_lt_rows (pf : Playfield) (p : Tetromino) (d : Int)
    (hr0 : 0 ≤ p.rotation) (hr4 : p.rotation < 4)
    (h : pf.canPlace p 0 d 0 = true) : p.y + d < pf.rows := by
  rw [Playfield.canPlace_eq_true_iff] at h
  have hidx : jsMod (p.rotation + 0 + 4) 4 = p.rotation := by
    rw [jsMod_four (p.rotation + 0) (by omega)]; omega
  rw [hidx] at h
  obtain ⟨row, col, hrow, hcol, hbit⟩ := exists_maskBit p.type p.rotation hr0 hr4
  have := (h row col hrow hcol hbit).2.2.1
  omega

theorem hardDropLoop_spec (pf : Playfield) (p : Tetromino)
    (hr0 : 0 ≤ p.rotation) (hr4 : p.rotation < 4) :
    ∀ (fuel : Nat) (dy : Int), (pf.rows - p.y - dy).toNat < fuel →
      (∀ k : Int, 0 ≤ k → k ≤ dy → pf.canPlace p 0 k 0 = true) →
      ∃ dy' : Int, dy ≤ dy' ∧ hardDropLoop pf p fuel dy = some dy'
        ∧ (∀ k : Int, 0 ≤ k → k ≤ dy' → pf.canPlace p 0 k 0 = true)
        ∧ pf.canPlace p 0 (dy' + 1) 0 = false := by
  intro fuel
  induction fuel with
  | zero => intro dy h; omega
  | succ n ih =>
    intro dy hfuel hall
    unfold hardDropLoop
    cases hc : pf.canPlace p 0 (dy + 1) 0
    · exact ⟨dy, le_refl _, by simp, hall, hc⟩
    · have hlt := pf.canPlace_lt_rows p (dy + 1) hr0 hr4 hc
      obtain ⟨dy', h1, h2, h3, h4⟩ := ih (dy + 1) (by omega) (by
        intro k hk0 hk
        by_cases hk' : k ≤ dy
        · exact hall k hk0 hk'
        · have : k = dy + 1 := by omega
          rw [this]; exact hc)
      exact ⟨dy', by omega, by simpa using h2, h3, h4⟩

theorem ghostLoop_eq (pf : Playfield) (p : Tetromino) :
    ∀ (fuel : Nat) (dy : Int), ghostLoop pf p fuel dy = hardDropLoop pf p fuel dy := by
  intro fuel
  induction fuel with
  | zero => intro dy; rfl
  | succ n ih =>
    intro dy
    unfold ghostLoop hardDropLoop
    rw [ih]

theorem spawnNext_pf (s : GameState) (next : Shape) : (spawnNext s next).pf = s.pf := by
  unfold spawnNext
  simp only
  split <;> rfl

theorem lockAndSpawn_pf (s : GameState) (next : Shape) :
    (lockAndSpawn s next).pf = s.pf.mergePiece s.piece := by
  unfold lockAndSpawn
  simp only
  split <;> split <;> simp [spawnNext_pf]

/-- C5: when the current piece fits where it is, the hard-drop loop stops (any
fuel above H - py is enough) with a dy >= 0 such that the piece fits at every
offset 0..dy and does not fit at dy + 1; `hardDrop` moves the piece by exactly
(0, dy) and then locks it, so the board afterwards is the old board with the moved
piece merged, also when dy = 0; the loop of `drawGhostPiece` finds the same dy. -/
theorem hardDrop_spec (s : GameState) (next : Shape)
    (hr0 : 0 ≤ s.piece.rotation) (hr4 : s.piece.rotation < 4)
    (h0 : s.pf.canPlace s.piece 0 0 0 = true) :
    ∃ dy : Int, 0 ≤ dy
      ∧ (∀ k : Int, 0 ≤ k → k ≤ dy → s.pf.canPlace s.piece 0 k 0 = true)
      ∧ s.pf.canPlace s.piece 0 (dy + 1) 0 = false
      ∧ ∀ fuel : Nat, (s.pf.rows - s.piece.y).toNat < fuel →
          hardDropLoop s.pf s.piece fuel 0 = some dy
          ∧ hardDrop fuel s next
              = some (lockAndSpawn { s with piece :=
                  { type := s.piece.type, rotation := s.piece.rotation,
                    x := s.piece.x, y := s.piece.y + dy } } next)
          ∧ (∃ s' : GameState, hardDrop fuel s next = some s'
              ∧ s'.pf = s.pf.mergePiece
                  { type := s.piece.type, rotation := s.piece.rotation,
                    x := s.piece.x, y := s.piece.y + dy })
          ∧ ghostLoop s.pf s.piece fuel 0 = some dy
          ∧ (∃ ghost, s.pf.drawGhostPiece s.piece fuel = some (dy, ghost)) := by
  have hbase : ∀ k : Int, 0 ≤ k → k ≤ 0 → s.pf.canPlace s.piece 0 k 0 = true := by
    intro k hk0 hk
    have : k = 0 := by omega
    rw [this]; exact h0
  obtain ⟨dy, hdy, -, hall, hstop⟩ :=
    hardDropLoop_spec s.pf s.piece hr0 hr4 ((s.pf.rows - s.piece.y).toNat + 1) 0
      (by simp) hbase
  refine ⟨dy, hdy, hall, hstop, ?_⟩
  intro fuel hfuel
  obtain ⟨dy', hdy', hloop, hall', hstop'⟩ :=
    hardDropLoop_spec s.pf s.piece hr0 hr4 fuel 0 (by simpa using hfuel) hbase
  have hEq : dy' = dy := by
    rcases lt_trichotomy dy' dy with hlt | heq | hgt
    · have := hall (dy' + 1) (by omega) (by omega)
      rw [this] at hstop'; exact absurd hstop' (by decide)
    · exact heq
    · have := hall' (dy + 1) (by omega) (by omega)
      rw [this] at hstop; exact absurd hstop (by decide)
  subst hEq
  have hdrop : hardDrop fuel s next
      = some (lockAndSpawn { s with piece :=
          { type := s.piece.type, rotation := s.piece.rotation,
            x := s.piece.x, y := s.piece.y + dy' } } next) := by
    unfold hardDrop
    rw [hloop]
    simp only [Tetromino.move, add_zero]
    by_cases hpos : dy' > 0
    · simp only [hpos, if_true]
    · have hz : dy' = 0 := by omega
      subst hz
      simp only [gt_iff_lt, lt_self_iff_false, if_false, add_zero]
  refine ⟨hloop, hdrop, ⟨_, hdrop, ?_⟩, ?_, ?_⟩
  · rw [lockAndSpawn_pf]
  · rw [ghostLoop_eq, hloop]
  · unfold Playfield.drawGhostPiece
    rw [ghostLoop_eq, hloop]
    have : ¬ dy' < 0 := by omega
    simp only [this, if_false]
    exact ⟨_, rfl⟩

theorem hardDrop_spec_witness :
    ∃ dy : Int, 0 ≤ dy
      ∧ (Playfield.mk 12 24 (List.replicate 24 0)).canPlace
          (Tetromino.mk Shape.I 0 4 (-1)) 0 (dy + 1) 0 = false :=
  (hardDrop_spec
    { pf := Playfield.mk 12 24 (List.replicate 24 0), piece := Tetromino.mk Shape.I 0 4 (-1),
      score := 0, linesClearedTotal := 0, level := 1, paused := false, gameOver := false,
      pendingClears := [], pendingResets := 0 } Shape.T (by decide) (by decide)
    (by decide)).imp fun _ h => ⟨h.1, h.2.2.1⟩

/-! ## Scoring at a lock -/

theorem lockPoints_eq (n : Nat) : lockPoints n = scoreTable.getD n 0 := by
  unfold lockPoints scoreTable
  rcases n with _ | _ | _ | _ | _ | n <;> simp

theorem spawnNext_scores (s : GameState) (next : Shape) :
    (spawnNext s next).score = s.score
    ∧ (spawnNext s next).linesClearedTotal = s.linesClearedTotal
    ∧ (spawnNext s next).level = s.level := by
  unfold spawnNext
  simp only
  split <;> exact ⟨rfl, rfl, rfl⟩

theorem scoreLock_scores (s : GameState) (n : Nat)
    (hinv : n = 0 → s.level = s.linesClearedTotal / 10 + 1) :
    (scoreLock s n).score = s.score + scoreTable.getD n 0
    ∧ (scoreLock s n).linesClearedTotal = s.linesClearedTotal + n
    ∧ (scoreLock s n).level = (s.linesClearedTotal + n) / 10 + 1 := by
  unfold scoreLock
  by_cases hn : n > 0
  · simp only [hn, if_true, lockPoints_eq]
    have hn' : (n : Int) ≠ 0 := by omega
    unfold updateLevel updateLines updateScore
    simp only [hn', ne_eq, not_false_eq_true, if_true]
    by_cases hp : scoreTable.getD n 0 = 0
    · simp only [hp, not_true_eq_false, if_false, add_zero]
      split <;> simp_all
    · simp only [hp, not_false_eq_true, if_true]
      split <;> simp_all
  · have hz : n = 0 := by omega
    subst hz
    simp only [gt_iff_lt, lt_self_iff_false, if_false, Nat.cast_zero, add_zero]
    exact ⟨by simp [scoreTable], trivial, hinv rfl⟩

/-! ## gravityIntervalMs -/

theorem roundHalfEven_err (t : ℚ) : |(roundHalfEven t : ℚ) - t| ≤ 1 / 2 := by
  have h1 : (⌊t⌋ : ℚ) ≤ t := Int.floor_le t
  have h2 : t < ⌊t⌋ + 1 := Int.lt_floor_add_one t
  unfold roundHalfEven
  rw [abs_le]
  split_ifs with ha hb hc
  · constructor <;> linarith
  · push_cast; constructor <;> linarith
  · constructor <;> linarith
  · push_cast; constructor <;> linarith

theorem binade_le (q : ℚ) (hq : q ≠ 0) : (2 : ℚ) ^ binade q ≤ |q| + 2 ^ (-1022 : ℤ) := by
  unfold binade
  have habs : 0 < |q| := abs_pos.2 hq
  have hpos : (0 : ℚ) < 2 ^ (-1022 : ℤ) := zpow_pos (by norm_num) _
  rcases le_total (Int.log 2 |q|) (-1022) with h | h
  · rw [max_eq_right h]
    linarith
  · rw [max_eq_left h]
    have := Int.zpow_log_le_self (b := 2) (by norm_num) habs
    have h2 : ((2 : ℕ) : ℚ) = 2 := by norm_num
    rw [h2] at this
    linarith

theorem roundDouble_err_binade (q : ℚ) : |roundDouble q - q| ≤ 2 ^ binade q / 2 ^ 53 := by
  unfold roundDouble
  have hpos : (0 : ℚ) < 2 ^ (binade q - 52) := zpow_pos (by norm_num) _
  have hu : (2 : ℚ) ^ (binade q - 52) = 2 ^ binade q / 2 ^ 52 := by
    rw [zpow_sub₀ (by norm_num)]; norm_num
  have herr := roundHalfEven_err (q / 2 ^ (binade q - 52))
  have hq : q = q / 2 ^ (binade q - 52) * 2 ^ (binade q - 52) := by
    field_simp
  have hfac : (roundHalfEven (q / 2 ^ (binade q - 52)) : ℚ) * 2 ^ (binade q - 52) - q
      = ((roundHalfEven (q / 2 ^ (binade q - 52)) : ℚ) - q / 2 ^ (binade q - 52))
          * 2 ^ (binade q - 52) := by
    rw [sub_mul, ← hq]
  rw [hfac, abs_mul, abs_of_pos hpos]
  calc |(roundHalfEven (q / 2 ^ (binade q - 52)) : ℚ) - q / 2 ^ (binade q - 52)|
          * 2 ^ (binade q - 52)
      ≤ 1 / 2 * 2 ^ (binade q - 52) := mul_le_mul_of_nonneg_right herr hpos.le
    _ = 2 ^ binade q / 2 ^ 53 := by rw [hu]; ring

theorem roundDouble_err (q : ℚ) : |roundDouble q - q| ≤ (|q| + 1) / 2 ^ 53 := by
  by_cases hq : q = 0
  · subst hq
    have : roundDouble 0 = 0 := by
      unfold roundDouble roundHalfEven
      norm_num
    rw [this]
    norm_num
  · have h1 := roundDouble_err_binade q
    have h2 := binade_le q hq
    have h3 : (2 : ℚ) ^ (-1022 : ℤ) ≤ 1 := zpow_le_one_of_nonpos₀ (by norm_num) (by norm_num)
    calc |roundDouble q - q| ≤ 2 ^ binade q / 2 ^ 53 := h1
      _ ≤ (|q| + 1) / 2 ^ 53 := by
          apply div_le_div_of_nonneg_right (by linarith) (by positivity)

/-- Rounding leaves a value on the 53-bit grid of its binade as it is. -/
theorem roundDouble_exact (q : ℚ) (e : ℤ) (n : ℤ) (hb : binade q = e)
    (hq : q = n * 2 ^ (e - 52)) : roundDouble q = q := by
  unfold roundDouble
  rw [hb]
  have hpos : (0 : ℚ) < 2 ^ (e - 52) := zpow_pos (by norm_num) _
  have hdiv : q / 2 ^ (e - 52) = (n : ℚ) := by
    rw [hq]; field_simp
  have hr : roundHalfEven ((n : ℤ) : ℚ) = n := by
    unfold roundHalfEven
    rw [Int.floor_intCast]
    norm_num
  rw [hdiv, hr, ← hq]

theorem binade_eq (q : ℚ) (e : ℤ) (he : -1022 ≤ e) (h1 : (2 : ℚ) ^ e ≤ |q|)
    (h2 : |q| < (2 : ℚ) ^ (e + 1)) : binade q = e := by
  unfold binade
  have hpos : 0 < |q| := lt_of_lt_of_le (zpow_pos (by norm_num) e) h1
  have hc : ((2 : ℕ) : ℚ) = 2 := by norm_num
  have hle : e ≤ Int.log 2 |q| := by
    rw [← Int.zpow_le_iff_le_log (by norm_num) hpos, hc]; exact h1
  have hlt : Int.log 2 |q| < e + 1 := by
    rw [← Int.lt_zpow_iff_log_lt (by norm_num) hpos, hc]; exact h2
  rw [max_eq_left (by omega)]
  omega

theorem roundDouble_1000 : roundDouble 1000 = 1000 := by
  have hb : binade 1000 = 9 := by
    apply binade_eq <;> norm_num [abs_of_pos]
  unfold roundDouble
  rw [hb]
  have h43 : (2 : ℚ) ^ ((9 : ℤ) - 52) = 1 / 8796093022208 := by
    rw [show ((9 : ℤ) - 52) = -43 by norm_num, zpow_neg]; norm_num
  rw [h43]
  have hv : (1000 : ℚ) / (1 / 8796093022208) = ((8796093022208000 : ℤ) : ℚ) := by norm_num
  rw [hv]
  have hr : roundHalfEven ((8796093022208000 : ℤ) : ℚ) = 8796093022208000 := by
    unfold roundHalfEven
    rw [Int.floor_intCast]
    norm_num
  rw [hr]
  norm_num

theorem roundDouble_850 : roundDouble (1000 * literal085) = 850 := by
  have hb : binade (1000 * literal085) = 9 := by
    apply binade_eq <;> norm_num [abs_of_pos, literal085]
  unfold roundDouble
  rw [hb]
  have h43 : (2 : ℚ) ^ ((9 : ℤ) - 52) = 1 / 8796093022208 := by
    rw [show ((9 : ℤ) - 52) = -43 by norm_num, zpow_neg]; norm_num
  rw [h43]
  have hv : (1000 * literal085 : ℚ) / (1 / 8796093022208)
      = ((7476679068876799 : ℤ) : ℚ) + 103 / 128 := by
    norm_num [literal085]
  rw [hv]
  have hfl : ⌊((7476679068876799 : ℤ) : ℚ) + 103 / 128⌋ = 7476679068876799 := by
    rw [Int.floor_eq_iff]; constructor <;> norm_num
  have hr : roundHalfEven (((7476679068876799 : ℤ) : ℚ) + 103 / 128) = 7476679068876800 := by
    unfold roundHalfEven
    rw [hfl]
    norm_num
  rw [hr]
  norm_num

theorem literal085_bounds : (8499999 / 10000000 : ℚ) ≤ literal085 ∧ literal085 ≤ 17 / 20 := by
  unfold literal085
  constructor <;> norm_num

/-- The floor of a rounded product that stays clear of the integers around it. -/
theorem floor_roundDouble (q : ℚ) (N : ℤ) (h0 : 0 ≤ q) (h1 : q ≤ 1001)
    (hlo : (N : ℚ) + 1 / 10 ^ 9 ≤ q) (hhi : q + 1 / 10 ^ 9 < N + 1) :
    ⌊roundDouble q⌋ = N := by
  have herr := roundDouble_err q
  rw [abs_of_nonneg h0, abs_le] at herr
  have hε : (q + 1) / 2 ^ 53 ≤ 1 / 10 ^ 9 := by
    rw [div_le_div_iff₀ (by positivity) (by positivity)]
    norm_num
    linarith
  rw [Int.floor_eq_iff]
  constructor <;> linarith [herr.1, herr.2]

/-- Bounds on the product `1000 * Math.pow(0.85, k)` for an accurate `pow`. -/
theorem product_bounds (pow : ℚ → ℤ → ℚ) (hacc : PowAccurate pow) (k : ℕ) (hk : 2 ≤ k) :
    1000 * ((8499999 / 10000000 : ℚ) ^ k * (1 - 1 / 2 ^ 40)) - 1 / 10 ^ 9
        ≤ 1000 * pow literal085 k
    ∧ 1000 * pow literal085 k
        ≤ 1000 * ((17 / 20 : ℚ) ^ k * (1 + 1 / 2 ^ 40)) + 1 / 10 ^ 9 := by
  have h := hacc.2.2 k hk
  rw [abs_le] at h
  obtain ⟨hlo, hhi⟩ := literal085_bounds
  have hxlo : (8499999 / 10000000 : ℚ) ^ k ≤ literal085 ^ k :=
    pow_le_pow_left₀ (by norm_num) hlo k
  have hxhi : literal085 ^ k ≤ (17 / 20 : ℚ) ^ k :=
    pow_le_pow_left₀ (le_trans (by norm_num) hlo) hhi k
  have hs : (1000 : ℚ) * (1 / 2 ^ 100) ≤ 1 / 10 ^ 9 := by norm_num
  have hlo0 : (0 : ℚ) ≤ (8499999 / 10000000 : ℚ) ^ k := by positivity
  constructor
  · have : (8499999 / 10000000 : ℚ) ^ k * (1 - 1 / 2 ^ 40)
        ≤ literal085 ^ k * (1 - 1 / 2 ^ 40) :=
      mul_le_mul_of_nonneg_right hxlo (by norm_num)
    have h1 := h.1
    have e : literal085 ^ k * (1 - 1 / 2 ^ 40) = literal085 ^ k - literal085 ^ k / 2 ^ 40 := by
      ring
    linarith
  · have : literal085 ^ k * (1 + 1 / 2 ^ 40) ≤ (17 / 20 : ℚ) ^ k * (1 + 1 / 2 ^ 40) :=
      mul_le_mul_of_nonneg_right hxhi (by norm_num)
    have h2 := h.2
    have e : literal085 ^ k * (1 + 1 / 2 ^ 40) = literal085 ^ k + literal085 ^ k / 2 ^ 40 := by
      ring
    linarith

theorem gravity_mid (pow : ℚ → ℤ → ℚ) (hacc : PowAccurate pow) (k : ℕ) (hk : 2 ≤ k) (N : ℤ)
    (hN : 120 ≤ N)
    (hlo : (N : ℚ) + 2 / 10 ^ 9
      ≤ 1000 * ((8499999 / 10000000 : ℚ) ^ k * (1 - 1 / 2 ^ 40)))
    (hhi : 1000 * ((17 / 20 : ℚ) ^ k * (1 + 1 / 2 ^ 40)) + 2 / 10 ^ 9 < N + 1)
    (hN1 : (N : ℚ) ≤ 1000) :
    gravityIntervalMs pow (k + 1) = N ∧ exactInterval k = N := by
  obtain ⟨pl, ph⟩ := product_bounds pow hacc k hk
  have hN0 : (0 : ℚ) ≤ N := by exact_mod_cast (by omega : (0 : ℤ) ≤ N)
  constructor
  · unfold gravityIntervalMs
    simp only [add_sub_cancel_right]
    rw [floor_roundDouble (1000 * pow literal085 k) N (by linarith) (by linarith)
      (by linarith) (by linarith)]
    exact max_eq_right hN
  · unfold exactInterval
    have h85 : (85 / 100 : ℚ) = 17 / 20 := by norm_num
    have hfl : ⌊(1000 : ℚ) * (85 / 100) ^ k⌋ = N := by
      rw [Int.floor_eq_iff, h85]
      have hp : (0 : ℚ) ≤ (17 / 20 : ℚ) ^ k := by positivity
      have hmono : (8499999 / 10000000 : ℚ) ^ k ≤ (17 / 20 : ℚ) ^ k :=
        pow_le_pow_left₀ (by norm_num) (by norm_num) k
      have hq : (0 : ℚ) ≤ (8499999 / 10000000 : ℚ) ^ k := by positivity
      constructor
      · have : (8499999 / 10000000 : ℚ) ^ k * (1 - 1 / 2 ^ 40)
            ≤ (8499999 / 10000000 : ℚ) ^ k := by
          apply mul_le_of_le_one_right hq; norm_num
        linarith
      · have : (17 / 20 : ℚ) ^ k ≤ (17 / 20 : ℚ) ^ k * (1 + 1 / 2 ^ 40) := by
          apply le_mul_of_one_le_right hp; norm_num
        linarith
    rw [hfl]
    exact max_eq_right hN

theorem gravity_small (pow : ℚ → ℤ → ℚ) (hacc : PowAccurate pow) (k : ℕ) (hk : k ≤ 13) :
    gravityIntervalMs pow (k + 1) = exactInterval k := by
  interval_cases k
  · have h1 : gravityIntervalMs pow ((0 : ℕ) + 1) = 1000 := by
      unfold gravityIntervalMs
      simp only [Nat.cast_zero, zero_add, sub_self, hacc.1, mul_one, roundDouble_1000]
      norm_num
    have h2 : exactInterval 0 = 1000 := by
      unfold exactInterval; norm_num
    rw [h1, h2]
  · have h1 : gravityIntervalMs pow ((1 : ℕ) + 1) = 850 := by
      unfold gravityIntervalMs
      simp only [Nat.cast_one, add_sub_cancel_right, hacc.2.1, roundDouble_850]
      norm_num
    have h2 : exactInterval 1 = 850 := by
      unfold exactInterval
      have : (1000 : ℚ) * (85 / 100) ^ 1 = ((850 : ℤ) : ℚ) := by norm_num
      rw [this, Int.floor_intCast]; norm_num
    rw [h1, h2]
  · obtain ⟨a, b⟩ := gravity_mid pow hacc 2 (by norm_num) 722 (by norm_num)
      (by norm_num) (by norm_num) (by norm_num)
    rw [a, b]
  · obtain ⟨a, b⟩ := gravity_mid pow hacc 3 (by norm_num) 614 (by norm_num)
      (by norm_num) (by norm_num) (by norm_num)
    rw [a, b]
  · obtain ⟨a, b⟩ := gravity_mid pow hacc 4 (by norm_num) 522 (by norm_num)
      (by norm_num) (by norm_num) (by norm_num)
    rw [a, b]
  · obtain ⟨a, b⟩ := gravity_mid pow hacc 5 (by norm_num) 443 (by norm_num)
      (by norm_num) (by norm_num) (by norm_num)
    rw [a, b]
  · obtain ⟨a, b⟩ := gravity_mid pow hacc 6 (by norm_num) 377 (by norm_num)
      (by norm_num) (by norm_num) (by norm_num)
    rw [a, b]
  · obtain ⟨a, b⟩ := gravity_mid pow hacc 7 (by norm_num) 320 (by norm_num)
      (by norm_num) (by norm_num) (by norm_num)
    rw [a, b]
  · obtain ⟨a, b⟩ := gravity_mid pow hacc 8 (by norm_num) 272 (by norm_num)
      (by norm_num) (by norm_num) (by norm_num)
    rw [a, b]
  · obtain ⟨a, b⟩ := gravity_mid pow hacc 9 (by norm_num) 231 (by norm_num)
      (by norm_num) (by norm_num) (by norm_num)
    rw [a, b]
  · obtain ⟨a, b⟩ := gravity_mid pow hacc 10 (by norm_num) 196 (by norm_num)
      (by norm_num) (by norm_num) (by norm_num)
    rw [a, b]
  · obtain ⟨a, b⟩ := gravity_mid pow hacc 11 (by norm_num) 167 (by norm_num)
      (by norm_num) (by norm_num) (by norm_num)
    rw [a, b]
  · obtain ⟨a, b⟩ := gravity_mid pow hacc 12 (by norm_num) 142 (by norm_num)
      (by norm_num) (by norm_num) (by norm_num)
    rw [a, b]
  · obtain ⟨a, b⟩ := gravity_mid pow hacc 13 (by norm_num) 120 (by norm_num)
      (by norm_num) (by norm_num) (by norm_num)
    rw [a, b]

theorem exactInterval_large (k : ℕ) (hk : 14 ≤ k) : exactInterval k = 120 := by
  unfold exactInterval
  have h1 : (85 / 100 : ℚ) ^ k ≤ (85 / 100 : ℚ) ^ 14 :=
    pow_le_pow_of_le_one (by norm_num) (by norm_num) hk
  have h2 : (1000 : ℚ) * (85 / 100) ^ 14 < 120 := by norm_num
  apply max_eq_left
  have : ⌊(1000 : ℚ) * (85 / 100) ^ k⌋ < 120 := by
    rw [Int.floor_lt]
    push_cast
    linarith
  omega

theorem gravity_large (pow : ℚ → ℤ → ℚ) (hacc : PowAccurate pow) (k : ℕ) (hk : 14 ≤ k) :
    gravityIntervalMs pow (k + 1) = 120 := by
  unfold gravityIntervalMs
  simp only [add_sub_cancel_right]
  have h := hacc.2.2 k (by omega)
  rw [abs_le] at h
  obtain ⟨hlo, hhi⟩ := literal085_bounds
  have hx0 : (0 : ℚ) ≤ literal085 := le_trans (by norm_num) hlo
  have hxk0 : (0 : ℚ) ≤ literal085 ^ k := pow_nonneg hx0 k
  have h1 : literal085 ^ k ≤ literal085 ^ 14 :=
    pow_le_pow_of_le_one hx0 (le_trans hhi (by norm_num)) hk
  have h2 : literal085 ^ 14 ≤ (17 / 20 : ℚ) ^ 14 := pow_le_pow_left₀ hx0 hhi 14
  have h3 : (17 / 20 : ℚ) ^ 14 < 103 / 1000 := by norm_num
  have h40 : literal085 ^ k / 2 ^ 40 ≤ literal085 ^ k := by
    apply div_le_self hxk0; norm_num
  have h100 : (1 : ℚ) / 2 ^ 100 ≤ 1 / 1000 := by norm_num
  have hq1 : 1000 * pow literal085 k ≤ 208 := by linarith [h.2]
  have hq0 : -1 ≤ 1000 * pow literal085 k := by linarith [h.1]
  have herr := roundDouble_err (1000 * pow literal085 k)
  rw [abs_le] at herr
  have habs : |1000 * pow literal085 k| ≤ 208 := by
    rw [abs_le]; constructor <;> linarith
  have hε : (|1000 * pow literal085 k| + 1) / 2 ^ 53 ≤ 1 := by
    rw [div_le_one (by positivity)]
    have : (209 : ℚ) ≤ 2 ^ 53 := by norm_num
    linarith
  have hq2 : 1000 * pow literal085 k ≤ 104 := by
    have : literal085 ^ k / 2 ^ 40 ≤ literal085 ^ k / 1000 := by
      apply div_le_div_of_nonneg_left hxk0 (by norm_num) (by norm_num)
    linarith [h.2]
  apply max_eq_left
  have : ⌊roundDouble (1000 * pow literal085 k)⌋ < 120 := by
    rw [Int.floor_lt]
    push_cast
    linarith [herr.2]
  omega

theorem gravity_eq_exact (pow : ℚ → ℤ → ℚ) (hacc : PowAccurate pow) (k : ℕ) :
    gravityIntervalMs pow (k + 1) = exactInterval k := by
  by_cases hk : k ≤ 13
  · exact gravity_small pow hacc k hk
  · rw [gravity_large pow hacc k (by omega), exactInterval_large k (by omega)]

theorem exactInterval_antitone (k : ℕ) : exactInterval (k + 1) ≤ exactInterval k := by
  unfold exactInterval
  apply max_le_max le_rfl
  apply Int.floor_le_floor
  have : (85 / 100 : ℚ) ^ (k + 1) ≤ (85 / 100 : ℚ) ^ k :=
    pow_le_pow_of_le_one (by norm_num) (by norm_num) (Nat.le_succ k)
  linarith

theorem roundedPow_accurate : PowAccurate roundedPow := by
  have hx0 : (0 : ℚ) < literal085 := by norm_num [literal085]
  refine ⟨?_, ?_, ?_⟩
  · have hb : binade ((literal085 : ℚ) ^ (0 : ℤ)) = 0 := by
      apply binade_eq <;> norm_num
    unfold roundedPow
    rw [roundDouble_exact _ 0 4503599627370496 hb (by
      rw [zpow_zero, show ((0 : ℤ) - 52) = -52 by norm_num, zpow_neg]; norm_num)]
    norm_num
  · have hb : binade ((literal085 : ℚ) ^ (1 : ℤ)) = -1 := by
      apply binade_eq <;> norm_num [abs_of_pos, literal085]
    unfold roundedPow
    rw [roundDouble_exact _ (-1) 7656119366529843 hb (by
      rw [zpow_one, show ((-1 : ℤ) - 52) = -53 by norm_num, zpow_neg]
      norm_num [literal085])]
    norm_num
  · intro n _
    have hq : (0 : ℚ) < literal085 ^ n := pow_pos hx0 n
    unfold roundedPow
    rw [zpow_natCast]
    have h1 := roundDouble_err_binade (literal085 ^ n)
    have h2 := binade_le (literal085 ^ n) hq.ne'
    rw [abs_of_pos hq] at h2
    have h3 : (2 : ℚ) ^ (-1022 : ℤ) / 2 ^ 53 ≤ 1 / 2 ^ 100 := by
      rw [zpow_neg, ← one_div, div_div]
      apply one_div_le_one_div_of_le (by positivity)
      norm_num
    have h4 : literal085 ^ n / 2 ^ 53 ≤ literal085 ^ n / 2 ^ 40 := by
      apply div_le_div_of_nonneg_left hq.le (by positivity)
      exact pow_le_pow_right₀ (by norm_num) (by norm_num)
    have h5 : (2 : ℚ) ^ binade (literal085 ^ n) / 2 ^ 53
        ≤ literal085 ^ n / 2 ^ 53 + 2 ^ (-1022 : ℤ) / 2 ^ 53 := by
      rw [← add_div]
      apply div_le_div_of_nonneg_right h2 (by positivity)
    linarith

/-- C10: for every level L >= 1, with a `Math.pow` that is accurate in the sense of
`PowAccurate`, `gravityIntervalMs()` equals max(120, floor(1000 * 0.85^(L-1)))
evaluated in exact arithmetic; it is 1000 at level 1 and 522 at level 5, never
below 120, and does not increase from level L to level L + 1. -/
theorem gravityIntervalMs_spec (pow : ℚ → ℤ → ℚ) (hacc : PowAccurate pow) (level : ℤ)
    (hL : 1 ≤ level) :
    gravityIntervalMs pow level = max 120 ⌊(1000 : ℚ) * (85 / 100) ^ (level - 1)⌋
    ∧ gravityIntervalMs pow 1 = 1000
    ∧ gravityIntervalMs pow 5 = 522
    ∧ 120 ≤ gravityIntervalMs pow level
    ∧ gravityIntervalMs pow (level + 1) ≤ gravityIntervalMs pow level := by
  obtain ⟨k, hk⟩ : ∃ k : ℕ, level = (k : ℤ) + 1 := ⟨(level - 1).toNat, by omega⟩
  subst hk
  have h1 : gravityIntervalMs pow 1 = 1000 := by
    have := gravity_eq_exact pow hacc 0
    simp only [Nat.cast_zero, zero_add] at this
    rw [this]; unfold exactInterval; norm_num
  have h5 : gravityIntervalMs pow 5 = 522 := by
    have := (gravity_mid pow hacc 4 (by norm_num) 522 (by norm_num)
      (by norm_num) (by norm_num) (by norm_num)).1
    simpa using this
  refine ⟨?_, h1, h5, ?_, ?_⟩
  · rw [gravity_eq_exact pow hacc k]
    simp only [add_sub_cancel_right, zpow_natCast]
    rfl
  · unfold gravityIntervalMs
    exact le_max_left _ _
  · have e : ((k : ℤ) + 1 + 1) = ((k + 1 : ℕ) : ℤ) + 1 := by push_cast; ring
    rw [e, gravity_eq_exact pow hacc (k + 1), gravity_eq_exact pow hacc k]
    exact exactInterval_antitone k

theorem gravityIntervalMs_spec_witness :
    gravityIntervalMs roundedPow 7 = max 120 ⌊(1000 : ℚ) * (85 / 100) ^ ((7 : ℤ) - 1)⌋
    ∧ gravityIntervalMs roundedPow 1 = 1000
    ∧ gravityIntervalMs roundedPow 5 = 522
    ∧ 120 ≤ gravityIntervalMs roundedPow 7
    ∧ gravityIntervalMs roundedPow (7 + 1) ≤ gravityIntervalMs roundedPow 7 :=
  gravityIntervalMs_spec roundedPow roundedPow_accurate 7 (by decide)

/-! ## startNewGame -/

theorem rowAt_of_zero (pf : Playfield) (h : ∀ r ∈ pf.rowState, r = 0) (y : Int) :
    pf.rowAt y = 0 := by
  unfold Playfield.rowAt arrayGet
  split
  · cases hg : pf.rowState.get? y.toNat with
    | none => rfl
    | some r =>
      have hm : r ∈ pf.rowState := List.get?_mem hg
      simp [h r hm]
  · rfl

theorem isOccupied_of_zero (pf : Playfield) (h : ∀ r ∈ pf.rowState, r = 0) (x y : Int) :
    pf.isOccupied x y = false := by
  rw [Playfield.isOccupied_eq, rowAt_of_zero pf h]
  simp [toUint32]

theorem reset_rows_zero (pf : Playfield) : ∀ r ∈ pf.reset.rowState, r = 0 := by
  intro r hr
  simp only [Playfield.reset, List.mem_map] at hr
  obtain ⟨_, _, rfl⟩ := hr
  rfl

theorem sar_twelve : sar 12 1 - 2 = 4 := by decide

/-- The spawn position on a 12 x 24 board is free whenever the board is empty. -/
theorem canPlace_spawn_of_zero (pf : Playfield) (k : Shape) (hc : pf.cols = 12)
    (hr : pf.rows = 24) (h : ∀ r ∈ pf.rowState, r = 0) :
    pf.canPlace (Tetromino.random k 4 (-1)) 0 0 0 = true := by
  rw [Playfield.canPlace_eq_true_iff]
  intro row col hrow hcol _
  simp only [Tetromino.random, hc, hr]
  exact ⟨by omega, by omega, by omega, Or.inr (isOccupied_of_zero pf h _ _)⟩

/-- C11: from every state of the 12 x 24 game, `startNewGame` leaves score 0, line
total 0, level 1, every board row empty, `gameOver` and `paused` false, and the new
piece (any shape, at x = (12 >> 1) - 2 = 4, y = -1, rotation 0) can be placed. -/
theorem startNewGame_resets (s : GameState) (next : Shape) (hc : s.pf.cols = 12)
    (hr : s.pf.rows = 24) :
    (startNewGame s next).score = 0
    ∧ (startNewGame s next).linesClearedTotal = 0
    ∧ (startNewGame s next).level = 1
    ∧ (∀ r ∈ (startNewGame s next).pf.rowState, r = 0)
    ∧ (startNewGame s next).pf.rowState.length = s.pf.rowState.length
    ∧ (startNewGame s next).pf.cols = 12
    ∧ (startNewGame s next).pf.rows = 24
    ∧ (startNewGame s next).gameOver = false
    ∧ (startNewGame s next).paused = false
    ∧ (startNewGame s next).piece = { type := next, rotation := 0, x := 4, y := -1 }
    ∧ (startNewGame s next).pf.canPlace (startNewGame s next).piece 0 0 0 = true := by
  have hs : startNewGame s next
      = { s with pf := s.pf.reset, piece := Tetromino.random next 4 (-1), gameOver := false,
                 score := 0, linesClearedTotal := 0, level := 1, paused := false } := by
    have hx : sar s.pf.reset.cols 1 - 2 = 4 := by
      show sar s.pf.cols 1 - 2 = 4
      rw [hc]; exact sar_twelve
    unfold startNewGame updateLevel updateLines updateScore
    simp [hx]
  rw [hs]
  refine ⟨rfl, rfl, rfl, reset_rows_zero s.pf, ?_, hc, hr, rfl, rfl, rfl, ?_⟩
  · simp [Playfield.reset]
  · exact canPlace_spawn_of_zero s.pf.reset next hc hr (reset_rows_zero s.pf)

theorem startNewGame_resets_witness :
    (startNewGame
      { pf := Playfield.mk 12 24 (List.replicate 24 4095), piece := Tetromino.mk Shape.S 2 4 3,
        score := 700, linesClearedTotal := 12, level := 2, paused := true, gameOver := true,
        pendingClears := [], pendingResets := 1 } Shape.Z).score = 0 :=
  (startNewGame_resets
    { pf := Playfield.mk 12 24 (List.replicate 24 4095), piece := Tetromino.mk Shape.S 2 4 3,
      score := 700, linesClearedTotal := 12, level := 2, paused := true, gameOver := true,
      pendingClears := [], pendingResets := 1 } Shape.Z (by decide) (by decide)).1

/-! ## Commands while paused or after game over -/

theorem touchMove_guard (s : GameState) (delta : Int)
    (h : s.paused = true ∨ s.gameOver = true) : touchMove s delta = s := by
  unfold touchMove
  rcases h with h | h <;> simp [h]

/-- C12: while `paused` or `gameOver` is set, the move, rotate and hard-drop keys, a
gravity tick and the touch gestures leave the whole state as it is (board, piece,
score, line total, level, timers: no lock takes place); the pause and mute keys
still toggle their flags, the restart button still starts a new game, and so does
Enter after game over. -/
theorem suppressed_while_paused_or_over (fuel : Nat) (s : GameState) (next : Shape)
    (key : String) (delta : Int)
    (h : s.paused = true ∨ s.gameOver = true)
    (hkey : key ∈ ["ArrowLeft", "a", "A", "ArrowRight", "d", "D", "ArrowDown", "s", "S",
      "ArrowUp", "w", "W", "z", "Z", "q", "Q", " ", "Spacebar"]) :
    keydown fuel s key next = some s
    ∧ gravityTick s next = s
    ∧ touchRotate s = s
    ∧ touchMove s delta = s
    ∧ touchDrop fuel s next = some s
    ∧ keydown fuel s "p" next = some { s with paused := !s.paused }
    ∧ keydown fuel s "m" next = some { s with muted := !s.muted }
    ∧ step fuel s Event.clickPause next = some { s with paused := !s.paused }
    ∧ step fuel s Event.clickMute next = some { s with muted := !s.muted }
    ∧ step fuel s Event.clickRestart next = some (startNewGame s next)
    ∧ (s.gameOver = true → keydown fuel s "Enter" next = some (startNewGame s next)) := by
  refine ⟨?_, ?_, ?_, touchMove_guard s delta h, ?_, ?_, ?_, rfl, rfl, rfl, ?_⟩
  · simp only [List.mem_cons, List.mem_singleton, List.not_mem_nil, or_false] at hkey
    by_cases hg : s.gameOver = true
    · rcases hkey with rfl | rfl | rfl | rfl | rfl | rfl | rfl | rfl | rfl | rfl | rfl | rfl
        | rfl | rfl | rfl | rfl | rfl | rfl <;> simp [keydown, hg]
    · have hp : s.paused = true := by
        rcases h with h | h
        · exact h
        · exact absurd h hg
      rcases hkey with rfl | rfl | rfl | rfl | rfl | rfl | rfl | rfl | rfl | rfl | rfl | rfl
        | rfl | rfl | rfl | rfl | rfl | rfl <;> simp [keydown, hg, hp]
  · unfold gravityTick
    rcases h with h | h <;> simp [h]
  · unfold touchRotate
    rcases h with h | h <;> simp [h]
  · unfold touchDrop
    rcases h with h | h <;> simp [h]
  · simp [keydown, togglePause]
  · simp [keydown, toggleMute]
  · intro hg
    simp [keydown, hg]

theorem suppressed_while_paused_or_over_witness :
    keydown 30
      { pf := Playfield.mk 12 24 (List.replicate 24 0), piece := Tetromino.mk Shape.T 0 4 (-1),
        score := 0, linesClearedTotal := 0, level := 1, paused := true, gameOver := false,
        pendingClears := [], pendingResets := 0 } " " Shape.O
      = some
      { pf := Playfield.mk 12 24 (List.replicate 24 0), piece := Tetromino.mk Shape.T 0 4 (-1),
        score := 0, linesClearedTotal := 0, level := 1, paused := true, gameOver := false,
        pendingClears := [], pendingResets := 0 } :=
  (suppressed_while_paused_or_over 30
    { pf := Playfield.mk 12 24 (List.replicate 24 0), piece := Tetromino.mk Shape.T 0 4 (-1),
      score := 0, linesClearedTotal := 0, level := 1, paused := true, gameOver := false,
      pendingClears := [], pendingResets := 0 } Shape.O " " 3
    (Or.inl rfl) (by decide)).1

/-! ## canPlace predicts the transformed piece -/

theorem jsMod_lt_four (a : Int) (h : 0 ≤ a) : 0 ≤ jsMod a 4 ∧ jsMod a 4 < 4 ∧ jsMod a 4 = a % 4 := by
  unfold jsMod
  rw [Int.tmod_eq_emod h (by norm_num)]
  omega

theorem canPlace_congr (pf : Playfield) (p q : Tetromino) (dx dy δ : Int)
    (ht : q.type = p.type)
    (hidx : jsMod (q.rotation + 0 + 4) 4 = jsMod (p.rotation + δ + 4) 4)
    (hx : q.x = p.x + dx) (hy : q.y = p.y + dy) :
    pf.canPlace p dx dy δ = pf.canPlace q 0 0 0 := by
  rw [Bool.eq_iff_iff, Playfield.canPlace_eq_true_iff, Playfield.canPlace_eq_true_iff]
  have hrot : q.rotations = p.rotations := by
    unfold Tetromino.rotations; rw [ht]
  rw [hidx, hrot, hx, hy]
  constructor
  · intro h row col hrow hcol hbit
    obtain ⟨a, b, c, d⟩ := h row col hrow hcol hbit
    have ex : p.x + dx + (col : Int) + 0 = p.x + col + dx := by ring
    have ey : p.y + dy + (row : Int) + 0 = p.y + row + dy := by ring
    rw [ex, ey]
    exact ⟨a, b, c, d⟩
  · intro h row col hrow hcol hbit
    obtain ⟨a, b, c, d⟩ := h row col hrow hcol hbit
    have ex : p.x + dx + (col : Int) + 0 = p.x + col + dx := by ring
    have ey : p.y + dy + (row : Int) + 0 = p.y + row + dy := by ring
    simp only [ex, ey] at a b c d
    exact ⟨a, b, c, d⟩

/-- C18: for a piece with rotation index in 0..3, `canPlace(piece, dx, dy, delta)`
equals `canPlace(piece', 0, 0, 0)` where piece' is the piece after `move(dx, dy)`
and after `rotateCW()` for delta = +1 or `rotateCCW()` for delta = -1; hence right
after a successful `tryMove` or `tryRotate` the current piece can be placed where
it is. -/
theorem canPlace_predicts_transform (s : GameState) (dx dy delta : Int)
    (hr0 : 0 ≤ s.piece.rotation) (hr4 : s.piece.rotation < 4) :
    s.pf.canPlace s.piece dx dy 0 = s.pf.canPlace (s.piece.move dx dy) 0 0 0
    ∧ s.pf.canPlace s.piece dx dy 1 = s.pf.canPlace (s.piece.move dx dy).rotateCW 0 0 0
    ∧ s.pf.canPlace s.piece dx dy (-1) = s.pf.canPlace (s.piece.move dx dy).rotateCCW 0 0 0
    ∧ ((tryMove s dx dy).1 = true →
        (tryMove s dx dy).2.pf.canPlace (tryMove s dx dy).2.piece 0 0 0 = true)
    ∧ ((delta = 1 ∨ delta = -1) → (tryRotate s delta).1 = true →
        (tryRotate s delta).2.pf.canPlace (tryRotate s delta).2.piece 0 0 0 = true) := by
  have h0 : s.pf.canPlace s.piece dx dy 0 = s.pf.canPlace (s.piece.move dx dy) 0 0 0 :=
    canPlace_congr s.pf s.piece (s.piece.move dx dy) dx dy 0 rfl rfl rfl rfl
  have hcw : ∀ ex ey : Int, s.pf.canPlace s.piece ex ey 1
      = s.pf.canPlace (s.piece.move ex ey).rotateCW 0 0 0 := by
    intro ex ey
    refine canPlace_congr s.pf s.piece ((s.piece.move ex ey).rotateCW) ex ey 1 rfl ?_ rfl rfl
    show jsMod (jsMod (s.piece.rotation + 1) 4 + 0 + 4) 4 = jsMod (s.piece.rotation + 1 + 4) 4
    obtain ⟨a, b, c⟩ := jsMod_lt_four (s.piece.rotation + 1) (by omega)
    obtain ⟨a', b', c'⟩ := jsMod_lt_four (jsMod (s.piece.rotation + 1) 4 + 0 + 4) (by omega)
    obtain ⟨a'', b'', c''⟩ := jsMod_lt_four (s.piece.rotation + 1 + 4) (by omega)
    omega
  have hccw : ∀ ex ey : Int, s.pf.canPlace s.piece ex ey (-1)
      = s.pf.canPlace (s.piece.move ex ey).rotateCCW 0 0 0 := by
    intro ex ey
    refine canPlace_congr s.pf s.piece ((s.piece.move ex ey).rotateCCW) ex ey (-1) rfl ?_ rfl rfl
    show jsMod (jsMod (s.piece.rotation + 3) 4 + 0 + 4) 4 = jsMod (s.piece.rotation + -1 + 4) 4
    obtain ⟨a, b, c⟩ := jsMod_lt_four (s.piece.rotation + 3) (by omega)
    obtain ⟨a', b', c'⟩ := jsMod_lt_four (jsMod (s.piece.rotation + 3) 4 + 0 + 4) (by omega)
    obtain ⟨a'', b'', c''⟩ := jsMod_lt_four (s.piece.rotation + -1 + 4) (by omega)
    omega
  have hmove0 : s.piece.move 0 0 = s.piece := by
    simp [Tetromino.move]
  refine ⟨h0, hcw dx dy, hccw dx dy, ?_, ?_⟩
  · intro ht
    cases hc : s.pf.canPlace s.piece dx dy 0
    · simp [tryMove, hc] at ht
    · simp only [tryMove, hc, if_true]
      rw [← h0]; exact hc
  · intro hδ ht
    cases hc : s.pf.canPlace s.piece 0 0 delta
    · simp [tryRotate, hc] at ht
    · simp only [tryRotate, hc, if_true]
      rcases hδ with rfl | rfl
      · simp only [if_true]
        have := hcw 0 0
        rw [hmove0] at this
        rw [← this]; exact hc
      · have hne : ¬ ((-1 : Int) = 1) := by decide
        simp only [hne, if_false]
        have := hccw 0 0
        rw [hmove0] at this
        rw [← this]; exact hc

theorem canPlace_predicts_transform_witness :
    (initialState Shape.L).pf.canPlace (initialState Shape.L).piece 2 3 1
      = (initialState Shape.L).pf.canPlace
          ((initialState Shape.L).piece.move 2 3).rotateCW 0 0 0 :=
  (canPlace_predicts_transform (initialState Shape.L) 2 3 1 (by decide) (by decide)).2.1

/-! ## Line clearing twice -/

theorem Playfield.get?_rowAt (pf : Playfield) (hwf : pf.WellFormed) (y : Nat)
    (hy : y < pf.rows.toNat) : pf.rowState.get? y = some (pf.rowAt y) := by
  unfold Playfield.WellFormed at hwf
  have hylen : y < pf.rowState.length := by omega
  unfold Playfield.rowAt arrayGet
  simp only [Int.natCast_nonneg, if_true, Int.toNat_ofNat, List.get?_eq_getElem?,
    List.getElem?_eq_getElem hylen, Option.getD_some]

theorem Playfield.mem_fullRows (pf : Playfield) (y : Nat) :
    y ∈ pf.fullRows ↔ y < pf.rows.toNat ∧ pf.rowState.get? y = some pf.fullMask := by
  unfold Playfield.fullRows
  rw [List.mem_filter, List.mem_range, decide_eq_true_eq]

/-- The rows kept by the timer of `clearFullLinesAnimated`, for the `fullRows` of the same board. -/
theorem Playfield.kept_rows (pf : Playfield) (hwf : pf.WellFormed) :
    ((List.range pf.rows.toNat).filterMap fun y =>
        if pf.fullRows.contains y then none else pf.rowState.get? y)
      = ((List.range pf.rows.toNat).filter
          (fun y => !decide (pf.rowState.get? y = some pf.fullMask))).map
          (fun (y : Nat) => pf.rowAt (y : Int)) := by
  rw [← filterMap_ite_eq (List.range pf.rows.toNat)
    (fun y => decide (pf.rowState.get? y = some pf.fullMask))
    (fun (y : Nat) => pf.rowAt (y : Int)) (fun (y : Nat) => pf.rowAt (y : Int))
    (fun _ _ => rfl)]
  apply List.filterMap_congr
  intro y hy
  have hy' := List.mem_range.1 hy
  have hc : pf.fullRows.contains y = decide (pf.rowState.get? y = some pf.fullMask) := by
    by_cases h : pf.rowState.get? y = some pf.fullMask
    · rw [decide_eq_true h, List.contains_iff_exists_mem_beq]
      exact ⟨y, (pf.mem_fullRows y).2 ⟨hy', h⟩, by simp⟩
    · rw [decide_eq_false h, ← Bool.not_eq_true, List.contains_iff_exists_mem_beq]
      rintro ⟨z, hz, hyz⟩
      have : y = z := by simpa using hyz
      subst this
      exact h ((pf.mem_fullRows y).1 hz).2
  rw [hc, pf.get?_rowAt hwf y hy']

theorem Playfield.fullMask_pos (pf : Playfield) (hW1 : 1 ≤ pf.cols) (hW : pf.cols ≤ 31) :
    pf.fullMask ≠ 0 := by
  rw [pf.fullMask_eq hW1 hW]
  have : 2 ≤ 2 ^ pf.cols.toNat := by
    calc 2 = 2 ^ 1 := by norm_num
      _ ≤ 2 ^ pf.cols.toNat := Nat.pow_le_pow_right (by norm_num) (by omega)
  omega

theorem Playfield.removeRows_fullRows (pf : Playfield) (hwf : pf.WellFormed)
    (hne : pf.fullRows ≠ []) :
    pf.removeRows pf.fullRows
      = { pf with rowState := (List.replicate pf.fullRows.length 0
            ++ ((List.range pf.rows.toNat).filter
                (fun y => !decide (pf.rowState.get? y = some pf.fullMask))).map
                (fun (y : Nat) => pf.rowAt (y : Int))) } := by
  have hlen := filter_length_add (List.range pf.rows.toNat)
    (fun y => decide (pf.rowState.get? y = some pf.fullMask))
  rw [List.length_range] at hlen
  have hfr : pf.fullRows.length = ((List.range pf.rows.toNat).filter
      (fun y => decide (pf.rowState.get? y = some pf.fullMask))).length := rfl
  have hpos : 0 < pf.fullRows.length := List.length_pos.2 hne
  have hwf' : (pf.rowState.length : Int) = pf.rows := hwf
  unfold Playfield.removeRows
  simp only [pf.kept_rows hwf, List.length_map]
  have hc : pf.rows - ((((List.range pf.rows.toNat).filter
      (fun y => !decide (pf.rowState.get? y = some pf.fullMask))).length : Nat) : Int)
        = (pf.fullRows.length : Int) := by
    omega
  rw [hc]
  have : ((pf.fullRows.length : Int) > 0) := by omega
  simp only [this, if_true, Int.toNat_ofNat]

theorem Playfield.clearFullLines_snd (pf : Playfield) :
    pf.clearFullLines.2 = if pf.fullRows = [] then pf else pf.removeRows pf.fullRows := by
  unfold Playfield.clearFullLines Playfield.clearFullLinesAnimated
  by_cases h : pf.fullRows = []
  · simp [h]
  · have : ¬ pf.fullRows.length = 0 := fun hh => h (List.length_eq_zero.1 hh)
    simp [h, this]

theorem Playfield.clearFullLines_of_nil (pf : Playfield) (h : pf.fullRows = []) :
    pf.clearFullLinesAnimated = ({ count := 0, rows := [] }, none)
    ∧ pf.clearFullLines = ({ count := 0, rows := [] }, pf) := by
  unfold Playfield.clearFullLines Playfield.clearFullLinesAnimated
  simp [h]

theorem Playfield.fullRows_nil_of_ne (pf : Playfield)
    (h : ∀ r ∈ pf.rowState, r ≠ pf.fullMask) : pf.fullRows = [] := by
  unfold Playfield.fullRows
  rw [List.filter_eq_nil_iff]
  intro y _
  simp only [decide_eq_true_eq]
  intro hget
  exact h _ (List.get?_mem hget) rfl

/-- After the row removal no row equals the full mask. -/
theorem Playfield.fullRows_after_clear (pf : Playfield) (hW1 : 1 ≤ pf.cols)
    (hW : pf.cols ≤ 31) (hwf : pf.WellFormed) :
    pf.clearFullLines.2.fullRows = []
    ∧ pf.clearFullLines.2.cols = pf.cols
    ∧ pf.clearFullLines.2.rows = pf.rows
    ∧ pf.clearFullLines.2.WellFormed
    ∧ ∀ r ∈ pf.clearFullLines.2.rowState, r = 0 ∨ r ∈ pf.rowState := by
  rw [Playfield.clearFullLines_snd]
  by_cases hnil : pf.fullRows = []
  · rw [if_pos hnil]
    exact ⟨hnil, rfl, rfl, hwf, fun r hr => Or.inr hr⟩
  · rw [if_neg hnil, pf.removeRows_fullRows hwf hnil]
    have hmem : ∀ r ∈ (List.replicate pf.fullRows.length (0 : Int)
            ++ ((List.range pf.rows.toNat).filter
                (fun y => !decide (pf.rowState.get? y = some pf.fullMask))).map
                (fun (y : Nat) => pf.rowAt (y : Int))),
        r = 0 ∨ (r ∈ pf.rowState ∧ r ≠ pf.fullMask) := by
      intro r hr
      rw [List.mem_append] at hr
      rcases hr with hr | hr
      · exact Or.inl (List.eq_of_mem_replicate hr)
      · right
        rw [List.mem_map] at hr
        obtain ⟨z, hz, rfl⟩ := hr
        rw [List.mem_filter, List.mem_range] at hz
        have hget := pf.get?_rowAt hwf z hz.1
        have hne : ¬ pf.rowState.get? z = some pf.fullMask := by
          simpa using hz.2
        refine ⟨List.get?_mem hget, ?_⟩
        intro heq
        exact hne (by rw [hget, heq])
    have hlen := filter_length_add (List.range pf.rows.toNat)
      (fun y => decide (pf.rowState.get? y = some pf.fullMask))
    rw [List.length_range] at hlen
    have hfr : pf.fullRows.length = ((List.range pf.rows.toNat).filter
        (fun y => decide (pf.rowState.get? y = some pf.fullMask))).length := rfl
    have hwf' : (pf.rowState.length : Int) = pf.rows := hwf
    refine ⟨?_, rfl, rfl, ?_, ?_⟩
    · apply Playfield.fullRows_nil_of_ne
      intro r hr
      rcases hmem r hr with h0 | ⟨_, hne⟩
      · rw [h0]; exact fun h => pf.fullMask_pos hW1 hW h.symm
      · exact hne
    · show ((List.replicate pf.fullRows.length (0 : Int)
            ++ ((List.range pf.rows.toNat).filter
                (fun y => !decide (pf.rowState.get? y = some pf.fullMask))).map
                (fun (y : Nat) => pf.rowAt (y : Int))).length : Int) = pf.rows
      simp only [List.length_append, List.length_replicate, List.length_map]
      omega
    · intro r hr
      rcases hmem r hr with h | h
      · exact Or.inl h
      · exact Or.inr h.1

/-- C19: on a board of width 1 <= W <= 31, once `clearFullLines` has run (the
row removal included) no row equals the full mask, so `clearFullLinesAnimated`
run again returns count 0 and no rows, sets no timer, and the board stays as it
is; when the rows use only the low W bits, no row has every column occupied. -/
theorem clearFullLines_idempotent (pf : Playfield) (hW1 : 1 ≤ pf.cols) (hW : pf.cols ≤ 31)
    (hwf : pf.WellFormed) :
    pf.clearFullLines.2.fullRows = []
    ∧ pf.clearFullLines.2.clearFullLinesAnimated = ({ count := 0, rows := [] }, none)
    ∧ pf.clearFullLines.2.clearFullLines = ({ count := 0, rows := [] }, pf.clearFullLines.2)
    ∧ ((∀ r ∈ pf.rowState, 0 ≤ r ∧ r < 2 ^ pf.cols.toNat) →
        ∀ y : Nat, (y : Int) < pf.rows → pf.clearFullLines.2.isFullRow y = false) := by
  obtain ⟨hnil, hc, hr, hwf', hrows⟩ := pf.fullRows_after_clear hW1 hW hwf
  obtain ⟨h1, h2⟩ := pf.clearFullLines.2.clearFullLines_of_nil hnil
  refine ⟨hnil, h1, h2, ?_⟩
  intro hbits y hy
  have hbits' : ∀ r ∈ pf.clearFullLines.2.rowState,
      0 ≤ r ∧ r < 2 ^ pf.clearFullLines.2.cols.toNat := by
    intro r hr'
    rw [hc]
    rcases hrows r hr' with h0 | hm
    · subst h0
      exact ⟨le_refl _, by positivity⟩
    · exact hbits r hm
  have hy' : y < pf.clearFullLines.2.rows.toNat := by rw [hr]; omega
  have hiff := pf.clearFullLines.2.isFullRow_iff (by rw [hc]; exact hW1) (by rw [hc]; exact hW)
    hwf' hbits' y hy'
  cases hf : pf.clearFullLines.2.isFullRow y
  · rfl
  · exfalso
    have hmem := (pf.clearFullLines.2.mem_fullRows y).2 ⟨hy', hiff.1 hf⟩
    rw [hnil] at hmem
    exact List.not_mem_nil _ hmem

theorem clearFullLines_idempotent_witness :
    (Playfield.mk 4 4 [15, 1, 15, 6]).clearFullLines.2.clearFullLines
      = ({ count := 0, rows := [] }, (Playfield.mk 4 4 [15, 1, 15, 6]).clearFullLines.2) :=
  (clearFullLines_idempotent (Playfield.mk 4 4 [15, 1, 15, 6]) (by decide) (by decide)
    (by decide)).2.2.1

/-! ## At most four full rows after a merge -/

theorem length_le_four_of_window (l : List Nat) (hnd : l.Nodup) (a : Int)
    (h : ∀ y ∈ l, a ≤ (y : Int) ∧ (y : Int) ≤ a + 3) : l.length ≤ 4 := by
  have hsub : l ⊆ [a.toNat, (a + 1).toNat, (a + 2).toNat, (a + 3).toNat] := by
    intro y hy
    obtain ⟨h1, h2⟩ := h y hy
    simp only [List.mem_cons, List.mem_singleton, List.not_mem_nil, or_false]
    omega
  have := (List.subperm_of_subset hnd hsub).length_le
  simpa using this

/-- A row equal to the full mask has every column occupied. -/
theorem Playfield.isFullRow_of_fullMask (pf : Playfield) (hW : pf.cols ≤ 31)
    (hwf : pf.WellFormed) (y : Nat) (hy : y < pf.rows.toNat)
    (h : pf.rowState.get? y = some pf.fullMask) : pf.isFullRow y = true := by
  unfold Playfield.isFullRow
  rw [List.all_eq_true]
  intro x hx
  rw [List.mem_range] at hx
  have hW1 : 1 ≤ pf.cols := by omega
  have hrow : pf.rowAt (y : Int) = pf.fullMask := by
    have := pf.get?_rowAt hwf y hy
    rw [h] at this
    exact (Option.some_inj.1 this).symm
  rw [Playfield.isOccupied_eq, hrow, pf.fullMask_eq hW1 hW]
  have hlt : 2 ^ pf.cols.toNat - 1 < 4294967296 := by
    have : 2 ^ pf.cols.toNat ≤ 2 ^ 31 := Nat.pow_le_pow_right (by norm_num) (by omega)
    omega
  rw [toUint32_of_lt _ hlt, shiftCount_of_lt x (by omega), Nat.testBit_two_pow_sub_one]
  simp only [Bool.and_eq_true, decide_eq_true_eq]
  exact ⟨⟨by omega, by omega⟩, hx⟩

/-- Rows that hold no cell of the piece are as full after the merge as before. -/
theorem Playfield.isFullRow_mergePiece (pf : Playfield) (p : Tetromino) (hwf : pf.WellFormed)
    (y : Nat) (hy : ¬ (p.y ≤ (y : Int) ∧ (y : Int) ≤ p.y + 3)) :
    (pf.mergePiece p).isFullRow y = pf.isFullRow y := by
  rw [Playfield.mergePiece_eq_foldl]
  obtain ⟨hc, -, -, hocc⟩ := Playfield.foldl_merge p.cells pf hwf
  unfold Playfield.isFullRow
  rw [hc]
  congr 1
  funext x
  rw [hocc]
  have hany : (p.cells.any fun c =>
      decide (c.2 ≥ 0 ∧ c.1 ≥ 0 ∧ c.1 < pf.cols ∧ c.2 < pf.rows) && decide ((y : Int) = c.2)
        && decide (shiftCount (x : Int) = shiftCount c.1)) = false := by
    rw [← Bool.not_eq_true, List.any_eq_true]
    rintro ⟨c, hcm, hcond⟩
    simp only [Bool.and_eq_true, decide_eq_true_eq] at hcond
    obtain ⟨row, col, hrow, _, _, rfl⟩ := (p.mem_cells c).1 hcm
    have := hcond.1.2
    simp only at this
    omega
  rw [hany, Bool.or_false]

/-- C17: on a board of width W <= 31 with no full row, after `mergePiece(piece)` at
most 4 rows are full (every column occupied), so at most 4 rows equal the full
mask, the count returned by `clearFullLinesAnimated` at the lock is in 0..4 and
`table[count]` is an entry of the scoring table. -/
theorem merge_at_most_four_full (pf : Playfield) (p : Tetromino) (hW : pf.cols ≤ 31)
    (hwf : pf.WellFormed)
    (hno : ∀ y : Nat, (y : Int) < pf.rows → pf.isFullRow y = false) :
    ((List.range pf.rows.toNat).filter (pf.mergePiece p).isFullRow).length ≤ 4
    ∧ (pf.mergePiece p).fullRows.length ≤ 4
    ∧ (pf.mergePiece p).clearFullLinesAnimated.1.count ≤ 4
    ∧ (scoreTable.get? (pf.mergePiece p).clearFullLinesAnimated.1.count).isSome = true
    ∧ lockPoints (pf.mergePiece p).clearFullLinesAnimated.1.count
        ∈ [0, 100, 300, 500, 800] := by
  have hm := Playfield.foldl_merge p.cells pf hwf
  rw [← Playfield.mergePiece_eq_foldl] at hm
  obtain ⟨hc, hr, hwf', -⟩ := hm
  have hwin : ∀ y : Nat, y < pf.rows.toNat → (pf.mergePiece p).isFullRow y = true →
      p.y ≤ (y : Int) ∧ (y : Int) ≤ p.y + 3 := by
    intro y hy hf
    by_contra hout
    rw [pf.isFullRow_mergePiece p hwf y hout, hno y (by omega)] at hf
    exact absurd hf (by decide)
  have h1 : ((List.range pf.rows.toNat).filter (pf.mergePiece p).isFullRow).length ≤ 4 := by
    apply length_le_four_of_window _ ((List.nodup_range _).filter _) p.y
    intro y hy
    rw [List.mem_filter, List.mem_range] at hy
    exact hwin y hy.1 hy.2
  have h2 : (pf.mergePiece p).fullRows.length ≤ 4 := by
    apply length_le_four_of_window _ ((List.nodup_range _).filter _) p.y
    intro y hy
    obtain ⟨hy1, hy2⟩ := ((pf.mergePiece p).mem_fullRows y).1 hy
    have hfull := (pf.mergePiece p).isFullRow_of_fullMask (by rw [hc]; exact hW) hwf' y hy1 hy2
    rw [hr] at hy1
    exact hwin y hy1 hfull
  have h3 : (pf.mergePiece p).clearFullLinesAnimated.1.count ≤ 4 := by
    unfold Playfield.clearFullLinesAnimated
    simp only
    split
    · exact Nat.zero_le _
    · exact h2
  refine ⟨h1, h2, h3, ?_, ?_⟩
  · generalize (pf.mergePiece p).clearFullLinesAnimated.1.count = n at h3
    interval_cases n <;> rfl
  · generalize (pf.mergePiece p).clearFullLinesAnimated.1.count = n at h3
    interval_cases n <;> decide

theorem merge_at_most_four_full_witness :
    ((Playfield.mk 4 6 [0, 0, 7, 7, 7, 7]).mergePiece
        (Tetromino.mk Shape.I 1 1 2)).fullRows.length ≤ 4 :=
  (merge_at_most_four_full (Playfield.mk 4 6 [0, 0, 7, 7, 7, 7]) (Tetromino.mk Shape.I 1 1 2)
    (by decide) (by decide) (by
      intro y hy
      have h6 : (y : Int) < 6 := hy
      have h6n : y < 6 := by omega
      interval_cases y <;> decide)).2.1

/-! ## Constructors -/

/-- C15 as first stated fails: width 0 (or height 0) is accepted and gives a board. -/
theorem Playfield_create_accepts_nonpositive :
    ¬ (∀ cols rows : Int, cols ≤ 0 ∨ rows ≤ 0 →
        ∃ msg, Playfield.create true (some cols) (some rows) = Except.error msg) := by
  intro h
  obtain ⟨msg, hmsg⟩ := h 0 24 (Or.inl (le_refl _))
  have hok : Playfield.create true (some 0) (some 24)
      = Except.ok { cols := 0, rows := 24, rowState := List.replicate 24 0 } := rfl
  rw [hok] at hmsg
  cases hmsg

/-- C15 (amended): constructing a `Playfield` fails when no root element is given
or when `rows` is negative (the array of rows cannot be allocated); for every
width, also cols <= 0, and every 0 <= rows < 2^32, also rows = 0, it succeeds with
a board of that width and `rows` empty rows; the defaults are 12 and 24. -/
theorem Playfield_create_spec (cols rows : Int) (co ro : Option Int) :
    (rows < 0 → ∃ msg, Playfield.create true (some cols) (some rows) = Except.error msg)
    ∧ (0 ≤ rows → rows < 4294967296 →
        Playfield.create true (some cols) (some rows)
          = Except.ok { cols := cols, rows := rows, rowState := List.replicate rows.toNat 0 })
    ∧ (∃ msg, Playfield.create false co ro = Except.error msg)
    ∧ Playfield.create true none none
        = Except.ok { cols := 12, rows := 24, rowState := List.replicate 24 0 }
    ∧ Playfield.create true (some 0) (some 24)
        = Except.ok { cols := 0, rows := 24, rowState := List.replicate 24 0 }
    ∧ Playfield.create true (some 12) (some 0)
        = Except.ok { cols := 12, rows := 0, rowState := [] } := by
  refine ⟨?_, ?_, ⟨_, rfl⟩, rfl, rfl, rfl⟩
  · intro h
    refine ⟨"RangeError: Invalid array length", ?_⟩
    unfold Playfield.create
    have : ¬ (0 ≤ rows ∧ rows < 4294967296) := by omega
    simp [this]
  · intro h0 h1
    unfold Playfield.create
    simp [h0, h1]

theorem Playfield_create_spec_witness :
    Playfield.create true (some (-3)) (some 2)
      = Except.ok { cols := -3, rows := 2, rowState := List.replicate (2 : Int).toNat 0 } :=
  (Playfield_create_spec (-3) 2 none none).2.1 (by decide) (by decide)

theorem tmod_four_bounds (r : Int) : -4 < Int.tmod r 4 ∧ Int.tmod r 4 < 4 := by
  constructor
  · cases r with
    | ofNat n =>
      have := Int.tmod_nonneg (4 : Int) (Int.ofNat_nonneg n)
      have e : Int.ofNat n = (n : Int) := rfl
      rw [e]
      omega
    | negSucc n =>
      show -4 < -((((n + 1) % 4 : Nat)) : Int)
      omega
  · exact Int.tmod_lt_of_pos r (by norm_num)

theorem creation_rotation_range (rotation : Option Int) :
    0 ≤ (match rotation with
        | some r => if r ≠ 0 then jsMod (jsMod r 4 + 4) 4 else 0
        | none => (0 : Int))
    ∧ (match rotation with
        | some r => if r ≠ 0 then jsMod (jsMod r 4 + 4) 4 else 0
        | none => (0 : Int)) < 4 := by
  cases rotation with
  | none => exact ⟨le_refl _, by norm_num⟩
  | some r =>
    simp only
    split
    · obtain ⟨a, b⟩ := tmod_four_bounds r
      have hj : jsMod r 4 = Int.tmod r 4 := rfl
      obtain ⟨c, d, _⟩ := jsMod_lt_four (jsMod r 4 + 4) (by rw [hj]; omega)
      exact ⟨c, d⟩
    · exact ⟨le_refl _, by norm_num⟩

/-- C16: the constructor of `Tetromino` does not throw for the key "toString", which
`ROTATIONS` inherits from `Object.prototype`: the read `ROTATIONS[type]` is truthy
and an object without a mask table is built.  For each of the seven shape keys it
builds a piece with a table of 4 masks and a rotation index in 0..3, and for a key
such as "X", neither a shape nor inherited, it throws. -/
theorem Tetromino_create_inherited_key (x y rotation : Option Int) (k : Shape) :
    Tetromino.create "toString" none none none = Constructed.foreign "toString" 0 0 0
    ∧ Tetromino.create "constructor" none none none = Constructed.foreign "constructor" 0 0 0
    ∧ Tetromino.create "X" none none none = Constructed.threw "Unknown tetromino type: X"
    ∧ (∃ key p, key ∈ ["I", "J", "L", "O", "S", "T", "Z"]
        ∧ Tetromino.create key x y rotation = Constructed.piece p
        ∧ p.type = k
        ∧ p.rotations.length = 4 ∧ 0 ≤ p.rotation ∧ p.rotation < 4
        ∧ p.x = x.getD 0 ∧ p.y = y.getD 0) := by
  refine ⟨by decide, by decide, by decide, ?_⟩
  obtain ⟨h0, h4⟩ := creation_rotation_range rotation
  have hlen : ∀ p : Tetromino, p.rotations.length = 4 := fun _ => rfl
  cases k
  · exact ⟨"I", _, by decide, rfl, rfl, hlen _, h0, h4, rfl, rfl⟩
  · exact ⟨"O", _, by decide, rfl, rfl, hlen _, h0, h4, rfl, rfl⟩
  · exact ⟨"T", _, by decide, rfl, rfl, hlen _, h0, h4, rfl, rfl⟩
  · exact ⟨"S", _, by decide, rfl, rfl, hlen _, h0, h4, rfl, rfl⟩
  · exact ⟨"Z", _, by decide, rfl, rfl, hlen _, h0, h4, rfl, rfl⟩
  · exact ⟨"J", _, by decide, rfl, rfl, hlen _, h0, h4, rfl, rfl⟩
  · exact ⟨"L", _, by decide, rfl, rfl, hlen _, h0, h4, rfl, rfl⟩

/-! ## An invariant of the reachable states -/

theorem mask_eq_of_range (p : Tetromino) (h0 : 0 ≤ p.rotation) :
    (arrayGet p.rotations (jsMod (p.rotation + 0 + 4) 4)).getD 0
      = (arrayGet p.rotations (p.rotation % 4)).getD 0 := by
  rw [jsMod_four (p.rotation + 0) (by omega), add_zero]

/-- A piece that can be placed at an offset is in bounds there. -/
theorem inBounds_of_canPlace (pf : Playfield) (p q : Tetromino) (dx dy δ : Int)
    (ht : q.type = p.type) (hq0 : 0 ≤ q.rotation) (hq4 : q.rotation < 4)
    (hidx : q.rotation = jsMod (p.rotation + δ + 4) 4)
    (hx : q.x = p.x + dx) (hy : q.y = p.y + dy) (hy1 : -1 ≤ q.y)
    (h : pf.canPlace p dx dy δ = true) : PieceInBounds pf q := by
  rw [Playfield.canPlace_eq_true_iff] at h
  refine ⟨hq0, hq4, hy1, ?_⟩
  intro row col hrow hcol hbit
  have hmask : q.mask = (arrayGet p.rotations (jsMod (p.rotation + δ + 4) 4)).getD 0 := by
    unfold Tetromino.mask Tetromino.rotations
    rw [ht, hidx]
  rw [hmask] at hbit
  obtain ⟨a, b, c, _⟩ := h row col hrow hcol hbit
  rw [hx, hy]
  exact ⟨by omega, by omega, by omega⟩

theorem inBounds_spawn (pf : Playfield) (k : Shape) (hc : pf.cols = 12) (hr : pf.rows = 24) :
    PieceInBounds pf (Tetromino.random k (sar pf.cols 1 - 2) (-1)) := by
  rw [hc, sar_twelve]
  refine ⟨le_refl _, by show (0 : Int) < 4; decide, le_refl _, ?_⟩
  intro row col hrow hcol _
  simp only [Tetromino.random, hc, hr]
  omega

theorem invariant_initial (k : Shape) : GameInvariant (initialState k) := by
  refine ⟨rfl, rfl, ?_, ?_⟩
  · show ((List.replicate 24 (0 : Int)).length : Int) = 24
    decide
  · exact inBounds_spawn (initialState k).pf k rfl rfl

theorem invariant_spawnNext (s : GameState) (next : Shape) (h : GameInvariant s) :
    GameInvariant (spawnNext s next) := by
  obtain ⟨hc, hr, hwf, _⟩ := h
  have hb := inBounds_spawn s.pf next hc hr
  unfold spawnNext
  simp only
  split
  · exact ⟨hc, hr, hwf, hb⟩
  · exact ⟨hc, hr, hwf, hb⟩

theorem invariant_tryMove (s : GameState) (dx dy : Int) (hdy : 0 ≤ dy) (h : GameInvariant s) :
    GameInvariant (tryMove s dx dy).2 := by
  obtain ⟨hc, hr, hwf, hp⟩ := h
  unfold tryMove
  cases hcp : s.pf.canPlace s.piece dx dy 0
  · simp only [Bool.false_eq_true, if_false]
    exact ⟨hc, hr, hwf, hp⟩
  · simp only [if_true]
    refine ⟨hc, hr, hwf, ?_⟩
    obtain ⟨h0, h4, hy, _⟩ := hp
    refine inBounds_of_canPlace s.pf s.piece (s.piece.move dx dy) dx dy 0 rfl h0 h4 ?_ rfl rfl
      ?_ hcp
    · show s.piece.rotation = jsMod (s.piece.rotation + 0 + 4) 4
      rw [jsMod_four (s.piece.rotation + 0) (by omega)]; omega
    · show -1 ≤ s.piece.y + dy
      omega

theorem invariant_tryRotate (s : GameState) (delta : Int) (hδ : delta = 1 ∨ delta = -1)
    (h : GameInvariant s) : GameInvariant (tryRotate s delta).2 := by
  obtain ⟨hc, hr, hwf, hp⟩ := h
  unfold tryRotate
  cases hcp : s.pf.canPlace s.piece 0 0 delta
  · simp only [Bool.false_eq_true, if_false]
    exact ⟨hc, hr, hwf, hp⟩
  · simp only [if_true]
    refine ⟨hc, hr, hwf, ?_⟩
    obtain ⟨h0, h4, hy, _⟩ := hp
    have hrot := jsMod_rotation s.piece.rotation delta h0 h4 (hδ.symm)
    have hidx : jsMod (s.piece.rotation + delta + 4) 4 = (s.piece.rotation + delta) % 4 :=
      jsMod_four (s.piece.rotation + delta) (by rcases hδ with rfl | rfl <;> omega)
    have hnew : (if delta = 1 then s.piece.rotateCW else s.piece.rotateCCW).rotation
        = (s.piece.rotation + delta) % 4 := by
      rw [← hrot]
      split <;> rfl
    refine inBounds_of_canPlace s.pf s.piece _ 0 0 delta ?_ ?_ ?_ ?_ ?_ ?_ ?_ hcp
    · split <;> rfl
    · rw [hnew]; omega
    · rw [hnew]; omega
    · rw [hnew, hidx]
    · split <;> simp [Tetromino.rotateCW, Tetromino.rotateCCW]
    · split <;> simp [Tetromino.rotateCW, Tetromino.rotateCCW]
    · have : (if delta = 1 then s.piece.rotateCW else s.piece.rotateCCW).y = s.piece.y := by
        split <;> rfl
      rw [this]; exact hy

theorem mergePiece_frame (pf : Playfield) (p : Tetromino) (hwf : pf.WellFormed) :
    (pf.mergePiece p).cols = pf.cols ∧ (pf.mergePiece p).rows = pf.rows
      ∧ (pf.mergePiece p).WellFormed := by
  have hm := Playfield.foldl_merge p.cells pf hwf
  rw [← Playfield.mergePiece_eq_foldl] at hm
  exact ⟨hm.1, hm.2.1, hm.2.2.1⟩

theorem invariant_lockAndSpawn (s : GameState) (next : Shape) (h : GameInvariant s) :
    GameInvariant (lockAndSpawn s next) := by
  obtain ⟨hc, hr, hwf, hp⟩ := h
  obtain ⟨mc, mr, mwf⟩ := mergePiece_frame s.pf s.piece hwf
  have hp' : PieceInBounds (s.pf.mergePiece s.piece) s.piece := by
    obtain ⟨a, b, c, d⟩ := hp
    refine ⟨a, b, c, ?_⟩
    intro row col hrow hcol hbit
    rw [mc, mr]
    exact d row col hrow hcol hbit
  have hbase : ∀ pend : List (List Nat),
      GameInvariant { s with pf := s.pf.mergePiece s.piece, pendingClears := pend } :=
    fun _ => ⟨mc.trans hc, mr.trans hr, mwf, hp'⟩
  unfold lockAndSpawn
  simp only
  split <;> split <;>
    first
    | exact invariant_spawnNext _ next (hbase _)
    | exact hbase _

theorem hardDropLoop_result (pf : Playfield) (p : Tetromino) :
    ∀ (fuel : Nat) (d0 dy : Int), hardDropLoop pf p fuel d0 = some dy →
      d0 ≤ dy ∧ (d0 < dy → pf.canPlace p 0 dy 0 = true) := by
  intro fuel
  induction fuel with
  | zero => intro d0 dy h; simp [hardDropLoop] at h
  | succ n ih =>
    intro d0 dy h
    unfold hardDropLoop at h
    cases hc : pf.canPlace p 0 (d0 + 1) 0
    · simp only [hc, Bool.false_eq_true, if_false, Option.some.injEq] at h
      subst h
      exact ⟨le_refl _, fun hlt => absurd hlt (lt_irrefl _)⟩
    · simp only [hc, if_true] at h
      obtain ⟨h1, h2⟩ := ih (d0 + 1) dy h
      refine ⟨by omega, fun _ => ?_⟩
      by_cases he : d0 + 1 = dy
      · rw [← he]; exact hc
      · exact h2 (by omega)

/-- The piece that a hard drop locks is in bounds. -/
theorem inBounds_dropped (s : GameState) (fuel : Nat) (dy : Int) (h : GameInvariant s)
    (hloop : hardDropLoop s.pf s.piece fuel 0 = some dy) :
    PieceInBounds s.pf (if dy > 0 then s.piece.move 0 dy else s.piece) := by
  obtain ⟨_, _, _, hp⟩ := h
  obtain ⟨h1, h2⟩ := hardDropLoop_result s.pf s.piece fuel 0 dy hloop
  by_cases hpos : dy > 0
  · simp only [hpos, if_true]
    obtain ⟨h0, h4, hy, _⟩ := hp
    refine inBounds_of_canPlace s.pf s.piece (s.piece.move 0 dy) 0 dy 0 rfl h0 h4 ?_ rfl rfl
      ?_ (h2 hpos)
    · show s.piece.rotation = jsMod (s.piece.rotation + 0 + 4) 4
      rw [jsMod_four (s.piece.rotation + 0) (by omega)]; omega
    · show -1 ≤ s.piece.y + dy
      omega
  · simp only [hpos, if_false]
    exact hp

theorem invariant_hardDrop (fuel : Nat) (s s' : GameState) (next : Shape)
    (h : GameInvariant s) (hd : hardDrop fuel s next = some s') : GameInvariant s' := by
  unfold hardDrop at hd
  cases hloop : hardDropLoop s.pf s.piece fuel 0 with
  | none => simp [hloop] at hd
  | some dy =>
    simp only [hloop, Option.some.injEq] at hd
    subst hd
    apply invariant_lockAndSpawn
    have hb := inBounds_dropped s fuel dy h hloop
    obtain ⟨hc, hr, hwf, _⟩ := h
    by_cases hpos : dy > 0
    · simp only [hpos, if_true] at hb ⊢
      exact ⟨hc, hr, hwf, hb⟩
    · simp only [hpos, if_false] at hb ⊢
      exact ⟨hc, hr, hwf, hb⟩

theorem removeRows_frame (pf : Playfield) (fullRows : List Nat) (hwf : pf.WellFormed) :
    (pf.removeRows fullRows).cols = pf.cols ∧ (pf.removeRows fullRows).rows = pf.rows
      ∧ (pf.removeRows fullRows).WellFormed := by
  have hwf' : (pf.rowState.length : Int) = pf.rows := hwf
  have hk : ((List.range pf.rows.toNat).filterMap fun y =>
      if fullRows.contains y then none else pf.rowState.get? y).length ≤ pf.rows.toNat := by
    have := List.length_filterMap_le (fun y =>
      if fullRows.contains y then none else pf.rowState.get? y) (List.range pf.rows.toNat)
    simpa using this
  unfold Playfield.removeRows
  simp only
  split
  · refine ⟨rfl, rfl, ?_⟩
    show ((List.replicate _ (0 : Int) ++ _).length : Int) = pf.rows
    simp only [List.length_append, List.length_replicate]
    omega
  · exact ⟨rfl, rfl, hwf⟩

theorem scoreLock_frame (s : GameState) (n : Nat) :
    (scoreLock s n).pf = s.pf ∧ (scoreLock s n).piece = s.piece := by
  unfold scoreLock updateLevel updateLines updateScore
  simp only
  split
  · split <;> split <;> split <;> exact ⟨rfl, rfl⟩
  · exact ⟨rfl, rfl⟩

theorem invariant_clearTimeout (s : GameState) (next : Shape) (h : GameInvariant s) :
    GameInvariant (clearTimeout s next) := by
  unfold clearTimeout
  split
  · exact h
  · rename_i fullRows rest _
    obtain ⟨hc, hr, hwf, hp⟩ := h
    obtain ⟨rc, rr, rwf⟩ := removeRows_frame s.pf fullRows hwf
    unfold lockCallback
    apply invariant_spawnNext
    obtain ⟨e1, e2⟩ := scoreLock_frame
      { s with pf := s.pf.removeRows fullRows, pendingClears := rest } fullRows.length
    unfold GameInvariant
    rw [e1, e2]
    refine ⟨rc.trans hc, rr.trans hr, rwf, ?_⟩
    obtain ⟨a, b, c, d⟩ := hp
    refine ⟨a, b, c, ?_⟩
    intro row col hrow hcol hbit
    show _ ∧ _ < (s.pf.removeRows fullRows).cols ∧ _ < (s.pf.removeRows fullRows).rows
    rw [rc, rr]
    exact d row col hrow hcol hbit

theorem reset_frame (pf : Playfield) (hwf : pf.WellFormed) :
    pf.reset.cols = pf.cols ∧ pf.reset.rows = pf.rows ∧ pf.reset.WellFormed := by
  refine ⟨rfl, rfl, ?_⟩
  show ((pf.rowState.map fun _ => (0 : Int)).length : Int) = pf.rows
  rw [List.length_map]
  exact hwf

theorem invariant_gameOverTimeout (s : GameState) (h : GameInvariant s) :
    GameInvariant (gameOverTimeout s) := by
  unfold gameOverTimeout
  split
  · obtain ⟨hc, hr, hwf, hp⟩ := h
    exact ⟨hc, hr, (reset_frame s.pf hwf).2.2, hp⟩
  · exact h

theorem invariant_startNewGame (s : GameState) (next : Shape) (h : GameInvariant s) :
    GameInvariant (startNewGame s next) := by
  obtain ⟨hc, hr, hwf, _⟩ := h
  have hs : startNewGame s next
      = { s with pf := s.pf.reset, piece := Tetromino.random next (sar s.pf.reset.cols 1 - 2) (-1),
                 gameOver := false, score := 0, linesClearedTotal := 0, level := 1,
                 paused := false } := by
    unfold startNewGame updateLevel updateLines updateScore
    simp
  rw [hs]
  exact ⟨hc, hr, (reset_frame s.pf hwf).2.2, inBounds_spawn s.pf.reset next hc hr⟩

theorem invariant_touchMoveLoop (n : Nat) :
    ∀ (s : GameState) (delta : Int), GameInvariant s → GameInvariant (touchMoveLoop n s delta) := by
  induction n with
  | zero => intro s delta h; exact h
  | succ n ih =>
    intro s delta h
    unfold touchMoveLoop
    split
    · exact h
    · split
      · simp only
        split
        · exact invariant_tryMove s 1 0 (le_refl _) h
        · exact ih _ _ (invariant_tryMove s 1 0 (le_refl _) h)
      · simp only
        split
        · exact invariant_tryMove s (-1) 0 (le_refl _) h
        · exact ih _ _ (invariant_tryMove s (-1) 0 (le_refl _) h)

theorem invariant_down (s : GameState) (next : Shape) (h : GameInvariant s) :
    GameInvariant (if (!(tryMove s 0 1).1) = true then lockAndSpawn (tryMove s 0 1).2 next
      else (tryMove s 0 1).2) := by
  have hm := invariant_tryMove s 0 1 (by norm_num) h
  split
  · exact invariant_lockAndSpawn _ next hm
  · exact hm

theorem invariant_keydown (fuel : Nat) (s s' : GameState) (key : String) (next : Shape)
    (h : GameInvariant s) (hk : keydown fuel s key next = some s') : GameInvariant s' := by
  unfold keydown at hk
  by_cases h1 : key = "p" ∨ key = "P"
  · rw [if_pos h1, Option.some.injEq] at hk
    subst hk; exact h
  rw [if_neg h1] at hk
  by_cases h2 : key = "m" ∨ key = "M"
  · rw [if_pos h2, Option.some.injEq] at hk
    subst hk; exact h
  rw [if_neg h2] at hk
  by_cases h3 : s.gameOver = true
  · rw [if_pos h3] at hk
    by_cases h4 : key = "Enter"
    · rw [if_pos h4, Option.some.injEq] at hk
      subst hk; exact invariant_startNewGame s next h
    · rw [if_neg h4, Option.some.injEq] at hk
      subst hk; exact h
  rw [if_neg h3] at hk
  by_cases h5 : s.paused = true
  · rw [if_pos h5, Option.some.injEq] at hk
    subst hk; exact h
  rw [if_neg h5] at hk
  by_cases h6 : key = "ArrowLeft" ∨ key = "a" ∨ key = "A"
  · rw [if_pos h6, Option.some.injEq] at hk
    subst hk; exact invariant_tryMove s (-1) 0 (le_refl _) h
  rw [if_neg h6] at hk
  by_cases h7 : key = "ArrowRight" ∨ key = "d" ∨ key = "D"
  · rw [if_pos h7, Option.some.injEq] at hk
    subst hk; exact invariant_tryMove s 1 0 (le_refl _) h
  rw [if_neg h7] at hk
  by_cases h8 : key = "ArrowDown" ∨ key = "s" ∨ key = "S"
  · rw [if_pos h8] at hk
    have hm := invariant_tryMove s 0 1 (by norm_num) h
    by_cases h9 : (!(tryMove s 0 1).1) = true
    · rw [if_pos h9, Option.some.injEq] at hk
      subst hk; exact invariant_lockAndSpawn _ next hm
    · rw [if_neg h9, Option.some.injEq] at hk
      subst hk; exact hm
  rw [if_neg h8] at hk
  by_cases h10 : key = "ArrowUp" ∨ key = "w" ∨ key = "W"
  · rw [if_pos h10, Option.some.injEq] at hk
    subst hk; exact invariant_tryRotate s 1 (Or.inl rfl) h
  rw [if_neg h10] at hk
  by_cases h11 : key = "z" ∨ key = "Z" ∨ key = "q" ∨ key = "Q"
  · rw [if_pos h11, Option.some.injEq] at hk
    subst hk; exact invariant_tryRotate s (-1) (Or.inr rfl) h
  rw [if_neg h11] at hk
  by_cases h12 : key = " " ∨ key = "Spacebar"
  · rw [if_pos h12] at hk
    exact invariant_hardDrop fuel s s' next h hk
  rw [if_neg h12, Option.some.injEq] at hk
  subst hk; exact h

theorem invariant_step (fuel : Nat) (s s' : GameState) (e : Event) (next : Shape)
    (h : GameInvariant s) (hs : step fuel s e next = some s') : GameInvariant s' := by
  cases e with
  | key k => exact invariant_keydown fuel s s' k next h hs
  | gravity =>
    simp only [step, Option.some.injEq] at hs
    subst hs
    unfold gravityTick
    split
    · exact invariant_down s next h
    · exact h
  | clearTimer =>
    simp only [step, Option.some.injEq] at hs
    subst hs
    exact invariant_clearTimeout s next h
  | gameOverTimer =>
    simp only [step, Option.some.injEq] at hs
    subst hs
    exact invariant_gameOverTimeout s h
  | clickPause =>
    simp only [step, Option.some.injEq] at hs
    subst hs
    exact h
  | clickMute =>
    simp only [step, Option.some.injEq] at hs
    subst hs
    exact h
  | clickRestart =>
    simp only [step, Option.some.injEq] at hs
    subst hs
    exact invariant_startNewGame s next h
  | touchRotate =>
    simp only [step, Option.some.injEq] at hs
    subst hs
    unfold touchRotate
    split
    · exact h
    · exact invariant_tryRotate s 1 (Or.inl rfl) h
  | touchMove delta =>
    simp only [step, Option.some.injEq] at hs
    subst hs
    unfold touchMove
    split
    · exact h
    · exact invariant_touchMoveLoop _ s delta h
  | touchDrop =>
    simp only [step] at hs
    unfold touchDrop at hs
    split at hs
    · simp only [Option.some.injEq] at hs
      subst hs
      exact h
    · exact invariant_hardDrop fuel s s' next h hs

theorem invariant_reachable (s : GameState) (h : Reachable s) : GameInvariant s := by
  induction h with
  | init k => exact invariant_initial k
  | step fuel e next _ hs ih => exact invariant_step fuel _ _ e next ih hs

theorem reachable_run (fuel : Nat) (events : List (Event × Shape)) :
    ∀ (s s' : GameState), Reachable s → run fuel s events = some s' → Reachable s' := by
  induction events with
  | nil =>
    intro s s' h hr
    simp only [run, Option.some.injEq] at hr
    subst hr
    exact h
  | cons ev rest ih =>
    intro s s' h hr
    obtain ⟨e, next⟩ := ev
    unfold run at hr
    cases hs : step fuel s e next with
    | none => simp [hs] at hr
    | some s1 =>
      simp only [hs] at hr
      exact ih s1 s' (Reachable.step fuel e next h hs) hr

/-! ## Locks in reachable states -/

theorem aboveTopRun_ends : run 30 (initialState Shape.I) aboveTopRun = some aboveTopState := by
  decide

theorem fullRowRun_ends : run 30 (initialState Shape.I) fullRowRun = some fullRowState := by
  decide

theorem aboveTopState_reachable : Reachable aboveTopState :=
  reachable_run 30 aboveTopRun _ _ (Reachable.init Shape.I) aboveTopRun_ends

theorem fullRowState_reachable : Reachable fullRowState :=
  reachable_run 30 fullRowRun _ _ (Reachable.init Shape.I) fullRowRun_ends

theorem aboveTopState_locks : Locks aboveTopState aboveTopState.piece :=
  Locks.down aboveTopState (by decide) (by decide) (by decide)

/-- C14 as first stated fails: after `aboveTopRun` the upright I piece cannot move
down and is locked by the next gravity tick with its top cell at y = -1. -/
theorem locked_piece_above_top :
    ¬ (∀ (s : GameState) (p : Tetromino), Reachable s → Locks s p →
        ∀ c ∈ p.cells, 0 ≤ c.2) := by
  intro h
  have := h aboveTopState aboveTopState.piece aboveTopState_reachable aboveTopState_locks
    (6, -1) (by decide)
  exact absurd this (by decide)

/-! ## What the merge of a locked piece writes -/

theorem Playfield.setOccupied_dims (pf : Playfield) (x y : Int) (b : Bool) :
    (pf.setOccupied x y b).cols = pf.cols ∧ (pf.setOccupied x y b).rows = pf.rows := by
  unfold Playfield.setOccupied
  split
  · exact ⟨rfl, rfl⟩
  · split <;> exact ⟨rfl, rfl⟩

theorem Playfield.setOccupied_rowAt_ne (pf : Playfield) (x0 y0 y : Int) (hwf : pf.WellFormed)
    (hy0 : 0 ≤ y0) (hne : y ≠ y0) :
    (pf.setOccupied x0 y0 true).rowAt y = pf.rowAt y := by
  unfold Playfield.setOccupied
  by_cases hin : pf.inside x0 y0 = true
  · have hin' := hin
    simp only [Playfield.inside, Bool.and_eq_true, decide_eq_true_eq] at hin'
    unfold Playfield.WellFormed at hwf
    simp only [hin, Bool.not_true, Bool.false_eq_true, if_false, if_true]
    simp only [Playfield.rowAt]
    rw [arrayGet_arraySet _ _ _ _ hy0 (by omega), if_neg hne]
  · simp only [Bool.not_eq_true] at hin
    simp [hin]

theorem Playfield.foldl_merge_rowAt (y : Int) (cellList : List (Int × Int)) :
    ∀ (pf : Playfield), pf.WellFormed → (∀ c ∈ cellList, c.2 ≠ y) →
      (cellList.foldl (fun (q : Playfield) c =>
        if c.2 ≥ 0 ∧ c.1 ≥ 0 ∧ c.1 < q.cols ∧ c.2 < q.rows then q.setOccupied c.1 c.2 true
        else q) pf).rowAt y = pf.rowAt y := by
  induction cellList with
  | nil => intro pf _ _; rfl
  | cons c rest ih =>
    intro pf hwf h
    have hc := h c (List.mem_cons_self _ _)
    have hrest : ∀ c' ∈ rest, c'.2 ≠ y := fun c' hc' => h c' (List.mem_cons_of_mem _ hc')
    simp only [List.foldl_cons]
    by_cases hg : c.2 ≥ 0 ∧ c.1 ≥ 0 ∧ c.1 < pf.cols ∧ c.2 < pf.rows
    · rw [if_pos hg, ih _ (Playfield.setOccupied_true pf c.1 c.2 hwf hg.1).2.2.1 hrest]
      exact Playfield.setOccupied_rowAt_ne pf c.1 c.2 y hwf hg.1 (fun e => hc e.symm)
    · rw [if_neg hg]
      exact ih pf hwf hrest

theorem Playfield.foldl_merge_filter (cellList : List (Int × Int)) :
    ∀ (pf : Playfield), (∀ c ∈ cellList, 0 ≤ c.1 ∧ c.1 < pf.cols ∧ c.2 < pf.rows) →
      cellList.foldl (fun (q : Playfield) c =>
        if c.2 ≥ 0 ∧ c.1 ≥ 0 ∧ c.1 < q.cols ∧ c.2 < q.rows then q.setOccupied c.1 c.2 true
        else q) pf
      = (cellList.filter fun c => decide (0 ≤ c.2)).foldl
          (fun (q : Playfield) c => q.setOccupied c.1 c.2 true) pf := by
  induction cellList with
  | nil => intro pf _; rfl
  | cons c rest ih =>
    intro pf h
    obtain ⟨a, b, d⟩ := h c (List.mem_cons_self _ _)
    have hrest : ∀ c' ∈ rest, 0 ≤ c'.1 ∧ c'.1 < pf.cols ∧ c'.2 < pf.rows :=
      fun c' hc' => h c' (List.mem_cons_of_mem _ hc')
    simp only [List.foldl_cons]
    by_cases hy : 0 ≤ c.2
    · have hg : c.2 ≥ 0 ∧ c.1 ≥ 0 ∧ c.1 < pf.cols ∧ c.2 < pf.rows := ⟨hy, a, b, d⟩
      rw [if_pos hg, List.filter_cons_of_pos (by simpa using hy), List.foldl_cons]
      apply ih
      intro c' hc'
      rw [(Playfield.setOccupied_dims pf c.1 c.2 true).1,
        (Playfield.setOccupied_dims pf c.1 c.2 true).2]
      exact hrest c' hc'
    · have hg : ¬ (c.2 ≥ 0 ∧ c.1 ≥ 0 ∧ c.1 < pf.cols ∧ c.2 < pf.rows) := fun hh => hy hh.1
      rw [if_neg hg, List.filter_cons_of_neg (by simpa using hy)]
      exact ih pf hrest

/-- C14 (amended): in every state reachable from the initial 12 x 24 game, a piece
that is locked has four cells, all with 0 <= x < 12 and -1 <= y < 24.  The merge
is the marking of exactly its cells with y >= 0, one `setOccupied` each, and a
cell at y = -1 (possible for a piece turned at spawn height) is skipped: after the
merge a bit (x, y) of the 24 rows is set exactly when it was set before or (x, y)
is a cell of the piece, and a row that holds no cell of the piece keeps its value. -/
theorem locked_piece_cells (s : GameState) (p : Tetromino) (hr : Reachable s)
    (hl : Locks s p) :
    p.cells.length = 4
    ∧ (∀ c ∈ p.cells, 0 ≤ c.1 ∧ c.1 < 12 ∧ -1 ≤ c.2 ∧ c.2 < 24)
    ∧ s.pf.mergePiece p
        = (p.cells.filter fun c => decide (0 ≤ c.2)).foldl
            (fun (q : Playfield) c => q.setOccupied c.1 c.2 true) s.pf
    ∧ (∀ x y : Int, 0 ≤ x → x < 32 → 0 ≤ y → y < 24 →
        ((s.pf.mergePiece p).isOccupied x y = true ↔
          s.pf.isOccupied x y = true ∨ (x, y) ∈ p.cells))
    ∧ (∀ y : Int, (∀ c ∈ p.cells, c.2 ≠ y) → (s.pf.mergePiece p).rowAt y = s.pf.rowAt y)
    ∧ (s.pf.mergePiece p).rowState.length = 24 := by
  have hinv := invariant_reachable s hr
  have hb : PieceInBounds s.pf p := by
    cases hl with
    | down _ _ _ => exact hinv.2.2.2
    | drop fuel dy _ _ hloop => exact inBounds_dropped s fuel dy hinv hloop
  obtain ⟨hc, hrw, hwf, _⟩ := hinv
  obtain ⟨h0, h4, hy, hcells⟩ := hb
  have hbounds : ∀ c ∈ p.cells, 0 ≤ c.1 ∧ c.1 < 12 ∧ -1 ≤ c.2 ∧ c.2 < 24 := by
    intro c hcm
    obtain ⟨row, col, hrow, hcol, hbit, rfl⟩ := (p.mem_cells c).1 hcm
    obtain ⟨a, b, d⟩ := hcells row col hrow hcol hbit
    rw [hc] at b
    rw [hrw] at d
    exact ⟨a, b, by show -1 ≤ p.y + (row : Int); omega, d⟩
  have hm := Playfield.foldl_merge p.cells s.pf hwf
  rw [← Playfield.mergePiece_eq_foldl] at hm
  obtain ⟨mc, mr, mwf, hocc⟩ := hm
  refine ⟨?_, hbounds, ?_, ?_, ?_, ?_⟩
  · rw [Tetromino.cells_eq, List.length_map]
    exact rotations_bits p.type p.rotation h0 h4
  · rw [Playfield.mergePiece_eq_foldl]
    apply Playfield.foldl_merge_filter
    intro c hcm
    obtain ⟨a, b, _, d⟩ := hbounds c hcm
    rw [hc, hrw]
    exact ⟨a, b, d⟩
  · intro x y hx0 hx1 hy0 hy1
    rw [hocc, Bool.or_eq_true, List.any_eq_true]
    constructor
    · rintro (h | ⟨c, hcm, hcond⟩)
      · exact Or.inl h
      · right
        simp only [Bool.and_eq_true, decide_eq_true_eq] at hcond
        obtain ⟨⟨hin, hyc⟩, hs⟩ := hcond
        rw [hc] at hin
        have hx : x = c.1 :=
          (shiftCount_inj x c.1 hx0 hx1 (by omega) (by omega)).1 hs
        have : c = (x, y) := by
          rw [hx, hyc]
        rw [← this]; exact hcm
    · rintro (h | h)
      · exact Or.inl h
      · right
        obtain ⟨a, b, _, d⟩ := hbounds (x, y) h
        refine ⟨(x, y), h, ?_⟩
        simp only [Bool.and_eq_true, decide_eq_true_eq]
        rw [hc, hrw]
        exact ⟨⟨⟨hy0, a, b, d⟩, trivial⟩, trivial⟩
  · intro y hy'
    rw [Playfield.mergePiece_eq_foldl]
    exact Playfield.foldl_merge_rowAt y p.cells s.pf hwf hy'
  · have : ((s.pf.mergePiece p).rowState.length : Int) = (s.pf.mergePiece p).rows := mwf
    rw [mr, hrw] at this
    omega

theorem locked_piece_cells_witness :
    aboveTopState.pf.mergePiece aboveTopState.piece
      = (aboveTopState.piece.cells.filter fun c => decide (0 ≤ c.2)).foldl
          (fun (q : Playfield) c => q.setOccupied c.1 c.2 true) aboveTopState.pf :=
  (locked_piece_cells aboveTopState aboveTopState.piece aboveTopState_reachable
    aboveTopState_locks).2.2.1

/-- C13: in the state `fullRowRun` ends in, the row removal of the last lock is
still pending and `piece` is the locked piece; a gravity tick (just as a hard drop
or the down key) arriving then locks that piece again and sets a second timer for the
same row, and once both timers have fired the score is 200 and the line total 2
for one completed row, against 100 and 1 when nothing arrives in between. -/
theorem second_lock_before_row_removal :
    run 30 (initialState Shape.I) fullRowRun = some fullRowState
    ∧ fullRowState.pendingClears = [[23]]
    ∧ (gravityTick fullRowState Shape.T).pendingClears = [[23], [23]]
    ∧ (keydown 30 fullRowState " " Shape.T).map (fun s => s.pendingClears)
        = some [[23], [23]]
    ∧ (keydown 30 fullRowState "ArrowDown" Shape.T).map (fun s => s.pendingClears)
        = some [[23], [23]]
    ∧ (run 30 fullRowState [(Event.gravity, Shape.T), (Event.clearTimer, Shape.T),
          (Event.clearTimer, Shape.O)]).map (fun s => (s.score, s.linesClearedTotal))
        = some (200, 2)
    ∧ (run 30 fullRowState [(Event.clearTimer, Shape.T)]).map
          (fun s => (s.score, s.linesClearedTotal))
        = some (100, 1) := by
  refine ⟨fullRowRun_ends, rfl, ?_, ?_, ?_, ?_, ?_⟩ <;> decide

/-! ## Scoring over runs -/

theorem tryMove_ledger (s : GameState) (dx dy : Int) :
    (tryMove s dx dy).2.score = s.score
    ∧ (tryMove s dx dy).2.linesClearedTotal = s.linesClearedTotal
    ∧ (tryMove s dx dy).2.level = s.level
    ∧ (tryMove s dx dy).2.pendingClears = s.pendingClears := by
  unfold tryMove
  split <;> exact ⟨rfl, rfl, rfl, rfl⟩

theorem tryRotate_ledger (s : GameState) (delta : Int) :
    (tryRotate s delta).2.score = s.score
    ∧ (tryRotate s delta).2.linesClearedTotal = s.linesClearedTotal
    ∧ (tryRotate s delta).2.level = s.level
    ∧ (tryRotate s delta).2.pendingClears = s.pendingClears := by
  unfold tryRotate
  split <;> exact ⟨rfl, rfl, rfl, rfl⟩

theorem touchMoveLoop_ledger (n : Nat) :
    ∀ (s : GameState) (delta : Int),
      (touchMoveLoop n s delta).score = s.score
      ∧ (touchMoveLoop n s delta).linesClearedTotal = s.linesClearedTotal
      ∧ (touchMoveLoop n s delta).level = s.level
      ∧ (touchMoveLoop n s delta).pendingClears = s.pendingClears := by
  induction n with
  | zero => intro s delta; exact ⟨rfl, rfl, rfl, rfl⟩
  | succ n ih =>
    intro s delta
    unfold touchMoveLoop
    by_cases h0 : delta = 0
    · rw [if_pos h0]; exact ⟨rfl, rfl, rfl, rfl⟩
    rw [if_neg h0]
    by_cases hp : delta > 0
    · rw [if_pos hp]
      simp only
      obtain ⟨a, b, c, d⟩ := tryMove_ledger s 1 0
      split
      · exact ⟨a, b, c, d⟩
      · obtain ⟨a', b', c', d'⟩ := ih (tryMove s 1 0).2 (delta - 1)
        exact ⟨a'.trans a, b'.trans b, c'.trans c, d'.trans d⟩
    · rw [if_neg hp]
      simp only
      obtain ⟨a, b, c, d⟩ := tryMove_ledger s (-1) 0
      split
      · exact ⟨a, b, c, d⟩
      · obtain ⟨a', b', c', d'⟩ := ih (tryMove s (-1) 0).2 (delta + 1)
        exact ⟨a'.trans a, b'.trans b, c'.trans c, d'.trans d⟩

theorem spawnNext_pending (s : GameState) (next : Shape) :
    (spawnNext s next).pendingClears = s.pendingClears := by
  unfold spawnNext
  simp only
  split <;> rfl

theorem scoreLock_pending (s : GameState) (n : Nat) :
    (scoreLock s n).pendingClears = s.pendingClears := by
  unfold scoreLock updateLevel updateLines updateScore
  simp only
  split
  · split <;> split <;> split <;> rfl
  · rfl

theorem scoreLock_points (s : GameState) (n : Nat) :
    (scoreLock s n).score = s.score + scoreTable.getD n 0
    ∧ (scoreLock s n).linesClearedTotal = s.linesClearedTotal + n := by
  by_cases hn : n = 0
  · subst hn
    simp [scoreLock, scoreTable]
  · obtain ⟨a, b, _⟩ := scoreLock_scores s n (fun h => absurd h hn)
    exact ⟨a, b⟩

/-- The lock itself leaves score, lines and level alone; when rows are full it
sets one timer that carries them. -/
theorem lockAndSpawn_ledger (s : GameState) (next : Shape) :
    (lockAndSpawn s next).score = s.score
    ∧ (lockAndSpawn s next).linesClearedTotal = s.linesClearedTotal
    ∧ (lockAndSpawn s next).level = s.level
    ∧ (lockAndSpawn s next).pendingClears
        = s.pendingClears ++
          (if (s.pf.mergePiece s.piece).fullRows.length = 0 then []
           else [(s.pf.mergePiece s.piece).fullRows]) := by
  by_cases h0 : (s.pf.mergePiece s.piece).fullRows.length = 0
  · have hl : lockAndSpawn s next
        = spawnNext { s with pf := s.pf.mergePiece s.piece } next := by
      unfold lockAndSpawn Playfield.clearFullLinesAnimated
      simp [h0]
    obtain ⟨a, b, c⟩ := spawnNext_scores { s with pf := s.pf.mergePiece s.piece } next
    rw [hl, a, b, c, spawnNext_pending, if_pos h0, List.append_nil]
    exact ⟨rfl, rfl, rfl, rfl⟩
  · have hl : lockAndSpawn s next
        = { s with pf := s.pf.mergePiece s.piece,
                   pendingClears := s.pendingClears ++ [(s.pf.mergePiece s.piece).fullRows] } := by
      unfold lockAndSpawn Playfield.clearFullLinesAnimated
      simp [h0]
    rw [hl, if_neg h0]
    exact ⟨rfl, rfl, rfl, rfl⟩

/-- The callback of a row removal adds the points and lines of the rows its timer
carries, whatever the state it runs in. -/
theorem clearTimeout_ledger (s : GameState) (next : Shape) (fullRows : List Nat)
    (rest : List (List Nat)) (hp : s.pendingClears = fullRows :: rest) :
    (clearTimeout s next).score = s.score + scoreTable.getD fullRows.length 0
    ∧ (clearTimeout s next).linesClearedTotal = s.linesClearedTotal + fullRows.length
    ∧ (s.level = s.linesClearedTotal / 10 + 1 ∨ 1 ≤ fullRows.length →
        (clearTimeout s next).level = (s.linesClearedTotal + fullRows.length) / 10 + 1)
    ∧ (clearTimeout s next).pendingClears = rest := by
  have hc : clearTimeout s next
      = spawnNext (scoreLock { s with pf := s.pf.removeRows fullRows, pendingClears := rest }
          fullRows.length) next := by
    unfold clearTimeout
    rw [hp]
    rfl
  obtain ⟨a, b, c⟩ := spawnNext_scores
    (scoreLock { s with pf := s.pf.removeRows fullRows, pendingClears := rest }
      fullRows.length) next
  rw [hc, a, b, c, spawnNext_pending, scoreLock_pending]
  refine ⟨?_, ?_, ?_, rfl⟩
  · exact (scoreLock_points _ _).1
  · exact (scoreLock_points _ _).2
  · intro h
    rcases h with h | h
    · exact (scoreLock_scores
        { s with pf := s.pf.removeRows fullRows, pendingClears := rest } _ (fun _ => h)).2.2
    · exact (scoreLock_scores
        { s with pf := s.pf.removeRows fullRows, pendingClears := rest } _
        (fun hz => by omega)).2.2

theorem hardDrop_locks (fuel : Nat) (s s' : GameState) (next : Shape)
    (hs : hardDrop fuel s next = some s') :
    ∃ p, (hardDropLoop s.pf s.piece fuel 0).map
          (fun dy => if dy > 0 then s.piece.move 0 dy else s.piece) = some p
      ∧ s' = lockAndSpawn { s with piece := p } next := by
  unfold hardDrop at hs
  cases hl : hardDropLoop s.pf s.piece fuel 0 with
  | none => simp [hl] at hs
  | some dy =>
    simp only [hl, Option.some.injEq] at hs
    refine ⟨_, rfl, ?_⟩
    subst hs
    by_cases hd : dy > 0
    · simp only [hd, if_true]
    · simp only [hd, if_false]

/-- An event that starts no new game either locks a piece, and then its handler
runs `lockAndSpawn` on that piece, or is a row-removal timer, or leaves score,
lines, level and the pending row removals as they are. -/
theorem step_cases (fuel : Nat) (s s' : GameState) (e : Event) (next : Shape)
    (hs : step fuel s e next = some s') (hng : startsNewGame s e = false) :
    (∃ p, lockedPiece fuel s e = some p ∧ s' = lockAndSpawn { s with piece := p } next)
    ∨ (lockedPiece fuel s e = none ∧ e = Event.clearTimer ∧ s' = clearTimeout s next)
    ∨ (lockedPiece fuel s e = none ∧ s'.score = s.score
        ∧ s'.linesClearedTotal = s.linesClearedTotal ∧ s'.level = s.level
        ∧ s'.pendingClears = s.pendingClears) := by
  cases e with
  | key k =>
    simp only [step] at hs
    unfold keydown at hs
    by_cases h1 : k = "p" ∨ k = "P"
    · rw [if_pos h1, Option.some.injEq] at hs
      subst hs
      refine Or.inr (Or.inr ⟨?_, rfl, rfl, rfl, rfl⟩)
      rcases h1 with rfl | rfl <;> simp [lockedPiece]
    rw [if_neg h1] at hs
    by_cases h2 : k = "m" ∨ k = "M"
    · rw [if_pos h2, Option.some.injEq] at hs
      subst hs
      refine Or.inr (Or.inr ⟨?_, rfl, rfl, rfl, rfl⟩)
      rcases h2 with rfl | rfl <;> simp [lockedPiece]
    rw [if_neg h2] at hs
    have hpm : ¬ (k = "p" ∨ k = "P" ∨ k = "m" ∨ k = "M") := by
      intro h
      rcases h with h | h | h | h
      · exact h1 (Or.inl h)
      · exact h1 (Or.inr h)
      · exact h2 (Or.inl h)
      · exact h2 (Or.inr h)
    by_cases h3 : s.gameOver = true
    · rw [if_pos h3] at hs
      have hlp : lockedPiece fuel s (Event.key k) = none := by
        simp [lockedPiece, h3]
      by_cases h4 : k = "Enter"
      · simp [startsNewGame, h3, h4] at hng
      · rw [if_neg h4, Option.some.injEq] at hs
        subst hs
        exact Or.inr (Or.inr ⟨hlp, rfl, rfl, rfl, rfl⟩)
    rw [if_neg h3] at hs
    by_cases h5 : s.paused = true
    · rw [if_pos h5, Option.some.injEq] at hs
      subst hs
      refine Or.inr (Or.inr ⟨?_, rfl, rfl, rfl, rfl⟩)
      simp [lockedPiece, h5]
    rw [if_neg h5] at hs
    have hgp : (s.gameOver || s.paused) = false := by
      simp only [Bool.not_eq_true] at h3 h5
      rw [h3, h5]; rfl
    have hlk : lockedPiece fuel s (Event.key k)
        = if k = "ArrowDown" ∨ k = "s" ∨ k = "S" then
            (if s.pf.canPlace s.piece 0 1 0 then none else some s.piece)
          else if k = " " ∨ k = "Spacebar" then
            (hardDropLoop s.pf s.piece fuel 0).map fun dy =>
              if dy > 0 then s.piece.move 0 dy else s.piece
          else none := by
      simp only [lockedPiece]
      rw [if_neg hpm, hgp]
      simp only [Bool.false_eq_true, if_false]
    by_cases h6 : k = "ArrowLeft" ∨ k = "a" ∨ k = "A"
    · rw [if_pos h6, Option.some.injEq] at hs
      subst hs
      obtain ⟨a, b, c, d⟩ := tryMove_ledger s (-1) 0
      refine Or.inr (Or.inr ⟨?_, a, b, c, d⟩)
      rw [hlk]
      rcases h6 with rfl | rfl | rfl <;> simp
    rw [if_neg h6] at hs
    by_cases h7 : k = "ArrowRight" ∨ k = "d" ∨ k = "D"
    · rw [if_pos h7, Option.some.injEq] at hs
      subst hs
      obtain ⟨a, b, c, d⟩ := tryMove_ledger s 1 0
      refine Or.inr (Or.inr ⟨?_, a, b, c, d⟩)
      rw [hlk]
      rcases h7 with rfl | rfl | rfl <;> simp
    rw [if_neg h7] at hs
    by_cases h8 : k = "ArrowDown" ∨ k = "s" ∨ k = "S"
    · rw [if_pos h8] at hs
      rw [if_pos h8] at hlk
      by_cases hcp : s.pf.canPlace s.piece 0 1 0 = true
      · have ht : tryMove s 0 1 = (true, { s with piece := s.piece.move 0 1 }) := by
          unfold tryMove; rw [if_pos hcp]
        simp only [ht, Bool.not_true, Bool.false_eq_true, if_false, Option.some.injEq] at hs
        subst hs
        rw [if_pos hcp] at hlk
        exact Or.inr (Or.inr ⟨hlk, rfl, rfl, rfl, rfl⟩)
      · have ht : tryMove s 0 1 = (false, s) := by
          unfold tryMove; rw [if_neg hcp]
        simp only [ht, Bool.not_false, if_true, Option.some.injEq] at hs
        subst hs
        rw [if_neg hcp] at hlk
        exact Or.inl ⟨s.piece, hlk, rfl⟩
    rw [if_neg h8] at hs
    rw [if_neg h8] at hlk
    by_cases h10 : k = "ArrowUp" ∨ k = "w" ∨ k = "W"
    · rw [if_pos h10, Option.some.injEq] at hs
      subst hs
      obtain ⟨a, b, c, d⟩ := tryRotate_ledger s 1
      refine Or.inr (Or.inr ⟨?_, a, b, c, d⟩)
      rw [hlk]
      rcases h10 with rfl | rfl | rfl <;> simp
    rw [if_neg h10] at hs
    by_cases h11 : k = "z" ∨ k = "Z" ∨ k = "q" ∨ k = "Q"
    · rw [if_pos h11, Option.some.injEq] at hs
      subst hs
      obtain ⟨a, b, c, d⟩ := tryRotate_ledger s (-1)
      refine Or.inr (Or.inr ⟨?_, a, b, c, d⟩)
      rw [hlk]
      rcases h11 with rfl | rfl | rfl | rfl <;> simp
    rw [if_neg h11] at hs
    by_cases h12 : k = " " ∨ k = "Spacebar"
    · rw [if_pos h12] at hs
      rw [if_pos h12] at hlk
      obtain ⟨p, hp, hs'⟩ := hardDrop_locks fuel s s' next hs
      exact Or.inl ⟨p, hlk.trans hp, hs'⟩
    rw [if_neg h12, Option.some.injEq] at hs
    rw [if_neg h12] at hlk
    subst hs
    exact Or.inr (Or.inr ⟨hlk, rfl, rfl, rfl, rfl⟩)
  | gravity =>
    simp only [step, Option.some.injEq] at hs
    subst hs
    unfold gravityTick
    by_cases hg : (!s.gameOver && !s.paused) = true
    · rw [if_pos hg]
      have hgp : (s.gameOver || s.paused) = false := by
        cases h1 : s.gameOver <;> cases h2 : s.paused <;> simp_all
      by_cases hcp : s.pf.canPlace s.piece 0 1 0 = true
      · have ht : tryMove s 0 1 = (true, { s with piece := s.piece.move 0 1 }) := by
          unfold tryMove; rw [if_pos hcp]
        have hv : (if (!(tryMove s 0 1).1) = true then lockAndSpawn (tryMove s 0 1).2 next
            else (tryMove s 0 1).2) = { s with piece := s.piece.move 0 1 } := by
          rw [ht]; rfl
        simp only
        rw [hv]
        refine Or.inr (Or.inr ⟨?_, rfl, rfl, rfl, rfl⟩)
        simp [lockedPiece, hgp, hcp]
      · have ht : tryMove s 0 1 = (false, s) := by
          unfold tryMove; rw [if_neg hcp]
        have hv : (if (!(tryMove s 0 1).1) = true then lockAndSpawn (tryMove s 0 1).2 next
            else (tryMove s 0 1).2) = lockAndSpawn s next := by
          rw [ht]; rfl
        simp only
        rw [hv]
        refine Or.inl ⟨s.piece, ?_, rfl⟩
        simp [lockedPiece, hgp, hcp]
    · rw [if_neg hg]
      have hgp : (s.gameOver || s.paused) = true := by
        cases h1 : s.gameOver <;> cases h2 : s.paused <;> simp_all
      refine Or.inr (Or.inr ⟨?_, rfl, rfl, rfl, rfl⟩)
      simp [lockedPiece, hgp]
  | clearTimer =>
    simp only [step, Option.some.injEq] at hs
    exact Or.inr (Or.inl ⟨rfl, rfl, hs.symm⟩)
  | gameOverTimer =>
    simp only [step, Option.some.injEq] at hs
    subst hs
    refine Or.inr (Or.inr ⟨rfl, ?_⟩)
    unfold gameOverTimeout
    split <;> exact ⟨rfl, rfl, rfl, rfl⟩
  | clickPause =>
    simp only [step, Option.some.injEq] at hs
    subst hs
    exact Or.inr (Or.inr ⟨rfl, rfl, rfl, rfl, rfl⟩)
  | clickMute =>
    simp only [step, Option.some.injEq] at hs
    subst hs
    exact Or.inr (Or.inr ⟨rfl, rfl, rfl, rfl, rfl⟩)
  | clickRestart => simp [startsNewGame] at hng
  | touchRotate =>
    simp only [step, Option.some.injEq] at hs
    subst hs
    refine Or.inr (Or.inr ⟨rfl, ?_⟩)
    unfold touchRotate
    split
    · exact ⟨rfl, rfl, rfl, rfl⟩
    · exact tryRotate_ledger s 1
  | touchMove delta =>
    simp only [step, Option.some.injEq] at hs
    subst hs
    refine Or.inr (Or.inr ⟨rfl, ?_⟩)
    unfold touchMove
    split
    · exact ⟨rfl, rfl, rfl, rfl⟩
    · exact touchMoveLoop_ledger _ s delta
  | touchDrop =>
    simp only [step] at hs
    unfold touchDrop at hs
    by_cases hg : (s.paused || s.gameOver) = true
    · rw [if_pos hg, Option.some.injEq] at hs
      subst hs
      refine Or.inr (Or.inr ⟨?_, rfl, rfl, rfl, rfl⟩)
      simp only [lockedPiece]
      rw [if_pos hg]
    · rw [if_neg hg] at hs
      obtain ⟨p, hp, hs'⟩ := hardDrop_locks fuel s s' next hs
      refine Or.inl ⟨p, ?_, hs'⟩
      simp only [lockedPiece]
      rw [if_neg hg]
      exact hp

theorem lockedPiece_locks (fuel : Nat) (s : GameState) (e : Event) (p : Tetromino)
    (h : lockedPiece fuel s e = some p) : Locks s p := by
  have hdown : (s.gameOver || s.paused) = false →
      (if s.pf.canPlace s.piece 0 1 0 = true then none else some s.piece) = some p →
      Locks s p := by
    intro hgp hp
    have hg : s.gameOver = false ∧ s.paused = false := by
      cases h1 : s.gameOver <;> cases h2 : s.paused <;> simp_all
    by_cases hcp : s.pf.canPlace s.piece 0 1 0 = true
    · rw [if_pos hcp] at hp; cases hp
    · rw [if_neg hcp, Option.some.injEq] at hp
      subst hp
      exact Locks.down s hg.1 hg.2 (by simpa using hcp)
  have hdrop : (s.gameOver || s.paused) = false →
      (hardDropLoop s.pf s.piece fuel 0).map
        (fun dy => if dy > 0 then s.piece.move 0 dy else s.piece) = some p →
      Locks s p := by
    intro hgp hp
    have hg : s.gameOver = false ∧ s.paused = false := by
      cases h1 : s.gameOver <;> cases h2 : s.paused <;> simp_all
    cases hl : hardDropLoop s.pf s.piece fuel 0 with
    | none => simp [hl] at hp
    | some dy =>
      simp only [hl, Option.map_some', Option.some.injEq] at hp
      subst hp
      exact Locks.drop s fuel dy hg.1 hg.2 hl
  cases e with
  | key k =>
    simp only [lockedPiece] at h
    by_cases hpm : k = "p" ∨ k = "P" ∨ k = "m" ∨ k = "M"
    · rw [if_pos hpm] at h; cases h
    rw [if_neg hpm] at h
    by_cases hgp : (s.gameOver || s.paused) = true
    · rw [if_pos hgp] at h; cases h
    rw [if_neg hgp] at h
    simp only [Bool.not_eq_true] at hgp
    by_cases h8 : k = "ArrowDown" ∨ k = "s" ∨ k = "S"
    · rw [if_pos h8] at h
      exact hdown hgp h
    rw [if_neg h8] at h
    by_cases h12 : k = " " ∨ k = "Spacebar"
    · rw [if_pos h12] at h
      exact hdrop hgp h
    rw [if_neg h12] at h
    cases h
  | gravity =>
    simp only [lockedPiece] at h
    by_cases hgp : (s.gameOver || s.paused) = true
    · rw [if_pos hgp] at h; cases h
    rw [if_neg hgp] at h
    simp only [Bool.not_eq_true] at hgp
    exact hdown hgp h
  | touchDrop =>
    simp only [lockedPiece] at h
    by_cases hgp : (s.paused || s.gameOver) = true
    · rw [if_pos hgp] at h; cases h
    rw [if_neg hgp] at h
    simp only [Bool.not_eq_true] at hgp
    exact hdrop (by rw [Bool.or_comm]; exact hgp) h
  | clearTimer => cases h
  | gameOverTimer => cases h
  | clickPause => cases h
  | clickMute => cases h
  | clickRestart => cases h
  | touchRotate => cases h
  | touchMove delta => cases h

theorem lockedPiece_sameGame (fuel : Nat) (s : GameState) (e : Event) (p : Tetromino)
    (h : lockedPiece fuel s e = some p) : startsNewGame s e = false := by
  have hl := lockedPiece_locks fuel s e p h
  have hg : s.gameOver = false := by
    cases hl with
    | down _ _ _ => assumption
    | drop _ _ _ _ _ => assumption
  cases e with
  | key k => simp [startsNewGame, hg]
  | clickRestart => cases h
  | gravity => rfl
  | touchDrop => rfl
  | clearTimer => rfl
  | gameOverTimer => rfl
  | clickPause => rfl
  | clickMute => rfl
  | touchRotate => rfl
  | touchMove delta => rfl

theorem hardDrop_none (fuel : Nat) (s : GameState) (next : Shape)
    (h : hardDrop fuel s next = none) : hardDropLoop s.pf s.piece fuel 0 = none := by
  unfold hardDrop at h
  cases hl : hardDropLoop s.pf s.piece fuel 0 with
  | none => rfl
  | some dy => simp [hl] at h

theorem step_none_unlocked (fuel : Nat) (s : GameState) (e : Event) (next : Shape)
    (hs : step fuel s e next = none) : lockedPiece fuel s e = none := by
  cases e with
  | key k =>
    simp only [step] at hs
    unfold keydown at hs
    by_cases h1 : k = "p" ∨ k = "P"
    · rw [if_pos h1] at hs; cases hs
    rw [if_neg h1] at hs
    by_cases h2 : k = "m" ∨ k = "M"
    · rw [if_pos h2] at hs; cases hs
    rw [if_neg h2] at hs
    by_cases h3 : s.gameOver = true
    · rw [if_pos h3] at hs
      by_cases h4 : k = "Enter"
      · rw [if_pos h4] at hs; cases hs
      · rw [if_neg h4] at hs; cases hs
    rw [if_neg h3] at hs
    by_cases h5 : s.paused = true
    · rw [if_pos h5] at hs; cases hs
    rw [if_neg h5] at hs
    by_cases h6 : k = "ArrowLeft" ∨ k = "a" ∨ k = "A"
    · rw [if_pos h6] at hs; cases hs
    rw [if_neg h6] at hs
    by_cases h7 : k = "ArrowRight" ∨ k = "d" ∨ k = "D"
    · rw [if_pos h7] at hs; cases hs
    rw [if_neg h7] at hs
    by_cases h8 : k = "ArrowDown" ∨ k = "s" ∨ k = "S"
    · rw [if_pos h8] at hs
      simp only at hs
      split at hs <;> cases hs
    rw [if_neg h8] at hs
    by_cases h10 : k = "ArrowUp" ∨ k = "w" ∨ k = "W"
    · rw [if_pos h10] at hs; cases hs
    rw [if_neg h10] at hs
    by_cases h11 : k = "z" ∨ k = "Z" ∨ k = "q" ∨ k = "Q"
    · rw [if_pos h11] at hs; cases hs
    rw [if_neg h11] at hs
    by_cases h12 : k = " " ∨ k = "Spacebar"
    · rw [if_pos h12] at hs
      have hl := hardDrop_none fuel s next hs
      have hpm : ¬ (k = "p" ∨ k = "P" ∨ k = "m" ∨ k = "M") := by
        intro h
        rcases h with h | h | h | h
        · exact h1 (Or.inl h)
        · exact h1 (Or.inr h)
        · exact h2 (Or.inl h)
        · exact h2 (Or.inr h)
      simp only [lockedPiece]
      rw [if_neg hpm]
      simp only [Bool.not_eq_true] at h3 h5
      rw [h3, h5]
      simp only [Bool.or_self, Bool.false_eq_true, if_false]
      rw [if_neg h8, if_pos h12, hl]
      rfl
    rw [if_neg h12] at hs
    cases hs
  | touchDrop =>
    simp only [step] at hs
    unfold touchDrop at hs
    by_cases hg : (s.paused || s.gameOver) = true
    · rw [if_pos hg] at hs; cases hs
    · rw [if_neg hg] at hs
      have hl := hardDrop_none fuel s next hs
      simp only [lockedPiece]
      rw [if_neg hg, hl]
      rfl
  | gravity => simp [step] at hs
  | clearTimer => simp [step] at hs
  | gameOverTimer => simp [step] at hs
  | clickPause => simp [step] at hs
  | clickMute => simp [step] at hs
  | clickRestart => simp [step] at hs
  | touchRotate => simp [step] at hs
  | touchMove delta => simp [step] at hs

/-- A lock event runs `lockAndSpawn` on the locked piece. -/
theorem lockedPiece_step (fuel : Nat) (s : GameState) (e : Event) (next : Shape)
    (p : Tetromino) (h : lockedPiece fuel s e = some p) :
    step fuel s e next = some (lockAndSpawn { s with piece := p } next) := by
  cases hs : step fuel s e next with
  | none =>
    rw [step_none_unlocked fuel s e next hs] at h
    cases h
  | some s' =>
    rcases step_cases fuel s s' e next hs (lockedPiece_sameGame fuel s e p h) with
      ⟨p', hp', hs'⟩ | ⟨hn, _⟩ | ⟨hn, _⟩
    · rw [h, Option.some.injEq] at hp'
      rw [hs', hp']
    · rw [h] at hn; cases hn
    · rw [h] at hn; cases hn

theorem step_ledger (fuel : Nat) (s s' : GameState) (e : Event) (next : Shape)
    (hs : step fuel s e next = some s') (hng : startsNewGame s e = false) :
    s'.score + pendingPoints s'
        = s.score + pendingPoints s
          + ((lockCount fuel s e).toList.map fun n => scoreTable.getD n 0).sum
    ∧ s'.linesClearedTotal + pendingLines s'
        = s.linesClearedTotal + pendingLines s
          + ((lockCount fuel s e).toList.map (fun (n : Nat) => (n : Int))).sum
    ∧ (s.level = s.linesClearedTotal / 10 + 1 → s'.level = s'.linesClearedTotal / 10 + 1) := by
  rcases step_cases fuel s s' e next hs hng with
    ⟨p, hp, hs'⟩ | ⟨hn, _, hs'⟩ | ⟨hn, a, b, c, d⟩
  · obtain ⟨a, b, c, d⟩ := lockAndSpawn_ledger { s with piece := p } next
    rw [← hs'] at a b c d
    simp only at a b c d
    have hc : lockCount fuel s e = some (s.pf.mergePiece p).fullRows.length := by
      unfold lockCount; rw [hp]; rfl
    rw [hc]
    simp only [Option.toList, List.map_cons, List.map_nil, List.sum_cons, List.sum_nil,
      add_zero]
    unfold pendingPoints pendingLines
    rw [a, b, c, d]
    by_cases h0 : (s.pf.mergePiece p).fullRows.length = 0
    · rw [if_pos h0, List.append_nil, h0]
      refine ⟨?_, ?_, fun h => h⟩
      · simp [scoreTable]
      · simp
    · rw [if_neg h0]
      simp only [List.map_append, List.sum_append, List.map_cons, List.map_nil,
        List.sum_cons, List.sum_nil, add_zero]
      exact ⟨by ring, by ring, fun h => h⟩
  · have hc : lockCount fuel s e = none := by unfold lockCount; rw [hn]; rfl
    rw [hc]
    simp only [Option.toList, List.map_nil, List.sum_nil, add_zero]
    cases hp : s.pendingClears with
    | nil =>
      have : clearTimeout s next = s := by unfold clearTimeout; rw [hp]
      rw [hs', this]
      exact ⟨rfl, rfl, fun h => h⟩
    | cons fullRows rest =>
      obtain ⟨a, b, c, d⟩ := clearTimeout_ledger s next fullRows rest hp
      rw [← hs'] at a b c d
      unfold pendingPoints pendingLines
      rw [a, b, d, hp]
      simp only [List.map_cons, List.sum_cons]
      refine ⟨by ring, by ring, fun h => ?_⟩
      rw [c (Or.inl h)]
  · have hc : lockCount fuel s e = none := by unfold lockCount; rw [hn]; rfl
    rw [hc]
    simp only [Option.toList, List.map_nil, List.sum_nil, add_zero]
    unfold pendingPoints pendingLines
    rw [a, b, c, d]
    exact ⟨rfl, rfl, fun h => h⟩

theorem run_ledger (fuel : Nat) (events : List (Event × Shape)) :
    ∀ (s s' : GameState), run fuel s events = some s' → sameGame fuel s events = true →
      s'.score + pendingPoints s'
          = s.score + pendingPoints s
            + ((lockCounts fuel s events).map fun n => scoreTable.getD n 0).sum
      ∧ s'.linesClearedTotal + pendingLines s'
          = s.linesClearedTotal + pendingLines s
            + ((lockCounts fuel s events).map (fun (n : Nat) => (n : Int))).sum
      ∧ (s.level = s.linesClearedTotal / 10 + 1 →
          s'.level = s'.linesClearedTotal / 10 + 1) := by
  induction events with
  | nil =>
    intro s s' hr _
    simp only [run, Option.some.injEq] at hr
    subst hr
    simp [lockCounts]
  | cons ev rest ih =>
    intro s s' hr hsame
    obtain ⟨e, next⟩ := ev
    unfold run at hr
    unfold sameGame at hsame
    unfold lockCounts
    cases hs : step fuel s e next with
    | none => simp [hs] at hr
    | some s1 =>
      simp only [hs] at hr hsame ⊢
      simp only [Bool.and_eq_true, Bool.not_eq_true'] at hsame
      obtain ⟨a, b, c⟩ := step_ledger fuel s s1 e next hs hsame.1
      obtain ⟨a', b', c'⟩ := ih s1 s' hr hsame.2
      simp only [List.map_append, List.sum_append]
      refine ⟨?_, ?_, fun h => c' (c h)⟩
      · rw [a', a]; ring
      · rw [b', b]; ring

theorem startNewGame_ledger (s : GameState) (next : Shape) :
    (startNewGame s next).score = 0
    ∧ (startNewGame s next).linesClearedTotal = 0
    ∧ (startNewGame s next).level = 1
    ∧ (startNewGame s next).pendingClears = s.pendingClears := by
  unfold startNewGame updateLevel updateLines updateScore
  simp

/-- C6 as first stated fails for the score of a session: in the state `fullRowRun`
ends in the row removal of the last lock is pending; a click on Restart then
starts a new game without cancelling it, and when the timer fires the new game,
in which no piece has been locked, has 100 points and 1 line. -/
theorem new_game_scores_without_lock :
    Reachable fullRowState
    ∧ lockCounts 30 (startNewGame fullRowState Shape.T) [(Event.clearTimer, Shape.O)] = []
    ∧ (run 30 (startNewGame fullRowState Shape.T) [(Event.clearTimer, Shape.O)]).map
          (fun s => (s.score, s.linesClearedTotal, s.pendingClears)) = some (100, 1, [])
    ∧ ¬ (∀ (fuel : Nat) (s s' : GameState) (next : Shape) (events : List (Event × Shape)),
          Reachable s → sameGame fuel (startNewGame s next) events = true →
          run fuel (startNewGame s next) events = some s' → s'.pendingClears = [] →
          s'.score = ((lockCounts fuel (startNewGame s next) events).map
              fun n => scoreTable.getD n 0).sum) := by
  refine ⟨fullRowState_reachable, by decide, by decide, ?_⟩
  intro h
  have := h 30 fullRowState (clearTimeout (startNewGame fullRowState Shape.T) Shape.O)
    Shape.T [(Event.clearTimer, Shape.O)] fullRowState_reachable (by decide) (by decide)
    (by decide)
  exact absurd this (by decide)

/-- C6 (amended): a lock event runs `lockAndSpawn` on the locked piece; the lock
itself leaves score, lines and level as they are and, when n > 0 rows are full,
sets one row-removal timer that carries those rows.  The callback of that timer,
in whatever state it runs, adds table[n] to the score with
table = [0, 100, 300, 500, 800], adds n to the line total and sets the level to
floor(lines / 10) + 1 for the new total; one row adds 100 and four rows add 800.
Over a run of the game in which no new game is started, the score plus the points
of the timers still pending grows by the sum of table[n] over the lock events of
the run, and likewise the lines by the sum of n; so the score of a game that began
with no timer pending (the first game always does) is the sum of table[n] over
its lock events whenever no timer is pending.  Lines 0..9 give level 1, 10 lines
level 2 and 25 lines level 3. -/
theorem lock_scoring (fuel : Nat) (s s' : GameState) (events : List (Event × Shape))
    (hrun : run fuel s events = some s') (hsame : sameGame fuel s events = true) :
    (∀ (e : Event) (next : Shape) (p : Tetromino), lockedPiece fuel s e = some p →
        Locks s p
        ∧ step fuel s e next = some (lockAndSpawn { s with piece := p } next)
        ∧ lockCount fuel s e = some (s.pf.mergePiece p).fullRows.length
        ∧ (lockAndSpawn { s with piece := p } next).score = s.score
        ∧ (lockAndSpawn { s with piece := p } next).linesClearedTotal = s.linesClearedTotal
        ∧ (lockAndSpawn { s with piece := p } next).level = s.level
        ∧ (lockAndSpawn { s with piece := p } next).pendingClears
            = s.pendingClears ++
              (if (s.pf.mergePiece p).fullRows.length = 0 then []
               else [(s.pf.mergePiece p).fullRows]))
    ∧ (∀ (fullRows : List Nat) (rest : List (List Nat)) (next : Shape),
        s.pendingClears = fullRows :: rest →
        (clearTimeout s next).score = s.score + scoreTable.getD fullRows.length 0
        ∧ (clearTimeout s next).linesClearedTotal = s.linesClearedTotal + fullRows.length
        ∧ (s.level = s.linesClearedTotal / 10 + 1 ∨ 1 ≤ fullRows.length →
            (clearTimeout s next).level = (s.linesClearedTotal + fullRows.length) / 10 + 1)
        ∧ (clearTimeout s next).pendingClears = rest)
    ∧ (∀ (n : Nat) (next : Shape), 1 ≤ n →
        (lockCallback s n next).score = s.score + scoreTable.getD n 0
        ∧ (lockCallback s n next).linesClearedTotal = s.linesClearedTotal + n
        ∧ (lockCallback s n next).level = (s.linesClearedTotal + n) / 10 + 1)
    ∧ scoreTable = [0, 100, 300, 500, 800]
    ∧ (scoreLock s 1).score = s.score + 100
    ∧ (scoreLock s 4).score = s.score + 800
    ∧ s'.score + pendingPoints s'
        = s.score + pendingPoints s
          + ((lockCounts fuel s events).map fun n => scoreTable.getD n 0).sum
    ∧ s'.linesClearedTotal + pendingLines s'
        = s.linesClearedTotal + pendingLines s
          + ((lockCounts fuel s events).map (fun (n : Nat) => (n : Int))).sum
    ∧ (s.level = s.linesClearedTotal / 10 + 1 → s'.level = s'.linesClearedTotal / 10 + 1)
    ∧ (s.pendingClears = [] → s'.pendingClears = [] →
        s'.score = s.score + ((lockCounts fuel s events).map fun n => scoreTable.getD n 0).sum
        ∧ s'.linesClearedTotal
            = s.linesClearedTotal
              + ((lockCounts fuel s events).map (fun (n : Nat) => (n : Int))).sum)
    ∧ ((∃ first, s = initialState first)
          ∨ (∃ s0 next0, s = startNewGame s0 next0 ∧ s0.pendingClears = []) →
        s'.pendingClears = [] →
        s'.score = ((lockCounts fuel s events).map fun n => scoreTable.getD n 0).sum
        ∧ s'.linesClearedTotal
            = ((lockCounts fuel s events).map (fun (n : Nat) => (n : Int))).sum
        ∧ s'.level = s'.linesClearedTotal / 10 + 1)
    ∧ (0 ≤ s.linesClearedTotal → s.linesClearedTotal ≤ 9 → (updateLevel s).level = 1)
    ∧ (s.linesClearedTotal = 10 → (updateLevel s).level = 2)
    ∧ (s.linesClearedTotal = 25 → (updateLevel s).level = 3) := by
  have hlevel : (updateLevel s).level = s.linesClearedTotal / 10 + 1 := by
    unfold updateLevel
    simp only
    split
    · rfl
    · rename_i h; simp only [ne_eq, not_not] at h; exact h.symm
  have hone := (scoreLock_points s 1).1
  have hfour := (scoreLock_points s 4).1
  obtain ⟨ra, rb, rc⟩ := run_ledger fuel events s s' hrun hsame
  have hquiet : s.pendingClears = [] → s'.pendingClears = [] →
      s'.score = s.score + ((lockCounts fuel s events).map fun n => scoreTable.getD n 0).sum
      ∧ s'.linesClearedTotal
          = s.linesClearedTotal
            + ((lockCounts fuel s events).map (fun (n : Nat) => (n : Int))).sum := by
    intro h0 h1
    have e0 : pendingPoints s = 0 := by unfold pendingPoints; rw [h0]; rfl
    have e1 : pendingPoints s' = 0 := by unfold pendingPoints; rw [h1]; rfl
    have e2 : pendingLines s = 0 := by unfold pendingLines; rw [h0]; rfl
    have e3 : pendingLines s' = 0 := by unfold pendingLines; rw [h1]; rfl
    rw [e0, e1, add_zero, add_zero] at ra
    rw [e2, e3, add_zero, add_zero] at rb
    exact ⟨ra, rb⟩
  refine ⟨?_, ?_, ?_, rfl, ?_, ?_, ra, rb, rc, hquiet, ?_, ?_, ?_, ?_⟩
  · intro e next p hp
    obtain ⟨a, b, c, d⟩ := lockAndSpawn_ledger { s with piece := p } next
    refine ⟨lockedPiece_locks fuel s e p hp, lockedPiece_step fuel s e next p hp, ?_,
      a, b, c, d⟩
    unfold lockCount
    rw [hp]
    rfl
  · intro fullRows rest next hp
    exact clearTimeout_ledger s next fullRows rest hp
  · intro n next hn1
    obtain ⟨a, b, c⟩ := spawnNext_scores (scoreLock s n) next
    unfold lockCallback
    rw [a, b, c]
    exact scoreLock_scores s n (fun h => by omega)
  · rw [hone]; rfl
  · rw [hfour]; rfl
  · intro hstart h1
    have hs : s.score = 0 ∧ s.linesClearedTotal = 0 ∧ s.level = 1 ∧ s.pendingClears = [] := by
      rcases hstart with ⟨first, rfl⟩ | ⟨s0, next0, rfl, h0⟩
      · exact ⟨rfl, rfl, rfl, rfl⟩
      · obtain ⟨a, b, c, d⟩ := startNewGame_ledger s0 next0
        exact ⟨a, b, c, d.trans h0⟩
    obtain ⟨a, b, c, d⟩ := hs
    obtain ⟨qa, qb⟩ := hquiet d h1
    rw [a, zero_add] at qa
    rw [b, zero_add] at qb
    exact ⟨qa, qb, rc (by rw [b, c]; rfl)⟩
  · intro h0 h9; rw [hlevel]; omega
  · intro h; rw [hlevel, h]; rfl
  · intro h; rw [hlevel, h]; rfl

theorem lock_scoring_witness :
    (clearTimeout fullRowState Shape.T).score + pendingPoints (clearTimeout fullRowState Shape.T)
      = (initialState Shape.I).score + pendingPoints (initialState Shape.I)
        + ((lockCounts 30 (initialState Shape.I)
              (fullRowRun ++ [(Event.clearTimer, Shape.T)])).map
            fun n => scoreTable.getD n 0).sum :=
  (lock_scoring 30 (initialState Shape.I) (clearTimeout fullRowState Shape.T)
    (fullRowRun ++ [(Event.clearTimer, Shape.T)]) (by decide) (by decide)).2.2.2.2.2.2.1

end TetrisJS
